import Mathlib

/-!
# randomColor (src/assets/js/vendors.js, lines 27-453)

A shallow embedding of the colour generator and the properties proved about it.

Conventions of the embedding.

* JavaScript numbers are IEEE 754 doubles. A finite double is the rational it denotes
  (`ℚ`, or `Int` where the source keeps an integer), and every arithmetic step of the
  source is followed by the rounding to the nearest double, ties to even (`fadd`, `fsub`,
  `fmul`, `fdiv`); `Math.floor`, `Math.round` and `%` are exact. No operation of the
  program reaches the overflow threshold `2^1024`; the one division by zero it performs
  yields `NaN` (`JSNum`).
* A JavaScript string is the list of its characters (`JSString`).
* The module-level variable `seed` and the number of `Math.random()` calls made so far
  form the explicit state `Module`; `Math.random()` is an oracle `rand : Nat → ℚ`
  whose `i`-th call returns `rand i`.
* A thrown exception is a value of `JSError`.
-/

namespace RandomColor

/-! ## Values -/

/-- A JavaScript string, as the list of its characters. -/
abbrev JSString := List Char

/-- The exceptions the generator can throw. -/
inductive JSError where
  /-- `TypeError('The seed value must be an integer or string')`, line 53. -/
  | invalidSeed
  /-- The engine's `TypeError` for reading a property of `undefined`. -/
  | undefinedProperty
  deriving DecidableEq, Repr

deriving instance DecidableEq for Except

/-- The result of a JavaScript division: a finite number, an infinity or `NaN`. -/
inductive JSNum where
  | fin (q : ℚ)
  | posInf
  | negInf
  | nan
  deriving DecidableEq, Repr

/-! ## JavaScript numbers -/

/-- Evaluation order: the number `n` is computed first, then handed to `f`. -/
def forceNat {α : Type} (n : Nat) (f : Nat → α) : α :=
  match n with
  | 0 => f 0
  | k + 1 => f (k + 1)

/-- Evaluation order: the integer `i` is computed first, then handed to `f`. -/
def forceInt {α : Type} (i : Int) (f : Int → α) : α :=
  match i with
  | Int.ofNat n => forceNat n fun k => f (Int.ofNat k)
  | Int.negSucc n => forceNat n fun k => f (Int.negSucc k)

/-- Binary search for the position of the leading bit of `n`, from the bit `2^j` down. -/
def log2Search : Nat → Nat → Nat → Nat
  | 0, _, acc => acc
  | j + 1, n, acc =>
    if 2 ^ (acc + 2 ^ j) ≤ n then log2Search j n (acc + 2 ^ j) else log2Search j n acc

/-- The position of the leading bit of `n`: the `k` with `2^k ≤ n < 2^(k+1)`. -/
def log2 (n : Nat) : Nat := if n < 2 ^ (2 ^ 12) then log2Search 12 n 0 else Nat.log2 n

/-- The quotient `n / d` rounded to the nearest integer, a tie going to the even one. -/
def roundQuotient (n d : Nat) : Nat :=
  forceNat (n / d) fun q =>
  forceNat (n % d) fun r =>
    if 2 * r < d then q
    else if d < 2 * r then q + 1
    else if q % 2 = 0 then q else q + 1

/-- The double nearest to `n / d`, for positive `n` and `d`. With `2^E ≤ n/d < 2^(E+1)` the
doubles around `n / d` are the multiples of `2^(E-52)`, and of `2^(-1074)` in the subnormal
range; `u` is that exponent plus `1126`. No operation of the program reaches `2^1024`, where
the result would be an infinity. -/
def roundNat (n d : Nat) : ℚ :=
  forceNat (log2 n) fun a =>
  forceNat (log2 d) fun b =>
  forceNat (if d * 2 ^ (a - b) ≤ n * 2 ^ (b - a) then 0 else 1) fun c =>
  forceNat (max (a + 1074 - (b + c)) 52) fun u =>
  forceNat (roundQuotient (n * 2 ^ (1126 - u)) (d * 2 ^ (u - 1126))) fun k =>
    mkRat (k * 2 ^ (u - 1126) : Nat) (2 ^ (1126 - u))

/-- The double nearest to `n / d`, for an integer `n` and a positive `d`. -/
def roundInt (n : Int) (d : Nat) : ℚ :=
  match n with
  | Int.ofNat k => forceNat k fun k => forceNat d fun d => if k = 0 then 0 else roundNat k d
  | Int.negSucc k => forceNat k fun k => forceNat d fun d => -roundNat (k + 1) d

/-- The double nearest to the rational `q`, ties to even: the value of a numeric literal. -/
def toDouble (q : ℚ) : ℚ := roundInt q.num q.den

/-- The JavaScript `x + y` on doubles. -/
def fadd (x y : ℚ) : ℚ :=
  forceInt x.num fun xn => forceNat x.den fun xd =>
  forceInt y.num fun yn => forceNat y.den fun yd =>
    roundInt (xn * yd + yn * xd) (xd * yd)

/-- The JavaScript `x - y` on doubles. -/
def fsub (x y : ℚ) : ℚ :=
  forceInt x.num fun xn => forceNat x.den fun xd =>
  forceInt y.num fun yn => forceNat y.den fun yd =>
    roundInt (xn * yd - yn * xd) (xd * yd)

/-- The JavaScript `x * y` on doubles. -/
def fmul (x y : ℚ) : ℚ :=
  forceInt x.num fun xn => forceNat x.den fun xd =>
  forceInt y.num fun yn => forceNat y.den fun yd =>
    roundInt (xn * yn) (xd * yd)

/-- The JavaScript `x / y` on doubles, for `y ≠ 0`. -/
def fdiv (x y : ℚ) : ℚ :=
  forceInt x.num fun xn => forceNat x.den fun xd =>
  forceInt y.num fun yn => forceNat y.den fun yd =>
    roundInt (xn * yd * Int.sign yn) (xd * yn.natAbs)

/-- The JavaScript `a * b` on integer-valued doubles; the result is integer valued. -/
def imul (a b : Int) : Int := ⌊fmul a b⌋

/-- The JavaScript `a + b` on integer-valued doubles; the result is integer valued. -/
def iadd (a b : Int) : Int := ⌊fadd a b⌋

/-- The JavaScript `x / y` on doubles, a zero divisor included. -/
def jsDiv (x y : ℚ) : JSNum :=
  if y = 0 then
    (if x = 0 then JSNum.nan else if 0 < x then JSNum.posInf else JSNum.negInf)
  else JSNum.fin (fdiv x y)

/-- The value `options.seed` can hold. -/
inductive SeedOpt where
  /-- Either `undefined` or `null`. -/
  | absent
  /-- An integer-valued number (a double whose value is the integer `n`). -/
  | int (n : Int)
  /-- A string. -/
  | str (s : JSString)
  /-- Anything else: a non-integer number, a boolean, an object. -/
  | other
  deriving DecidableEq, Repr

/-- The value `options.hue` can hold. -/
inductive HueOpt where
  /-- Either `undefined` or `null`. -/
  | absent
  /-- A string: a family name, a hex colour, or any other text. -/
  | str (s : JSString)
  /-- An integer-valued number of magnitude below `10^21`, whose decimal string is the
  numeral of `n`, so that `parseInt` returns `n` itself. -/
  | num (n : Int)
  deriving DecidableEq, Repr

/-- The cases of `options.luminosity` the `switch` statements distinguish. -/
inductive Luminosity where
  | bright
  | dark
  | light
  | random
  /-- Absent, or any value without a `case`. -/
  | default
  deriving DecidableEq, Repr

/-- The cases of `options.format` in `setFormat`. -/
inductive Format where
  | hsvArray
  | hslArray
  | hsl
  | hsla
  | rgbArray
  | rgb
  | rgba
  /-- The `default:` branch: `'hex'`, absent, or any other value. -/
  | hex
  deriving DecidableEq, Repr

/-- The options object. `count` is absent (`none`) or a non-negative integer;
`alpha` is absent or a number. -/
structure Options where
  seed : SeedOpt
  count : Option Nat
  hue : HueOpt
  luminosity : Luminosity
  format : Format
  alpha : Option ℚ
  deriving DecidableEq, Repr

/-- One colour as `setFormat` returns it. The string formats are kept as their
components: `hsl h s l` stands for the text `'hsl(h, s%, l%)'`, and so on. -/
inductive Color where
  | hsvArray (h s v : Int)
  | hslArray (h : Int) (s : JSNum) (l : ℚ)
  | hsl (h : Int) (s : JSNum) (l : ℚ)
  | hsla (h : Int) (s : JSNum) (l : ℚ) (alpha : ℚ)
  | rgbArray (r g b : Int)
  | rgb (r g b : Int)
  | rgba (r g b : Int) (alpha : ℚ)
  | hex (text : JSString)
  deriving DecidableEq, Repr

/-- What `randomColor` returns: one colour, or the array built by the count loop. -/
inductive Value where
  | color (c : Color)
  | colors (cs : List Color)
  deriving DecidableEq, Repr

/-- The mutable state outside the call: the module-level `seed` (line 30, `none` is
`null`) and the number of `Math.random()` calls made so far. -/
structure Module where
  seed : Option Int
  draws : Nat
  deriving DecidableEq, Repr

/-! ## The colour dictionary (lines 307-374) -/

/-- One entry of `colorDictionary`. -/
structure ColorInfo where
  hueRange : Option (Int × Int)
  lowerBounds : List (Int × Int)
  saturationRange : Int × Int
  brightnessRange : Int × Int
  deriving DecidableEq, Repr

/-- The function `defineColor`, lines 307-322: appends the entry for `name`. -/
def defineColor (name : JSString) (hueRange : Option (Int × Int))
    (lowerBounds : List (Int × Int)) (dict : List (JSString × ColorInfo)) :
    List (JSString × ColorInfo) :=
  let sMin := (lowerBounds.headD (0, 0)).1
  let sMax := (lowerBounds.getLastD (0, 0)).1
  let bMin := (lowerBounds.getLastD (0, 0)).2
  let bMax := (lowerBounds.headD (0, 0)).2
  dict ++ [(name,
    { hueRange := hueRange, lowerBounds := lowerBounds,
      saturationRange := (sMin, sMax), brightnessRange := (bMin, bMax) })]

/-- The function `loadColorBounds`, lines 324-374, run once on the empty dictionary. -/
def loadColorBounds : List (JSString × ColorInfo) :=
  defineColor "pink".toList (some (283, 334))
    [(20,100),(30,90),(40,86),(60,84),(80,80),(90,75),(100,73)] <|
  defineColor "purple".toList (some (258, 282))
    [(20,100),(30,87),(40,79),(50,70),(60,65),(70,59),(80,52),(90,45),(100,42)] <|
  defineColor "blue".toList (some (179, 257))
    [(20,100),(30,86),(40,80),(50,74),(60,60),(70,52),(80,44),(90,39),(100,35)] <|
  defineColor "green".toList (some (63, 178))
    [(30,100),(40,90),(50,85),(60,81),(70,74),(80,64),(90,50),(100,40)] <|
  defineColor "yellow".toList (some (47, 62))
    [(25,100),(40,94),(50,89),(60,86),(70,84),(80,82),(90,80),(100,75)] <|
  defineColor "orange".toList (some (19, 46))
    [(20,100),(30,93),(40,88),(50,86),(60,85),(70,70),(100,70)] <|
  defineColor "red".toList (some (-26, 18))
    [(20,100),(30,92),(40,89),(50,85),(60,78),(70,70),(80,60),(90,55),(100,50)] <|
  defineColor "monochrome".toList none [(0,0),(100,0)] []

/-- The shared `colorDictionary` after line 36, in insertion order. -/
def colorDictionary : List (JSString × ColorInfo) := loadColorBounds

/-- The lookup `colorDictionary[name]`. -/
def dictionaryEntry (name : JSString) : Option ColorInfo :=
  (colorDictionary.find? (fun e => e.1 == name)).map (fun e => e.2)

/-- The scan of `getColorInfo`, lines 269-276: the first entry whose hue range
contains `hue`; `none` is the string `'Color not found'`. -/
def getColorInfoLoop : List (JSString × ColorInfo) → Int → Option ColorInfo
  | [], _ => none
  | (_, color) :: rest, hue =>
    match color.hueRange with
    | some (lo, hi) =>
      if hue ≥ lo ∧ hue ≤ hi then some color else getColorInfoLoop rest hue
    | none => getColorInfoLoop rest hue

/-- The function `getColorInfo`, lines 262-277. -/
def getColorInfo (hue : Int) : Option ColorInfo :=
  let hue1 := if hue ≥ 334 ∧ hue ≤ 360 then hue - 360 else hue
  getColorInfoLoop colorDictionary hue1

/-- The function `getSaturationRange`, lines 258-260. Reading `saturationRange` off
the string `'Color not found'` gives `undefined`, and indexing that throws. -/
def getSaturationRange (hue : Int) : Except JSError (Int × Int) :=
  match getColorInfo hue with
  | some info => .ok info.saturationRange
  | none => .error JSError.undefinedProperty

/-- The loop of `getMinimumBrightness`, lines 210-228, over consecutive points. The
saturations of every table increase, so the divisor `s2 - s1` is not zero. -/
def minimumBrightnessLoop : List (Int × Int) → Int → ℚ
  | (s1, v1) :: (s2, v2) :: rest, S =>
    if S ≥ s1 ∧ S ≤ s2 then
      let m : ℚ := fdiv (fsub v2 v1) (fsub s2 s1)
      let b : ℚ := fsub v1 (fmul m s1)
      fadd (fmul m S) b
    else minimumBrightnessLoop ((s2, v2) :: rest) S
  | _, _ => 0

/-- The function `getMinimumBrightness`, lines 206-229. -/
def getMinimumBrightness (H S : Int) : Except JSError ℚ :=
  match getColorInfo H with
  | some info => .ok (minimumBrightnessLoop info.lowerBounds S)
  | none => .error JSError.undefinedProperty

/-! ## Strings and `parseInt` -/

/-- The UTF-16 code units of one character, as `charCodeAt` sees them. -/
def utf16Units (c : Char) : List Nat :=
  if c.toNat < 65536 then [c.toNat]
  else [55296 + (c.toNat - 65536) / 1024, 56320 + (c.toNat - 65536) % 1024]

/-- The constant `Number.MAX_SAFE_INTEGER`. -/
def MAX_SAFE_INTEGER : Int := 2 ^ 53 - 1

/-- The loop of `stringToInteger`, lines 445-448, over the remaining code units. -/
def stringToIntegerLoop : List Nat → Int → Int
  | [], total => total
  | c :: rest, total =>
    if total ≥ MAX_SAFE_INTEGER then total else stringToIntegerLoop rest (iadd total c)

/-- The function `stringToInteger`, lines 443-450. -/
def stringToInteger (string : JSString) : Int :=
  stringToIntegerLoop (string.flatMap utf16Units) 0

/-- The white space and line terminators that `parseInt` skips at the start. -/
def isStrWhiteSpace (c : Char) : Bool :=
  let n := c.toNat
  (9 ≤ n && n ≤ 13) || n == 32 || n == 160 || n == 5760 || (8192 ≤ n && n ≤ 8202) ||
    n == 8232 || n == 8233 || n == 8239 || n == 8287 || n == 12288 || n == 65279

/-- The value of a character as a digit, letters counting from ten. -/
def digitValue (c : Char) : Option Nat :=
  let n := c.toNat
  if 48 ≤ n ∧ n ≤ 57 then some (n - 48)
  else if 97 ≤ n ∧ n ≤ 122 then some (n - 87)
  else if 65 ≤ n ∧ n ≤ 90 then some (n - 55)
  else none

/-- The value of `c` as a digit of the given radix, if it is one. -/
def radixDigit (radix : Nat) (c : Char) : Option Nat :=
  match digitValue c with
  | some d => if d < radix then some d else none
  | none => none

/-- The longest prefix of radix digits read as a number; `acc` is `none` until a
digit has been read. -/
def parseDigits (radix : Nat) : List Char → Option Nat → Option Nat
  | [], acc => acc
  | c :: rest, acc =>
    match radixDigit radix c with
    | some d => parseDigits radix rest (some (acc.getD 0 * radix + d))
    | none => acc

/-- The builtin `parseInt(string, radix)`; radix `0` is an absent radix and `none`
is `NaN`. -/
def parseInt (string : JSString) (radix : Nat) : Option Int :=
  let s1 := string.dropWhile isStrWhiteSpace
  let neg : Bool := s1.head? == some '-'
  let s2 := if s1.head? == some '-' || s1.head? == some '+' then s1.tail else s1
  if radix ≠ 0 ∧ (radix < 2 ∨ 36 < radix) then none
  else
    let stripPrefix : Bool := radix == 0 || radix == 16
    let r0 := if radix = 0 then 10 else radix
    let hexPrefixed : Bool :=
      stripPrefix && (s2.take 2 == ['0', 'x'] || s2.take 2 == ['0', 'X'])
    let r := if hexPrefixed then 16 else r0
    let s3 := if hexPrefixed then s2.drop 2 else s2
    match parseDigits r s3 none with
    | some n => some (if neg then -(n : Int) else (n : Int))
    | none => none

/-- The test `n === parseInt(n, 10)` of line 44 on an integer-valued number `n`.
`parseInt` first converts `n` to a string. Below `10^21` that string is the decimal
numeral of `n` and the parse gives `n` back. From `10^21` on the string is in exponent
form, such as `1e+21`, the parse stops at the first character that is not a digit,
and the result differs from `n`. -/
def passesIntegerTest (n : Int) : Bool := decide (n.natAbs < 10 ^ 21)

/-! ## Hex colours (lines 411-428) -/

/-- A leading `#` removed if there is one: `hex.replace(/^#/, '')`, and the `^#?` of
the pattern of line 248. -/
def dropLeadingHash : JSString → JSString
  | '#' :: t => t
  | t => t

/-- The pattern `/^#?([0-9A-F]{3}|[0-9A-F]{6})$/i` of line 248. -/
def matchesHexPattern (s : JSString) : Bool :=
  let body := dropLeadingHash s
  (body.length == 3 || body.length == 6) && body.all (fun c => (radixDigit 16 c).isSome)

/-- The JavaScript `%`: the remainder has the sign of the dividend, and it is exact. -/
def jsRem (x y : ℚ) : ℚ :=
  let q := x / y
  x - y * (if 0 ≤ q then ⌊q⌋ else ⌈q⌉)

/-- Lines 419-427 of `HexToHSB`: hue, saturation and brightness of three channels in
`[0,1]`. A division `0 / 0` is `NaN`, and `NaN || 0` is `0`. -/
def hsbOfChannels (red green blue : ℚ) : ℚ × ℚ × ℚ :=
  let cMax := max (max red green) blue
  let delta := fsub cMax (min (min red green) blue)
  let saturation := if cMax = 0 then 0 else fdiv delta cMax
  if cMax = red then
    (if delta = 0 then 0 else fmul 60 (jsRem (fdiv (fsub green blue) delta) 6), saturation,
      cMax)
  else if cMax = green then
    (if delta = 0 then 0 else fmul 60 (fadd (fdiv (fsub blue red) delta) 2), saturation, cMax)
  else
    (if delta = 0 then 0 else fmul 60 (fadd (fdiv (fsub red green) delta) 4), saturation, cMax)

/-- The function `HexToHSB`, lines 411-428. `none` is the `undefined` the function
returns when a channel is `NaN` and no `case` of the `switch` matches. -/
def HexToHSB (hex : JSString) : Option (ℚ × ℚ × ℚ) :=
  let hex1 := dropLeadingHash hex
  let hex2 := if hex1.length = 3 then hex1.flatMap (fun c => [c, c]) else hex1
  match parseInt ((hex2.drop 0).take 2) 16, parseInt ((hex2.drop 2).take 2) 16,
      parseInt ((hex2.drop 4).take 2) 16 with
  | some r, some g, some b => some (hsbOfChannels (fdiv r 255) (fdiv g 255) (fdiv b 255))
  | _, _, _ => none

/-- Lines 243-254 of `getHueRange`: the string cases and the default `[0,360]`.
A name that `colorDictionary` only inherits from `Object.prototype` has no `hueRange`
and never matches the hex pattern, so it ends at `[0,360]` like a name that is not
there. `HexToHSB(colorInput)[0]` throws when `HexToHSB` returns `undefined`. -/
def getHueRangeOfString (colorInput : HueOpt) : Except JSError (ℚ × ℚ) :=
  match colorInput with
  | .str s =>
    match dictionaryEntry s with
    | some color =>
      match color.hueRange with
      | some r => .ok (r.1, r.2)
      | none => .ok (0, 360)
    | none =>
      if matchesHexPattern s then
        match HexToHSB s with
        | some hsb => .ok (hsb.1, hsb.1)
        | none => .error JSError.undefinedProperty
      else .ok (0, 360)
  | _ => .ok (0, 360)

/-- The function `getHueRange`, lines 231-256. `parseInt` of `undefined` or `null`
is `NaN`. -/
def getHueRange (colorInput : HueOpt) : Except JSError (ℚ × ℚ) :=
  let number : Option Int := match colorInput with
    | .absent => none
    | .str s => parseInt s 0
    | .num n => some n
  match number with
  | some n =>
    if n < 360 ∧ n > 0 then .ok (n, n) else getHueRangeOfString colorInput
  | none => getHueRangeOfString colorInput

/-! ## The random source (lines 279-290) -/

/-- The JavaScript `x || d` on a number `x` that is not `NaN`. -/
def jsOr (x d : ℚ) : ℚ := if x = 0 then d else x

/-- The function `randomWithin`, lines 279-290. Unseeded, it consumes one value of the
oracle; seeded, it advances the module-level `seed`. `Int.tmod` is the JavaScript `%`
on integer-valued doubles: the remainder has the sign of the dividend, and it is exact. -/
def randomWithin (rand : Nat → ℚ) (range : ℚ × ℚ) (m : Module) : Int × Module :=
  match m.seed with
  | none =>
    (⌊fadd range.1 (fmul (rand m.draws) (fsub (fadd range.2 1) range.1))⌋,
      { m with draws := m.draws + 1 })
  | some seed =>
    let max := jsOr range.2 1
    let min := jsOr range.1 0
    let seed1 := Int.tmod (iadd (imul seed 9301) 49297) 233280
    let rnd : ℚ := fdiv seed1 233280
    (⌊fadd min (fmul rnd (fsub max min))⌋, { m with seed := some seed1 })

/-! ## Picking hue, saturation and brightness (lines 98-167) -/

/-- The function `pickHue`, lines 98-109. -/
def pickHue (rand : Nat → ℚ) (options : Options) (m : Module) :
    Except JSError Int × Module :=
  match getHueRange options.hue with
  | .error e => (.error e, m)
  | .ok hueRange =>
    let (hue, m1) := randomWithin rand hueRange m
    (.ok (if hue < 0 then 360 + hue else hue), m1)

/-- The function `pickSaturation`, lines 111-143. -/
def pickSaturation (rand : Nat → ℚ) (hue : Int) (options : Options) (m : Module) :
    Except JSError Int × Module :=
  if options.hue = HueOpt.str "monochrome".toList then (.ok 0, m)
  else if options.luminosity = Luminosity.random then
    let (s, m1) := randomWithin rand (0, 100) m
    (.ok s, m1)
  else
    match getSaturationRange hue with
    | .error e => (.error e, m)
    | .ok saturationRange =>
      let sMin0 := saturationRange.1
      let sMax0 := saturationRange.2
      let sMin := match options.luminosity with
        | .bright => 55
        | .dark => sMax0 - 10
        | _ => sMin0
      let sMax := match options.luminosity with
        | .light => 55
        | _ => sMax0
      let (s, m1) := randomWithin rand ((sMin : ℚ), (sMax : ℚ)) m
      (.ok s, m1)

/-- The function `pickBrightness`, lines 145-167. -/
def pickBrightness (rand : Nat → ℚ) (H S : Int) (options : Options) (m : Module) :
    Except JSError Int × Module :=
  match getMinimumBrightness H S with
  | .error e => (.error e, m)
  | .ok bMin0 =>
    let bMax0 : ℚ := 100
    let range : ℚ × ℚ := match options.luminosity with
      | .dark => (bMin0, fadd bMin0 20)
      | .light => (fdiv (fadd bMax0 bMin0) 2, bMax0)
      | .random => (0, 100)
      | _ => (bMin0, bMax0)
    let (b, m1) := randomWithin rand range m
    (.ok b, m1)

/-! ## Output formats (lines 169-204, 292-305, 376-441) -/

/-- The function `HSVtoRGB`, lines 376-409. -/
def HSVtoRGB (hsv : Int × Int × Int) : Int × Int × Int :=
  let h0 := hsv.1
  let h1 := if h0 = 0 then 1 else h0
  let h2 := if h1 = 360 then 359 else h1
  let h : ℚ := fdiv h2 360
  let s : ℚ := fdiv hsv.2.1 100
  let v : ℚ := fdiv hsv.2.2 100
  let h_i : Int := ⌊fmul h 6⌋
  let f : ℚ := fsub (fmul h 6) h_i
  let p : ℚ := fmul v (fsub 1 s)
  let q : ℚ := fmul v (fsub 1 (fmul f s))
  let t : ℚ := fmul v (fsub 1 (fmul (fsub 1 f) s))
  let rgb : ℚ × ℚ × ℚ :=
    if h_i = 0 then (v, t, p)
    else if h_i = 1 then (q, v, p)
    else if h_i = 2 then (p, v, t)
    else if h_i = 3 then (p, q, v)
    else if h_i = 4 then (t, p, v)
    else if h_i = 5 then (v, p, q)
    else (256, 256, 256)
  (⌊fmul rgb.1 255⌋, ⌊fmul rgb.2.1 255⌋, ⌊fmul rgb.2.2 255⌋)

/-- The call `c.toString(16)` on an integer. -/
def toString16 (c : Int) : JSString :=
  if c < 0 then '-' :: Nat.toDigits 16 c.natAbs else Nat.toDigits 16 c.natAbs

/-- The inner function `componentToHex`, lines 296-299. -/
def componentToHex (c : Int) : JSString :=
  let hex := toString16 c
  if hex.length = 1 then '0' :: hex else hex

/-- The function `HSVtoHex`, lines 292-305. -/
def HSVtoHex (hsv : Int × Int × Int) : JSString :=
  let rgb := HSVtoRGB hsv
  '#' :: (componentToHex rgb.1 ++ componentToHex rgb.2.1 ++ componentToHex rgb.2.2)

/-- The builtin `Math.round(x) / 100` after a division; `Math.round` is exact. -/
def roundDiv100 : JSNum → JSNum
  | .fin q => .fin (fdiv (⌊q + 1 / 2⌋ : Int) 100)
  | x => x

/-- The product `x * 10000` after a division. -/
def times10000 : JSNum → JSNum
  | .fin q => .fin (fmul q 10000)
  | x => x

/-- The function `HSVtoHSL`, lines 430-441. -/
def HSVtoHSL (hsv : Int × Int × Int) : Int × JSNum × ℚ :=
  let h := hsv.1
  let s : ℚ := fdiv hsv.2.1 100
  let v : ℚ := fdiv hsv.2.2 100
  let k : ℚ := fmul (fsub 2 s) v
  (h, roundDiv100 (times10000 (jsDiv (fmul s v) (if k < 1 then k else fsub 2 k))),
    fmul (fdiv k 2) 100)

/-- The expression `options.alpha || Math.random()` of lines 185 and 197: the oracle
is consulted when `alpha` is absent or zero. -/
def alphaOrRandom (rand : Nat → ℚ) (options : Options) (m : Module) : ℚ × Module :=
  match options.alpha with
  | some a => if a = 0 then (rand m.draws, { m with draws := m.draws + 1 }) else (a, m)
  | none => (rand m.draws, { m with draws := m.draws + 1 })

/-- The function `setFormat`, lines 169-204. -/
def setFormat (rand : Nat → ℚ) (hsv : Int × Int × Int) (options : Options) (m : Module) :
    Color × Module :=
  match options.format with
  | .hsvArray => (Color.hsvArray hsv.1 hsv.2.1 hsv.2.2, m)
  | .hslArray =>
    let hsl := HSVtoHSL hsv
    (Color.hslArray hsl.1 hsl.2.1 hsl.2.2, m)
  | .hsl =>
    let hsl := HSVtoHSL hsv
    (Color.hsl hsl.1 hsl.2.1 hsl.2.2, m)
  | .hsla =>
    let hslColor := HSVtoHSL hsv
    let (alpha, m1) := alphaOrRandom rand options m
    (Color.hsla hslColor.1 hslColor.2.1 hslColor.2.2 alpha, m1)
  | .rgbArray =>
    let rgb := HSVtoRGB hsv
    (Color.rgbArray rgb.1 rgb.2.1 rgb.2.2, m)
  | .rgb =>
    let rgb := HSVtoRGB hsv
    (Color.rgb rgb.1 rgb.2.1 rgb.2.2, m)
  | .rgba =>
    let rgbColor := HSVtoRGB hsv
    let (alpha, m1) := alphaOrRandom rand options m
    (Color.rgba rgbColor.1 rgbColor.2.1 rgbColor.2.2 alpha, m1)
  | .hex => (Color.hex (HSVtoHex hsv), m)

/-! ## The entry point (lines 38-96) -/

/-- Lines 44-58: the module-level `seed` is set from `options.seed`, or the call
throws. A string is never strictly equal to a number, so a string seed fails the first
test and reaches the second branch. -/
def seedSetup (seedOption : SeedOpt) (m : Module) : Except JSError Module :=
  match seedOption with
  | .int n =>
    if passesIntegerTest n then .ok { m with seed := some n }
    else .error JSError.invalidSeed
  | .str s => .ok { m with seed := some (stringToInteger s) }
  | .other => .error JSError.invalidSeed
  | .absent => .ok { m with seed := none }

/-- Lines 85-95: hue, then saturation, then brightness, then the format. -/
def generate (rand : Nat → ℚ) (options : Options) (m : Module) :
    Except JSError Color × Module :=
  match pickHue rand options m with
  | (.error e, m1) => (.error e, m1)
  | (.ok H, m1) =>
    match pickSaturation rand H options m1 with
    | (.error e, m2) => (.error e, m2)
    | (.ok S, m2) =>
      match pickBrightness rand H S options m2 with
      | (.error e, m3) => (.error e, m3)
      | (.ok B, m3) =>
        let (c, m4) := setFormat rand (H, S, B) options m3
        (.ok c, m4)

/-- The call `randomColor(options)` when `options.count` is `null`: the seed set-up
followed by one colour. This is the call made inside the count loop at line 77. -/
def randomColorSingle (rand : Nat → ℚ) (options : Options) (m : Module) :
    Except JSError Color × Module :=
  match seedSetup options.seed m with
  | .error e => (.error e, m)
  | .ok m1 => generate rand options m1

/-- Truthiness of the module-level `seed`. -/
def seedTruthy (seed : Option Int) : Bool :=
  match seed with
  | some n => n != 0
  | none => false

/-- Truthiness of `options.seed` for the values that pass the seed set-up. -/
def seedOptionTruthy : SeedOpt → Bool
  | .int n => n != 0
  | .str s => !s.isEmpty
  | .other => true
  | .absent => false

/-- The statement `options.seed += 1` of line 75: the double sum on a number,
concatenation of the text `1` on a string. -/
def seedOptionAddOne : SeedOpt → SeedOpt
  | .int n => .int (iadd n 1)
  | .str s => .str (s ++ ['1'])
  | x => x

/-- The `while` loop of lines 70-78. The first argument is the number of rounds left,
`totalColors - colors.length`; the loop returns the array, the options object as the
loop leaves it and the module state. -/
def countLoop (rand : Nat → ℚ) :
    Nat → Options → Module → List Color → Except JSError (List Color) × Options × Module
  | 0, options, m, colors => (.ok colors, options, m)
  | k + 1, options, m, colors =>
    let options1 :=
      if seedTruthy m.seed && seedOptionTruthy options.seed then
        { options with seed := seedOptionAddOne options.seed }
      else options
    match randomColorSingle rand options1 m with
    | (.error e, m1) => (.error e, options1, m1)
    | (.ok c, m1) => countLoop rand k options1 m1 (colors ++ [c])

/-- The outcome of one call of `randomColor`: what it returns or throws, the caller's
options object after the call, and the module state after the call. -/
structure Result where
  outcome : Except JSError Value
  options : Options
  module : Module
  deriving DecidableEq

/-- The function `randomColor`, lines 38-96. -/
def randomColor (rand : Nat → ℚ) (options : Options) (m : Module) : Result :=
  match seedSetup options.seed m with
  | .error e => { outcome := .error e, options := options, module := m }
  | .ok m1 =>
    match options.count with
    | some totalColors =>
      match countLoop rand totalColors { options with count := none } m1 [] with
      | (.error e, options1, m2) =>
        { outcome := .error e, options := options1, module := m2 }
      | (.ok colors, options1, m2) =>
        { outcome := .ok (Value.colors colors),
          options := { options1 with count := some totalColors }, module := m2 }
    | none =>
      match generate rand options m1 with
      | (.error e, m2) => { outcome := .error e, options := options, module := m2 }
      | (.ok c, m2) => { outcome := .ok (Value.color c), options := options, module := m2 }

/-! ## Vocabulary of the statements -/

/-- Rounding to the nearest integer, a tie going to the even one. -/
def roundHalfEven (q : ℚ) : Int :=
  if q - ⌊q⌋ < 1 / 2 then ⌊q⌋
  else if 1 / 2 < q - ⌊q⌋ then ⌊q⌋ + 1
  else if ⌊q⌋ % 2 = 0 then ⌊q⌋ else ⌊q⌋ + 1

/-- The exponent of the spacing of the doubles around `q`: `2^(e+52) ≤ |q| < 2^(e+53)`, and
`-1074` in the subnormal range. -/
def ulpExp (q : ℚ) : Int := max (Int.log 2 |q| - 52) (-1074)

/-- The double nearest to `q` by its defining property: the multiple of the spacing around
`q` that is nearest to `q`, a tie going to the even multiple. -/
def nearest (q : ℚ) : ℚ := (roundHalfEven (q / 2 ^ ulpExp q) : ℚ) * 2 ^ ulpExp q

/-- The integers `lo, lo + 1, ..., hi`. -/
def intsFromTo (lo hi : Int) : List Int :=
  (List.range (hi + 1 - lo).toNat).map (fun (i : Nat) => lo + (i : Int))

/-- The code of a hexadecimal digit: `0-9`, `a-f` or `A-F`. -/
def IsHexCode (n : Nat) : Prop :=
  (48 ≤ n ∧ n ≤ 57) ∨ (97 ≤ n ∧ n ≤ 102) ∨ (65 ≤ n ∧ n ≤ 70)

/-- A hue option that is `#` followed by three or six hexadecimal digits. -/
def IsHashHex (s : JSString) : Prop :=
  ∃ ds : List Char, s = '#' :: ds ∧ (ds.length = 3 ∨ ds.length = 6) ∧
    ∀ c ∈ ds, (radixDigit 16 c).isSome = true

/-- Every value of `Math.random()` is a double of `[0,1)`. -/
def RandOK (rand : Nat → ℚ) : Prop := ∀ i, 0 ≤ rand i ∧ rand i < 1 ∧ toDouble (rand i) = rand i

/-- The module-level `seed` is `null` or a non-negative integer. -/
def SeedNonneg (m : Module) : Prop := ∀ s, m.seed = some s → 0 ≤ s

/-- The state that line 286 computes from the state `s`. -/
def nextSeed (s : Int) : Int := Int.tmod (iadd (imul s 9301) 49297) 233280

/-- The value of line 281 when `Math.random()` returns `r`. -/
def drawUnseeded (range : ℚ × ℚ) (r : ℚ) : Int :=
  ⌊fadd range.1 (fmul r (fsub (fadd range.2 1) range.1))⌋

/-- The value of line 288 when the fraction `rnd` of line 287 is `t`. -/
def drawSeeded (range : ℚ × ℚ) (t : ℚ) : Int :=
  ⌊fadd (jsOr range.1 0) (fmul t (fsub (jsOr range.2 1) (jsOr range.1 0)))⌋

/-- The property of the intervals `getHueRange` returns that `pickHue` relies on: the widths
that lines 281 and 288 compute are not negative, and the draws at the extreme fractions
(`0` and `1 - 2^(-53)` unseeded, `±(1 - 2^(-18))` seeded) stay within `[-360, 360]`. -/
def HueRangeOK (r : ℚ × ℚ) : Prop :=
  0 ≤ fsub (fadd r.2 1) r.1 ∧ 0 ≤ fsub (jsOr r.2 1) (jsOr r.1 0) ∧
  -360 ≤ drawUnseeded r 0 ∧ drawUnseeded r (9007199254740991 / 9007199254740992) ≤ 360 ∧
  -360 ≤ drawSeeded r (-(262143 / 262144)) ∧ drawSeeded r (262143 / 262144) < 360

instance (r : ℚ × ℚ) : Decidable (HueRangeOK r) := by
  unfold HueRangeOK
  infer_instance

/-- Every value of `Math.random()` is at most `1 - 2^(-44)`. -/
def RandCapped (rand : Nat → ℚ) : Prop := ∀ i, rand i ≤ 17592186044415 / 17592186044416

/-- The facts about one dictionary entry that the saturation and brightness pickers
rely on: the saturation range ends at `100` and starts in `[0, 55]`; at every saturation
`S` in `[0, 100]` the envelope lies in `[0, 100]`, and it is at most `80` when `S` is `0` or
at least `90`. -/
def boundsFacts (info : ColorInfo) : Bool :=
  decide (info.saturationRange.2 = 100 ∧ 0 ≤ info.saturationRange.1 ∧
    info.saturationRange.1 ≤ 55) &&
  (intsFromTo 0 100).all fun S =>
    decide (0 ≤ minimumBrightnessLoop info.lowerBounds S ∧
      minimumBrightnessLoop info.lowerBounds S ≤ 100 ∧
      ((S = 0 ∨ 90 ≤ S) → minimumBrightnessLoop info.lowerBounds S ≤ 80))

/-- Two module states that hold the same seed, and a seed is set. -/
def SameSeed (m m' : Module) : Prop := m.seed = m'.seed ∧ m.seed ≠ none

/-- The format does not draw a random alpha: it is neither `'hsla'` nor `'rgba'`, or
`options.alpha` is a number other than zero. -/
def AlphaFixed (o : Options) : Prop :=
  (o.format ≠ .hsla ∧ o.format ≠ .rgba) ∨ ∃ a, o.alpha = some a ∧ a ≠ 0

/-- The seed option passes the seed set-up, and so does each of the values the count loop
reaches by adding one: an integer seed is a double below `10^21` in magnitude. -/
def SeedFits : SeedOpt → Nat → Prop
  | .absent, _ => True
  | .str _, _ => True
  | .int n, _ => toDouble (n : ℚ) = n ∧ n.natAbs < 10 ^ 21
  | .other, _ => False

/-- The pairs of consecutive points of a `lowerBounds` table. -/
def consecutivePairs (l : List (Int × Int)) : List ((Int × Int) × (Int × Int)) :=
  l.zip l.tail

/-- The interpolation between two points of a `lowerBounds` table, in exact arithmetic. -/
def interpolation (a b : Int × Int) (S : Int) : ℚ :=
  (a.2 : ℚ) + ((b.2 : ℚ) - a.2) * ((S : ℚ) - a.1) / ((b.1 : ℚ) - a.1)

/-- The facts about one `lowerBounds` table behind the envelope: the saturations increase
and lie in `[0, 100]`; at the saturation of every listed point the loop is within `2^(-46)`
of the brightness of the point; and at every saturation `S` of `[0, 100]` it is within
`2^(-46)` of the interpolation of every pair of consecutive points that brackets `S`. -/
def envelopeFacts (l : List (Int × Int)) : Bool :=
  decide (l.Pairwise (fun p q => p.1 < q.1)) &&
  l.all (fun p => decide (0 ≤ p.1 ∧ p.1 ≤ 100)) &&
  l.all (fun p =>
    decide (-(1 / 2 ^ 46) ≤ minimumBrightnessLoop l p.1 - p.2 ∧
      minimumBrightnessLoop l p.1 - p.2 ≤ 1 / 2 ^ 46)) &&
  (intsFromTo 0 100).all fun S =>
    (consecutivePairs l).all fun ab =>
      !decide (ab.1.1 ≤ S ∧ S ≤ ab.2.1) ||
        decide (-(1 / 2 ^ 46) ≤ minimumBrightnessLoop l S - interpolation ab.1 ab.2 S ∧
          minimumBrightnessLoop l S - interpolation ab.1 ab.2 S ≤ 1 / 2 ^ 46)

/-- The colour of the single call with the integer seed `t` and the other options of `o`. -/
def singleColorOfSeed (o : Options) (t : Int) : Except JSError Color :=
  (randomColorSingle (fun _ => 0) { o with seed := .int t, count := none } ⟨none, 0⟩).1

/-- The module-level seed that the single call with the integer seed `t` leaves behind. -/
def stateAfterSeed (o : Options) (t : Int) : Option Int :=
  (randomColorSingle (fun _ => 0) { o with seed := .int t, count := none } ⟨none, 0⟩).2.seed

/-! ## Facts about doubles -/

theorem forceNat_eq {α : Type} (n : Nat) (f : Nat → α) : forceNat n f = f n := by
  cases n <;> rfl

theorem forceInt_eq {α : Type} (i : Int) (f : Int → α) : forceInt i f = f i := by
  cases i <;> simp [forceInt, forceNat_eq]

theorem log2Search_spec (j : Nat) : ∀ n acc : Nat, 2 ^ acc ≤ n → n < 2 ^ (acc + 2 ^ j) →
    2 ^ log2Search j n acc ≤ n ∧ n < 2 ^ (log2Search j n acc + 1) := by
  induction j with
  | zero =>
    intro n acc h1 h2
    simpa [log2Search] using ⟨h1, h2⟩
  | succ j ih =>
    intro n acc h1 h2
    unfold log2Search
    split_ifs with h
    · apply ih _ _ h
      have : acc + 2 ^ j + 2 ^ j = acc + 2 ^ (j + 1) := by rw [pow_succ]; omega
      rw [this]
      exact h2
    · exact ih _ _ h1 (by omega)

theorem log2_spec (n : Nat) (hn : 0 < n) : 2 ^ log2 n ≤ n ∧ n < 2 ^ (log2 n + 1) := by
  unfold log2
  split_ifs with h
  · exact log2Search_spec 12 n 0 (by simpa using hn) (by rw [Nat.zero_add]; exact h)
  · exact ⟨Nat.log2_self_le (by omega), Nat.lt_log2_self⟩

theorem roundHalfEven_cases (q : ℚ) :
    roundHalfEven q = ⌊q⌋ ∨ roundHalfEven q = ⌊q⌋ + 1 := by
  unfold roundHalfEven
  split_ifs <;> simp

theorem roundHalfEven_intCast (n : Int) : roundHalfEven (n : ℚ) = n := by
  unfold roundHalfEven
  simp

theorem roundHalfEven_mono {x y : ℚ} (h : x ≤ y) : roundHalfEven x ≤ roundHalfEven y := by
  have hf : ⌊x⌋ ≤ ⌊y⌋ := Int.floor_le_floor h
  rcases lt_or_eq_of_le hf with hlt | heq
  · have h1 : roundHalfEven x ≤ ⌊x⌋ + 1 := by
      rcases roundHalfEven_cases x with h | h <;> omega
    have h2 : ⌊y⌋ ≤ roundHalfEven y := by
      rcases roundHalfEven_cases y with h | h <;> omega
    omega
  · unfold roundHalfEven
    rw [heq]
    have hxy : x - (⌊y⌋ : ℚ) ≤ y - (⌊y⌋ : ℚ) := by linarith
    split_ifs <;> first | omega | (exfalso; linarith)

theorem roundHalfEven_neg (q : ℚ) : roundHalfEven (-q) = -roundHalfEven q := by
  by_cases hint : (⌊q⌋ : ℚ) = q
  · rw [← hint, ← Int.cast_neg, roundHalfEven_intCast, roundHalfEven_intCast]
  · have h1 : (⌊q⌋ : ℚ) < q := lt_of_le_of_ne (Int.floor_le q) hint
    have h2 : q < (⌊q⌋ : ℚ) + 1 := Int.lt_floor_add_one q
    have hfl : ⌊-q⌋ = -⌊q⌋ - 1 := by
      rw [Int.floor_eq_iff]
      push_cast
      constructor <;> linarith
    unfold roundHalfEven
    rw [hfl]
    push_cast
    split_ifs <;> first | omega | (exfalso; linarith)

theorem roundQuotient_eq (n d : Nat) (hd : 0 < d) :
    ((roundQuotient n d : Nat) : Int) = roundHalfEven ((n : ℚ) / d) := by
  have hdq : (0 : ℚ) < d := by exact_mod_cast hd
  have hfloor : ⌊(n : ℚ) / d⌋ = ((n / d : Nat) : Int) := by
    have := Rat.floor_intCast_div_natCast (n : Int) d
    simpa using this
  have hsplit : (n : ℚ) / d - (((n / d : Nat) : Int) : ℚ) = ((n % d : Nat) : ℚ) / d := by
    have h2 : (n : ℚ) = d * ((n / d : Nat) : ℚ) + ((n % d : Nat) : ℚ) := by
      exact_mod_cast (Nat.div_add_mod n d).symm
    rw [Int.cast_natCast]
    field_simp
    linarith
  have c1 : ((n % d : Nat) : ℚ) / d < 1 / 2 ↔ 2 * (n % d) < d := by
    rw [div_lt_div_iff₀ hdq (by norm_num)]
    constructor
    · intro h
      have : ((2 * (n % d) : Nat) : ℚ) < (d : ℚ) := by push_cast; linarith
      exact_mod_cast this
    · intro h
      have : ((2 * (n % d) : Nat) : ℚ) < (d : ℚ) := by exact_mod_cast h
      push_cast at this
      linarith
  have c2 : 1 / 2 < ((n % d : Nat) : ℚ) / d ↔ d < 2 * (n % d) := by
    rw [div_lt_div_iff₀ (by norm_num) hdq]
    constructor
    · intro h
      have : (d : ℚ) < ((2 * (n % d) : Nat) : ℚ) := by push_cast; linarith
      exact_mod_cast this
    · intro h
      have : (d : ℚ) < ((2 * (n % d) : Nat) : ℚ) := by exact_mod_cast h
      push_cast at this
      linarith
  unfold roundQuotient roundHalfEven
  simp only [forceNat_eq]
  rw [hfloor, hsplit]
  simp only [c1, c2]
  split_ifs <;> push_cast <;> omega

theorem pow_trunc (p q : Nat) :
    ((2 : ℚ) ^ (p - q)) / (2 : ℚ) ^ (q - p) = (2 : ℚ) ^ ((p : Int) - q) := by
  rw [← zpow_natCast, ← zpow_natCast, ← zpow_sub₀ (two_ne_zero)]
  congr 1
  omega

theorem zpow_two_pos (e : Int) : (0 : ℚ) < 2 ^ e := zpow_pos (by norm_num) e

/-- The exponent of a positive rational caught between two consecutive powers of two. -/
theorem log_eq_of_bounds {x : ℚ} {E : Int} (h1 : (2 : ℚ) ^ E ≤ x) (h2 : x < (2 : ℚ) ^ (E + 1)) :
    Int.log 2 x = E := by
  have hx : 0 < x := lt_of_lt_of_le (zpow_two_pos E) h1
  have a1 : E ≤ Int.log 2 x := by
    rw [← Int.zpow_le_iff_le_log (by norm_num) hx]
    simpa using h1
  have a2 : Int.log 2 x < E + 1 := by
    rw [← Int.lt_zpow_iff_log_lt (by norm_num) hx]
    simpa using h2
  omega

theorem log_bounds {x : ℚ} (hx : 0 < x) :
    (2 : ℚ) ^ Int.log 2 x ≤ x ∧ x < (2 : ℚ) ^ (Int.log 2 x + 1) := by
  have h1 := Int.zpow_log_le_self (b := 2) (by norm_num) hx
  have h2 := Int.lt_zpow_succ_log_self (b := 2) (by norm_num) x
  exact ⟨by simpa using h1, by simpa using h2⟩


theorem roundNat_eq (n d : Nat) (hn : 0 < n) (hd : 0 < d) :
    roundNat n d = nearest ((n : ℚ) / d) := by
  have hnq : (0 : ℚ) < n := by exact_mod_cast hn
  have hdq : (0 : ℚ) < d := by exact_mod_cast hd
  have hx : (0 : ℚ) < (n : ℚ) / d := div_pos hnq hdq
  obtain ⟨a1, a2⟩ := log2_spec n hn
  obtain ⟨b1, b2⟩ := log2_spec d hd
  unfold roundNat
  simp only [forceNat_eq]
  generalize log2 n = a at a1 a2
  generalize log2 d = b at b1 b2
  have a1q : (2 : ℚ) ^ a ≤ n := by exact_mod_cast a1
  have a2q : (n : ℚ) < (2 : ℚ) ^ (a + 1) := by exact_mod_cast a2
  have b1q : (2 : ℚ) ^ b ≤ d := by exact_mod_cast b1
  have b2q : (d : ℚ) < (2 : ℚ) ^ (b + 1) := by exact_mod_cast b2
  have hpa : (0 : ℚ) < 2 ^ a := pow_pos (by norm_num) a
  have hpb : (0 : ℚ) < 2 ^ b := pow_pos (by norm_num) b
  have hcond : d * 2 ^ (a - b) ≤ n * 2 ^ (b - a) ↔ (2 : ℚ) ^ ((a : Int) - b) ≤ (n : ℚ) / d := by
    rw [← pow_trunc, div_le_div_iff₀ (pow_pos (by norm_num) _) hdq]
    constructor
    · intro h
      have : ((d * 2 ^ (a - b) : Nat) : ℚ) ≤ ((n * 2 ^ (b - a) : Nat) : ℚ) := by exact_mod_cast h
      push_cast at this
      linarith
    · intro h
      have : ((d * 2 ^ (a - b) : Nat) : ℚ) ≤ ((n * 2 ^ (b - a) : Nat) : ℚ) := by
        push_cast
        linarith
      exact_mod_cast this
  have lo : (2 : ℚ) ^ ((a : Int) - b - 1) < (n : ℚ) / d := by
    have e : (2 : ℚ) ^ ((a : Int) - b - 1) = 2 ^ a / 2 ^ (b + 1) := by
      rw [← zpow_natCast, ← zpow_natCast, ← zpow_sub₀ (two_ne_zero)]
      congr 1
      push_cast
      ring
    rw [e, div_lt_div_iff₀ (pow_pos (by norm_num) _) hdq]
    calc (2 : ℚ) ^ a * d < 2 ^ a * 2 ^ (b + 1) := by
          apply mul_lt_mul_of_pos_left b2q hpa
      _ ≤ n * 2 ^ (b + 1) := by
          apply mul_le_mul_of_nonneg_right a1q (pow_pos (by norm_num) _).le
  have hi : (n : ℚ) / d < (2 : ℚ) ^ ((a : Int) - b + 1) := by
    have e : (2 : ℚ) ^ ((a : Int) - b + 1) = 2 ^ (a + 1) / 2 ^ b := by
      rw [← zpow_natCast, ← zpow_natCast, ← zpow_sub₀ (two_ne_zero)]
      congr 1
      push_cast
      ring
    rw [e, div_lt_div_iff₀ hdq hpb]
    calc (n : ℚ) * 2 ^ b < 2 ^ (a + 1) * 2 ^ b := by
          apply mul_lt_mul_of_pos_right a2q hpb
      _ ≤ 2 ^ (a + 1) * d := by
          apply mul_le_mul_of_nonneg_left b1q (pow_pos (by norm_num) _).le
  have key : ∀ c : Nat, Int.log 2 ((n : ℚ) / d) = (a : Int) - b - c →
      (mkRat ((roundQuotient (n * 2 ^ (1126 - max (a + 1074 - (b + c)) 52))
          (d * 2 ^ (max (a + 1074 - (b + c)) 52 - 1126)) *
            2 ^ (max (a + 1074 - (b + c)) 52 - 1126) : Nat) : Int)
          (2 ^ (1126 - max (a + 1074 - (b + c)) 52)) : ℚ) = nearest ((n : ℚ) / d) := by
    intro c hlog
    have hu : ((max (a + 1074 - (b + c)) 52 : Nat) : Int) - 1126 = ulpExp ((n : ℚ) / d) := by
      unfold ulpExp
      rw [abs_of_pos hx, hlog]
      simp only [max_def]
      split_ifs <;> omega
    generalize max (a + 1074 - (b + c)) 52 = u at hu
    unfold nearest
    rw [← hu]
    have hN : 0 < d * 2 ^ (u - 1126) := Nat.mul_pos hd (pow_pos (by norm_num) _)
    have hk := roundQuotient_eq (n * 2 ^ (1126 - u)) (d * 2 ^ (u - 1126)) hN
    have harg : (((n * 2 ^ (1126 - u) : Nat) : ℚ)) / ((d * 2 ^ (u - 1126) : Nat) : ℚ) =
        (n : ℚ) / d / 2 ^ ((u : Int) - 1126) := by
      have e := pow_trunc u 1126
      push_cast at e ⊢
      rw [← e]
      field_simp
    rw [harg] at hk
    rw [← hk, Rat.mkRat_eq_div]
    have e := pow_trunc u 1126
    push_cast at e ⊢
    rw [← e]
    field_simp
  by_cases hc : d * 2 ^ (a - b) ≤ n * 2 ^ (b - a)
  · simp only [hc, if_true]
    apply key 0
    apply log_eq_of_bounds
    · simpa using hcond.mp hc
    · simpa using hi
  · simp only [hc, if_false]
    apply key 1
    apply log_eq_of_bounds
    · simpa using lo.le
    · have := hcond.not.mp hc
      push_neg at this
      have e : ((a : Int) - b - ((1 : Nat) : Int) + 1) = (a : Int) - b := by push_cast; ring
      rw [e]
      exact this

theorem roundHalfEven_zero : roundHalfEven 0 = 0 := by
  have := roundHalfEven_intCast 0
  simpa using this

theorem nearest_zero : nearest 0 = 0 := by
  unfold nearest
  simp [roundHalfEven_zero]

theorem ulpExp_neg (q : ℚ) : ulpExp (-q) = ulpExp q := by
  unfold ulpExp
  rw [abs_neg]

theorem nearest_neg (q : ℚ) : nearest (-q) = -nearest q := by
  unfold nearest
  rw [ulpExp_neg, neg_div, roundHalfEven_neg]
  push_cast
  ring

theorem roundInt_eq (n : Int) (d : Nat) (hd : 0 < d) : roundInt n d = nearest ((n : ℚ) / d) := by
  cases n with
  | ofNat k =>
    simp only [roundInt, forceNat_eq]
    split_ifs with hk
    · subst hk
      simp [nearest_zero]
    · rw [roundNat_eq k d (Nat.pos_of_ne_zero hk) hd]
      simp
  | negSucc k =>
    simp only [roundInt, forceNat_eq]
    rw [roundNat_eq (k + 1) d (Nat.succ_pos k) hd, ← nearest_neg]
    congr 1
    rw [Int.cast_negSucc]
    push_cast
    ring

/-- The executable `toDouble` computes the nearest double. -/
theorem toDouble_eq (q : ℚ) : toDouble q = nearest q := by
  unfold toDouble
  rw [roundInt_eq q.num q.den q.den_pos, Rat.num_div_den]

theorem fadd_eq (x y : ℚ) : fadd x y = toDouble (x + y) := by
  unfold fadd
  simp only [forceInt_eq, forceNat_eq]
  rw [roundInt_eq _ _ (Nat.mul_pos x.den_pos y.den_pos), toDouble_eq]
  congr 1
  have hx : (x.den : ℚ) ≠ 0 := by exact_mod_cast x.den_pos.ne'
  have hy : (y.den : ℚ) ≠ 0 := by exact_mod_cast y.den_pos.ne'
  have ex := Rat.num_div_den x
  have ey := Rat.num_div_den y
  calc (((x.num * y.den + y.num * x.den : Int) : ℚ)) / ((x.den * y.den : Nat) : ℚ)
      = (x.num : ℚ) / x.den + (y.num : ℚ) / y.den := by
        push_cast
        field_simp
    _ = x + y := by rw [ex, ey]

theorem fsub_eq (x y : ℚ) : fsub x y = toDouble (x - y) := by
  unfold fsub
  simp only [forceInt_eq, forceNat_eq]
  rw [roundInt_eq _ _ (Nat.mul_pos x.den_pos y.den_pos), toDouble_eq]
  congr 1
  have hx : (x.den : ℚ) ≠ 0 := by exact_mod_cast x.den_pos.ne'
  have hy : (y.den : ℚ) ≠ 0 := by exact_mod_cast y.den_pos.ne'
  have ex := Rat.num_div_den x
  have ey := Rat.num_div_den y
  calc (((x.num * y.den - y.num * x.den : Int) : ℚ)) / ((x.den * y.den : Nat) : ℚ)
      = (x.num : ℚ) / x.den - (y.num : ℚ) / y.den := by
        push_cast
        field_simp
        ring
    _ = x - y := by rw [ex, ey]

theorem fmul_eq (x y : ℚ) : fmul x y = toDouble (x * y) := by
  unfold fmul
  simp only [forceInt_eq, forceNat_eq]
  rw [roundInt_eq _ _ (Nat.mul_pos x.den_pos y.den_pos), toDouble_eq]
  congr 1
  have hx : (x.den : ℚ) ≠ 0 := by exact_mod_cast x.den_pos.ne'
  have hy : (y.den : ℚ) ≠ 0 := by exact_mod_cast y.den_pos.ne'
  have ex := Rat.num_div_den x
  have ey := Rat.num_div_den y
  calc (((x.num * y.num : Int) : ℚ)) / ((x.den * y.den : Nat) : ℚ)
      = (x.num : ℚ) / x.den * ((y.num : ℚ) / y.den) := by
        push_cast
        field_simp
    _ = x * y := by rw [ex, ey]

theorem fdiv_eq (x y : ℚ) (h : y ≠ 0) : fdiv x y = toDouble (x / y) := by
  unfold fdiv
  simp only [forceInt_eq, forceNat_eq]
  have hyn : y.num ≠ 0 := Rat.num_ne_zero.mpr h
  have hnat : 0 < y.num.natAbs := Int.natAbs_pos.mpr hyn
  rw [roundInt_eq _ _ (Nat.mul_pos x.den_pos hnat), toDouble_eq]
  congr 1
  have hx : (x.den : ℚ) ≠ 0 := by exact_mod_cast x.den_pos.ne'
  have hy : (y.den : ℚ) ≠ 0 := by exact_mod_cast y.den_pos.ne'
  have hynq : (y.num : ℚ) ≠ 0 := by exact_mod_cast hyn
  have ex := Rat.num_div_den x
  have ey := Rat.num_div_den y
  have hs : ((Int.sign y.num : Int) : ℚ) * (y.num : ℚ) = ((y.num.natAbs : Nat) : ℚ) := by
    rcases lt_or_gt_of_ne hyn with hneg | hpos
    · rw [Int.sign_eq_neg_one_of_neg hneg]
      have h2 : ((y.num.natAbs : Nat) : ℚ) = -(y.num : ℚ) := by
        rw [Nat.cast_natAbs, abs_of_neg hneg, Int.cast_neg]
      rw [h2]
      push_cast
      ring
    · rw [Int.sign_eq_one_of_pos hpos]
      have h2 : ((y.num.natAbs : Nat) : ℚ) = (y.num : ℚ) := by
        rw [Nat.cast_natAbs, abs_of_pos hpos]
      rw [h2]
      push_cast
      ring
  have habs : ((y.num.natAbs : Nat) : ℚ) ≠ 0 := by exact_mod_cast hnat.ne'
  calc (((x.num * y.den * Int.sign y.num : Int) : ℚ)) / ((x.den * y.num.natAbs : Nat) : ℚ)
      = (x.num : ℚ) / x.den / ((y.num : ℚ) / y.den) := by
        push_cast
        rw [← hs]
        have hsq : ((Int.sign y.num : Int) : ℚ) ≠ 0 := by
          intro h0
          rw [h0, zero_mul] at hs
          exact habs hs.symm
        field_simp
        ring
    _ = x / y := by rw [ex, ey]


theorem ulpExp_ge (q : ℚ) : -1074 ≤ ulpExp q := le_max_right _ _

theorem ulpExp_upper {x : ℚ} (hx : 0 < x) : x < (2 : ℚ) ^ (ulpExp x + 53) := by
  have h := (log_bounds hx).2
  have h2 : Int.log 2 x + 1 ≤ ulpExp x + 53 := by
    unfold ulpExp
    rw [abs_of_pos hx]
    have := le_max_left (Int.log 2 x - 52) (-1074)
    omega
  exact lt_of_lt_of_le h (zpow_le_zpow_right₀ (by norm_num) h2)

theorem ulpExp_lower {x : ℚ} (hx : 0 < x) (h : ulpExp x ≠ -1074) :
    (2 : ℚ) ^ (ulpExp x + 52) ≤ x := by
  have h1 := (log_bounds hx).1
  have h2 : ulpExp x + 52 = Int.log 2 x := by
    unfold ulpExp at h ⊢
    rw [abs_of_pos hx] at h ⊢
    simp only [max_def] at h ⊢
    split_ifs at h ⊢ <;> omega
  rw [h2]
  exact h1

theorem ulpExp_mono {x y : ℚ} (hx : 0 < x) (h : x ≤ y) : ulpExp x ≤ ulpExp y := by
  unfold ulpExp
  rw [abs_of_pos hx, abs_of_pos (lt_of_lt_of_le hx h)]
  have := Int.log_mono_right (b := 2) hx h
  exact max_le_max (by omega) le_rfl

theorem ulpExp_of_bounds {x : ℚ} {E : Int} (h1 : (2 : ℚ) ^ E ≤ x) (h2 : x < (2 : ℚ) ^ (E + 1))
    (hE : -1022 ≤ E) : ulpExp x = E - 52 := by
  have hx : 0 < x := lt_of_lt_of_le (zpow_two_pos E) h1
  unfold ulpExp
  rw [abs_of_pos hx, log_eq_of_bounds h1 h2]
  exact max_eq_left (by omega)

theorem roundHalfEven_le_of_le {x : ℚ} {k : Int} (h : x ≤ k) : roundHalfEven x ≤ k := by
  have := roundHalfEven_mono h
  rwa [roundHalfEven_intCast] at this

theorem le_roundHalfEven_of_le {x : ℚ} {k : Int} (h : (k : ℚ) ≤ x) : k ≤ roundHalfEven x := by
  have := roundHalfEven_mono h
  rwa [roundHalfEven_intCast] at this

theorem nearest_nonneg {x : ℚ} (hx : 0 ≤ x) : 0 ≤ nearest x := by
  unfold nearest
  apply mul_nonneg _ (zpow_two_pos _).le
  have h0 : ((0 : Int) : ℚ) ≤ x / 2 ^ ulpExp x := by
    simpa using div_nonneg hx (zpow_two_pos _).le
  exact_mod_cast le_roundHalfEven_of_le h0

theorem nearest_nonpos {x : ℚ} (hx : x ≤ 0) : nearest x ≤ 0 := by
  have h := nearest_nonneg (x := -x) (by linarith)
  rw [nearest_neg] at h
  linarith

/-- The mantissa of the nearest double is at most `2^53` in magnitude. -/
theorem mantissa_le {x : ℚ} (hx : 0 < x) :
    0 ≤ roundHalfEven (x / 2 ^ ulpExp x) ∧ roundHalfEven (x / 2 ^ ulpExp x) ≤ 2 ^ 53 := by
  constructor
  · apply le_roundHalfEven_of_le
    simpa using (div_pos hx (zpow_two_pos _)).le
  · apply roundHalfEven_le_of_le
    rw [div_le_iff₀ (zpow_two_pos _)]
    have h := (ulpExp_upper hx).le
    rw [zpow_add₀ (two_ne_zero)] at h
    have e : (((2 ^ 53 : Int)) : ℚ) = (2 : ℚ) ^ (53 : Int) := by norm_num
    rw [e]
    linarith

theorem nearest_mono_pos {x y : ℚ} (hx : 0 < x) (h : x ≤ y) : nearest x ≤ nearest y := by
  have hy : 0 < y := lt_of_lt_of_le hx h
  rcases eq_or_lt_of_le (ulpExp_mono hx h) with he | hlt
  · unfold nearest
    rw [he]
    apply mul_le_mul_of_nonneg_right _ (zpow_two_pos _).le
    have := roundHalfEven_mono (div_le_div_of_nonneg_right h (zpow_two_pos (ulpExp y)).le)
    exact_mod_cast this
  · have h1 : nearest x ≤ (2 : ℚ) ^ (ulpExp x + 53) := by
      unfold nearest
      rw [zpow_add₀ (two_ne_zero), mul_comm ((2 : ℚ) ^ ulpExp x)]
      apply mul_le_mul_of_nonneg_right _ (zpow_two_pos _).le
      have := (mantissa_le hx).2
      have e : (((2 ^ 53 : Int)) : ℚ) = (2 : ℚ) ^ (53 : Int) := by norm_num
      rw [← e]
      exact_mod_cast this
    have hne : ulpExp y ≠ -1074 := by
      have := ulpExp_ge x
      omega
    have h2 : (2 : ℚ) ^ (ulpExp y + 52) ≤ nearest y := by
      unfold nearest
      rw [zpow_add₀ (two_ne_zero), mul_comm ((2 : ℚ) ^ ulpExp y)]
      apply mul_le_mul_of_nonneg_right _ (zpow_two_pos _).le
      have hlow := ulpExp_lower hy hne
      rw [zpow_add₀ (two_ne_zero)] at hlow
      have hk : (((2 ^ 52 : Int)) : ℚ) ≤ y / 2 ^ ulpExp y := by
        rw [le_div_iff₀ (zpow_two_pos _)]
        have e : (((2 ^ 52 : Int)) : ℚ) = (2 : ℚ) ^ (52 : Int) := by norm_num
        rw [e]
        linarith
      have := le_roundHalfEven_of_le hk
      have e : (((2 ^ 52 : Int)) : ℚ) = (2 : ℚ) ^ (52 : Int) := by norm_num
      rw [← e]
      exact_mod_cast this
    have h3 : (2 : ℚ) ^ (ulpExp x + 53) ≤ (2 : ℚ) ^ (ulpExp y + 52) :=
      zpow_le_zpow_right₀ (by norm_num) (by omega)
    linarith

theorem nearest_mono {x y : ℚ} (h : x ≤ y) : nearest x ≤ nearest y := by
  rcases le_or_lt x 0 with hx0 | hxpos
  · rcases le_or_lt 0 y with hy0 | hyneg
    · exact le_trans (nearest_nonpos hx0) (nearest_nonneg hy0)
    · have := nearest_mono_pos (x := -y) (y := -x) (by linarith) (by linarith)
      rw [nearest_neg, nearest_neg] at this
      linarith
  · exact nearest_mono_pos hxpos h

theorem nearest_of_int_mul {x : ℚ} (z : Int) (h : x / 2 ^ ulpExp x = z) : nearest x = x := by
  unfold nearest
  rw [h, roundHalfEven_intCast, ← h]
  field_simp

theorem nearest_rep_pos (m g : Int) (hm0 : 0 < m) (hm : m ≤ 2 ^ 53) (hg : -1074 ≤ g) :
    nearest ((m : ℚ) * 2 ^ g) = (m : ℚ) * 2 ^ g := by
  have hmq : (0 : ℚ) < m := by exact_mod_cast hm0
  have hx : (0 : ℚ) < (m : ℚ) * 2 ^ g := mul_pos hmq (zpow_two_pos g)
  have hup : (m : ℚ) * 2 ^ g ≤ (2 : ℚ) ^ (g + 53) := by
    rw [zpow_add₀ (two_ne_zero), mul_comm ((2 : ℚ) ^ g)]
    apply mul_le_mul_of_nonneg_right _ (zpow_two_pos _).le
    have : (m : ℚ) ≤ ((2 ^ 53 : Int) : ℚ) := by exact_mod_cast hm
    have e : (((2 ^ 53 : Int)) : ℚ) = (2 : ℚ) ^ (53 : Int) := by norm_num
    rw [← e]
    exact this
  obtain ⟨l1, l2⟩ := log_bounds hx
  have hL : Int.log 2 ((m : ℚ) * 2 ^ g) ≤ g + 53 := by
    by_contra hc
    push_neg at hc
    have : (2 : ℚ) ^ (g + 53 + 1) ≤ (2 : ℚ) ^ Int.log 2 ((m : ℚ) * 2 ^ g) :=
      zpow_le_zpow_right₀ (by norm_num) (by omega)
    have : (2 : ℚ) ^ (g + 53) < (2 : ℚ) ^ (g + 53 + 1) :=
      zpow_lt_zpow_right₀ (by norm_num) (by omega)
    linarith
  have he : ulpExp ((m : ℚ) * 2 ^ g) = max (Int.log 2 ((m : ℚ) * 2 ^ g) - 52) (-1074) := by
    unfold ulpExp
    rw [abs_of_pos hx]
  rcases le_or_lt (ulpExp ((m : ℚ) * 2 ^ g)) g with hle | hgt
  · apply nearest_of_int_mul (m * 2 ^ (g - ulpExp ((m : ℚ) * 2 ^ g)).toNat)
    have hnn : 0 ≤ g - ulpExp ((m : ℚ) * 2 ^ g) := by omega
    push_cast
    rw [← zpow_natCast, Int.toNat_of_nonneg hnn, zpow_sub₀ (two_ne_zero)]
    field_simp
  · have hlog : Int.log 2 ((m : ℚ) * 2 ^ g) = g + 53 := by
      rw [he] at hgt
      simp only [max_def] at hgt
      split_ifs at hgt <;> omega
    have hee : ulpExp ((m : ℚ) * 2 ^ g) = g + 1 := by
      rw [he, hlog]
      simp only [max_def]
      split_ifs <;> omega
    rw [hlog] at l1
    have hm2 : (m : ℚ) = (2 : ℚ) ^ (53 : Int) := by
      have h1 : (2 : ℚ) ^ (g + 53) = (2 : ℚ) ^ (53 : Int) * 2 ^ g := by
        rw [zpow_add₀ (two_ne_zero), mul_comm]
      have h2 : (m : ℚ) * 2 ^ g = (2 : ℚ) ^ (53 : Int) * 2 ^ g := by
        rw [← h1]
        exact le_antisymm hup l1
      exact mul_right_cancel₀ (zpow_two_pos g).ne' h2
    apply nearest_of_int_mul (2 ^ 52)
    rw [hee, hm2, zpow_add₀ (two_ne_zero)]
    have hg0 : (2 : ℚ) ^ g ≠ 0 := (zpow_two_pos g).ne'
    field_simp
    norm_num
    ring

/-- A multiple `m · 2^g` with `|m| ≤ 2^53` and `g ≥ -1074` is a double. -/
theorem nearest_rep (m g : Int) (hm : |m| ≤ 2 ^ 53) (hg : -1074 ≤ g) :
    nearest ((m : ℚ) * 2 ^ g) = (m : ℚ) * 2 ^ g := by
  rcases lt_trichotomy m 0 with hneg | hzero | hpos
  · have h := nearest_rep_pos (-m) g (by omega) (by rw [abs_of_neg hneg] at hm; exact hm) hg
    push_cast at h
    rw [neg_mul, nearest_neg] at h
    linarith
  · subst hzero
    simp [nearest_zero]
  · exact nearest_rep_pos m g hpos (by rw [abs_of_pos hpos] at hm; exact hm) hg

theorem nearest_idem_pos {x : ℚ} (hx : 0 < x) : nearest (nearest x) = nearest x := by
  obtain ⟨k0, k1⟩ := mantissa_le hx
  unfold nearest
  apply nearest_rep
  · rw [abs_of_nonneg k0]
    exact k1
  · exact ulpExp_ge x

theorem nearest_idem (x : ℚ) : nearest (nearest x) = nearest x := by
  rcases lt_trichotomy x 0 with hneg | hzero | hpos
  · have h := nearest_idem_pos (x := -x) (by linarith)
    rw [nearest_neg, nearest_neg] at h
    linarith
  · subst hzero
    simp [nearest_zero]
  · exact nearest_idem_pos hpos

/-! ### The same facts for `toDouble` -/

theorem toDouble_zero : toDouble 0 = 0 := by rw [toDouble_eq, nearest_zero]

theorem toDouble_neg (q : ℚ) : toDouble (-q) = -toDouble q := by
  rw [toDouble_eq, toDouble_eq, nearest_neg]

theorem toDouble_mono {x y : ℚ} (h : x ≤ y) : toDouble x ≤ toDouble y := by
  rw [toDouble_eq, toDouble_eq]
  exact nearest_mono h

theorem toDouble_idem (x : ℚ) : toDouble (toDouble x) = toDouble x := by
  rw [toDouble_eq, toDouble_eq]
  exact nearest_idem x

theorem toDouble_rep (m g : Int) (hm : |m| ≤ 2 ^ 53) (hg : -1074 ≤ g) :
    toDouble ((m : ℚ) * 2 ^ g) = (m : ℚ) * 2 ^ g := by
  rw [toDouble_eq]
  exact nearest_rep m g hm hg

theorem toDouble_intCast (n : Int) (h : |n| ≤ 2 ^ 53) : toDouble (n : ℚ) = n := by
  have := toDouble_rep n 0 h (by norm_num)
  simpa using this

theorem toDouble_nonneg {x : ℚ} (h : 0 ≤ x) : 0 ≤ toDouble x := by
  rw [toDouble_eq]
  exact nearest_nonneg h

/-- A double is a multiple of the spacing of the doubles around it. -/
theorem double_grid {x : ℚ} (h : toDouble x = x) : ∃ k : Int, x = (k : ℚ) * 2 ^ ulpExp x := by
  rw [toDouble_eq] at h
  exact ⟨roundHalfEven (x / 2 ^ ulpExp x), h.symm⟩

/-- Upper bound by a double, lower bound by a double. -/
theorem toDouble_le_of_le {x c : ℚ} (hc : toDouble c = c) (h : x ≤ c) : toDouble x ≤ c := by
  have := toDouble_mono h
  rwa [hc] at this

theorem le_toDouble_of_le {x c : ℚ} (hc : toDouble c = c) (h : c ≤ x) : c ≤ toDouble x := by
  have := toDouble_mono h
  rwa [hc] at this

/-! ## Facts about the dictionary -/

theorem dictionaryEntry_mem {name : JSString} {info : ColorInfo}
    (h : dictionaryEntry name = some info) : (name, info) ∈ colorDictionary := by
  unfold dictionaryEntry at h
  cases hf : colorDictionary.find? (fun e => e.1 == name) with
  | none => rw [hf] at h; simp at h
  | some e =>
    rw [hf] at h
    simp at h
    have hm := List.mem_of_find?_eq_some hf
    have hp := List.find?_some hf
    simp at hp
    rw [← h, ← hp]
    exact hm

theorem mem_intsFromTo {lo hi d : Int} (h1 : lo ≤ d) (h2 : d ≤ hi) : d ∈ intsFromTo lo hi := by
  unfold intsFromTo
  have h3 : (d - lo).toNat < (hi + 1 - lo).toNat := by omega
  have h4 : lo + ((d - lo).toNat : Int) = d := by omega
  exact List.mem_map.mpr ⟨_, List.mem_range.mpr h3, h4⟩

/-- The check behind C7, over every entry and every degree of its range. -/
theorem getColorInfo_table :
    (colorDictionary.all fun e =>
      match e.2.hueRange with
      | some r => (intsFromTo r.1 r.2).all fun d => d == 334 || getColorInfo d == some e.2
      | none => true) = true := by
  decide

/-- The entry of a degree in `[0,360]` is one of the dictionary. -/
theorem getColorInfo_range_table :
    ((intsFromTo 0 360).all fun d =>
      match getColorInfo d with
      | some info => decide (info ∈ colorDictionary.map fun e => e.2)
      | none => false) = true := by
  decide!

theorem getColorInfo_some {H : Int} (h0 : 0 ≤ H) (h1 : H ≤ 360) :
    ∃ e ∈ colorDictionary, getColorInfo H = some e.2 := by
  have h := List.all_eq_true.mp getColorInfo_range_table H (mem_intsFromTo h0 h1)
  cases hg : getColorInfo H with
  | none => rw [hg] at h; simp at h
  | some info =>
    rw [hg] at h
    simp only [decide_eq_true_eq, List.mem_map] at h
    obtain ⟨e, he, rfl⟩ := h
    exact ⟨e, he, rfl⟩

/-- C7, amended. For every dictionary name whose entry has a hue range `[lo, hi]` and every
integer degree `d` with `lo ≤ d ≤ hi` other than `334`, `getColorInfo d` is that entry.
The degree `334`, the upper end of pink, is mapped to `-26` first and resolves to red. -/
theorem getColorInfo_of_mem_hueRange (name : JSString) (info : ColorInfo) (lo hi d : Int)
    (hentry : dictionaryEntry name = some info) (hrange : info.hueRange = some (lo, hi))
    (hlo : lo ≤ d) (hhi : d ≤ hi) (hd : d ≠ 334) : getColorInfo d = some info := by
  have h := List.all_eq_true.mp getColorInfo_table (name, info) (dictionaryEntry_mem hentry)
  simp only [hrange] at h
  have h2 := List.all_eq_true.mp h d (mem_intsFromTo hlo hhi)
  simpa [hd] using h2

/-- C7, witness: degree `300` of pink's range `[283, 334]`. -/
theorem getColorInfo_of_mem_hueRange_witness :
    getColorInfo 300 = some ⟨some (283, 334),
      [(20,100),(30,90),(40,86),(60,84),(80,80),(90,75),(100,73)], (20, 100), (73, 100)⟩ :=
  getColorInfo_of_mem_hueRange "pink".toList _ 283 334 300 (by decide) (by decide)
    (by decide) (by decide) (by decide)

/-- C7 as stated fails: `334` lies in pink's hue range `[283, 334]`, yet
`getColorInfo 334` is the entry of red, not the entry of pink. -/
theorem getColorInfo_334_not_pink :
    (dictionaryEntry "pink".toList).map (fun info => info.hueRange) = some (some (283, 334)) ∧
    getColorInfo 334 = dictionaryEntry "red".toList ∧
    getColorInfo 334 ≠ dictionaryEntry "pink".toList := by
  decide

/-! ## Facts about hex colours -/

theorem radixDigit16_toNat (c : Char) (d : Nat) (h : radixDigit 16 c = some d) :
    d < 16 ∧ IsHexCode c.toNat := by
  unfold radixDigit digitValue at h
  unfold IsHexCode
  simp only at h
  split_ifs at h with h1 h2 h3 <;> simp at h <;> omega

theorem digit_facts (c : Char) (d : Nat) (h : radixDigit 16 c = some d) :
    d < 16 ∧ isStrWhiteSpace c = false ∧ c ≠ '-' ∧ c ≠ '+' ∧ c ≠ 'x' ∧ c ≠ 'X' ∧ c ≠ '#' := by
  obtain ⟨hd, hc⟩ := radixDigit16_toNat c d h
  unfold IsHexCode at hc
  refine ⟨hd, ?_, ?_, ?_, ?_, ?_, ?_⟩
  · unfold isStrWhiteSpace
    simp
    omega
  all_goals
    rintro rfl
    revert hc
    decide

theorem parseInt_pair (a b : Char) (x y : Nat) (ha : radixDigit 16 a = some x)
    (hb : radixDigit 16 b = some y) : parseInt [a, b] 16 = some ((x * 16 + y : Nat) : Int) := by
  obtain ⟨-, ha1, ha2, ha3, -, -, -⟩ := digit_facts a x ha
  obtain ⟨-, -, -, -, hb5, hb6, -⟩ := digit_facts b y hb
  simp [parseInt, ha1, ha2, ha3, hb5, hb6, parseDigits, ha, hb]

theorem parseInt_pair_some (a b : Char) (ha : (radixDigit 16 a).isSome = true)
    (hb : (radixDigit 16 b).isSome = true) :
    ∃ n : Int, 0 ≤ n ∧ n ≤ 255 ∧ parseInt [a, b] 16 = some n := by
  obtain ⟨x, hx⟩ := Option.isSome_iff_exists.mp ha
  obtain ⟨y, hy⟩ := Option.isSome_iff_exists.mp hb
  have hx16 := (radixDigit16_toNat a x hx).1
  have hy16 := (radixDigit16_toNat b y hy).1
  exact ⟨_, by omega, by omega, parseInt_pair a b x y hx hy⟩

/-- On a body of three or six hex digits `HexToHSB` returns the triple of its channels. -/
theorem HexToHSB_of_digits (s : JSString)
    (hlen : (dropLeadingHash s).length = 3 ∨ (dropLeadingHash s).length = 6)
    (hall : ∀ c ∈ dropLeadingHash s, (radixDigit 16 c).isSome = true) :
    ∃ r g b : Int, (0 ≤ r ∧ r ≤ 255) ∧ (0 ≤ g ∧ g ≤ 255) ∧ (0 ≤ b ∧ b ≤ 255) ∧
      HexToHSB s = some (hsbOfChannels (fdiv r 255) (fdiv g 255) (fdiv b 255)) := by
  unfold HexToHSB
  generalize dropLeadingHash s = body at hlen hall
  rcases hlen with h3 | h6
  · match body, h3 with
    | [a, b, c], _ =>
      simp only [List.mem_cons, List.mem_singleton, List.not_mem_nil, or_false,
        forall_eq_or_imp, forall_eq] at hall
      obtain ⟨ha, hb, hc⟩ := hall
      obtain ⟨r, r0, r1, hr⟩ := parseInt_pair_some a a ha ha
      obtain ⟨g, g0, g1, hg⟩ := parseInt_pair_some b b hb hb
      obtain ⟨bl, b0, b1, hbl⟩ := parseInt_pair_some c c hc hc
      refine ⟨r, g, bl, ⟨r0, r1⟩, ⟨g0, g1⟩, ⟨b0, b1⟩, ?_⟩
      simp [hr, hg, hbl]
  · match body, h6 with
    | [a, b, c, d, e, f], _ =>
      simp only [List.mem_cons, List.mem_singleton, List.not_mem_nil, or_false,
        forall_eq_or_imp, forall_eq] at hall
      obtain ⟨ha, hb, hc, hd, he, hf⟩ := hall
      obtain ⟨r, r0, r1, hr⟩ := parseInt_pair_some a b ha hb
      obtain ⟨g, g0, g1, hg⟩ := parseInt_pair_some c d hc hd
      obtain ⟨bl, b0, b1, hbl⟩ := parseInt_pair_some e f he hf
      refine ⟨r, g, bl, ⟨r0, r1⟩, ⟨g0, g1⟩, ⟨b0, b1⟩, ?_⟩
      simp [hr, hg, hbl]

theorem jsRem_small (x : ℚ) (h1 : -1 ≤ x) (h2 : x ≤ 1) : jsRem x 6 = x := by
  unfold jsRem
  simp only
  split_ifs with h
  · have : ⌊x / 6⌋ = 0 := by
      rw [Int.floor_eq_iff]
      constructor
      · simpa using h
      · norm_num; linarith
    rw [this]; simp
  · have : ⌈x / 6⌉ = 0 := by
      rw [Int.ceil_eq_iff]
      constructor
      · norm_num; linarith
      · push_neg at h; simpa using h.le
    rw [this]; simp

/-! ## Tools for bounds in double arithmetic -/

theorem toDouble_div_pow (k : Int) (g : Nat) (hk : |k| ≤ 2 ^ 53) (hg : g ≤ 1074) :
    toDouble ((k : ℚ) / 2 ^ g) = (k : ℚ) / 2 ^ g := by
  have h := toDouble_rep k (-(g : Int)) hk (by omega)
  rw [zpow_neg, zpow_natCast, ← div_eq_mul_inv] at h
  exact h

/-- Rounding stays at or below the next multiple of `2^(-g)`, when that multiple is a
double. -/
theorem toDouble_le_ceil (x : ℚ) (g : Nat) (hg : g ≤ 1074) (h0 : 0 ≤ x)
    (h1 : x * 2 ^ g ≤ 2 ^ 53) :
    toDouble x ≤ (⌈x * 2 ^ g⌉ : ℚ) / 2 ^ g ∧ (⌈x * 2 ^ g⌉ : ℚ) / 2 ^ g < x + 1 / 2 ^ g := by
  have hp : (0 : ℚ) < 2 ^ g := pow_pos (by norm_num) g
  have c0 : 0 ≤ ⌈x * 2 ^ g⌉ := Int.ceil_nonneg (mul_nonneg h0 hp.le)
  have c1 : ⌈x * 2 ^ g⌉ ≤ 2 ^ 53 := by
    apply Int.ceil_le.mpr
    push_cast
    exact h1
  constructor
  · apply toDouble_le_of_le (toDouble_div_pow _ g (by rw [abs_of_nonneg c0]; exact c1) hg)
    rw [le_div_iff₀ hp]
    exact Int.le_ceil _
  · have := Int.ceil_lt_add_one (x * 2 ^ g)
    rw [div_lt_iff₀ hp]
    have e : (x + 1 / 2 ^ g) * 2 ^ g = x * 2 ^ g + 1 := by field_simp
    rw [e]
    exact this

/-- Between the consecutive doubles `K · 2^(E-52)` and `(K+1) · 2^(E-52)` of the binade
`[2^E, 2^(E+1))` there is no double. -/
theorem double_le_or_ge (E K : Int) (x : ℚ) (hx : toDouble x = x) (hE : -1022 ≤ E)
    (hK1 : 2 ^ 52 ≤ K) (hK2 : K < 2 ^ 53) :
    x ≤ (K : ℚ) * 2 ^ (E - 52) ∨ ((K : ℚ) + 1) * 2 ^ (E - 52) ≤ x := by
  by_contra hcon
  push_neg at hcon
  obtain ⟨h1, h2⟩ := hcon
  have hg : (0 : ℚ) < 2 ^ (E - 52) := zpow_two_pos _
  have e52 : (2 : ℚ) ^ E = (2 : ℚ) ^ (52 : Int) * 2 ^ (E - 52) := by
    rw [← zpow_add₀ (two_ne_zero)]
    congr 1
    ring
  have e53 : (2 : ℚ) ^ (E + 1) = (2 : ℚ) ^ (53 : Int) * 2 ^ (E - 52) := by
    rw [← zpow_add₀ (two_ne_zero)]
    congr 1
    ring
  have k1 : ((2 : ℚ) ^ (52 : Int)) ≤ K := by
    have : (((2 ^ 52 : Int)) : ℚ) ≤ K := by exact_mod_cast hK1
    have e : (((2 ^ 52 : Int)) : ℚ) = (2 : ℚ) ^ (52 : Int) := by norm_num
    rw [← e]
    exact this
  have k2 : (K : ℚ) + 1 ≤ (2 : ℚ) ^ (53 : Int) := by
    have : ((K + 1 : Int) : ℚ) ≤ ((2 ^ 53 : Int) : ℚ) := by exact_mod_cast (by omega : K + 1 ≤ 2 ^ 53)
    have e : (((2 ^ 53 : Int)) : ℚ) = (2 : ℚ) ^ (53 : Int) := by norm_num
    rw [← e]
    push_cast at this
    exact this
  have b1 : (2 : ℚ) ^ E ≤ x := by
    rw [e52]
    have := mul_le_mul_of_nonneg_right k1 hg.le
    linarith
  have b2 : x < (2 : ℚ) ^ (E + 1) := by
    rw [e53]
    have := mul_le_mul_of_nonneg_right k2 hg.le
    linarith
  obtain ⟨k, hk⟩ := double_grid hx
  rw [ulpExp_of_bounds b1 b2 hE] at hk
  rw [hk] at h1 h2
  have i1 : (K : ℚ) < k := lt_of_mul_lt_mul_right h1 hg.le
  have i2 : (k : ℚ) < (K : ℚ) + 1 := lt_of_mul_lt_mul_right h2 hg.le
  have j1 : K < k := by exact_mod_cast i1
  have j2 : k < K + 1 := by exact_mod_cast i2
  omega

/-- A double below `1` is at most `1 - 2^(-53)`. -/
theorem double_lt_one {r : ℚ} (hr : toDouble r = r) (h : r < 1) :
    r ≤ 9007199254740991 / 9007199254740992 := by
  rcases double_le_or_ge (-1) (2 ^ 53 - 1) r hr (by norm_num) (by norm_num) (by norm_num)
    with h1 | h1
  · have e : (((2 ^ 53 - 1 : Int)) : ℚ) * 2 ^ ((-1 : Int) - 52) =
        9007199254740991 / 9007199254740992 := by
      norm_num [zpow_neg]
    rw [← e]
    exact h1
  · exfalso
    have e : ((((2 ^ 53 - 1 : Int)) : ℚ) + 1) * 2 ^ ((-1 : Int) - 52) = 1 := by
      norm_num [zpow_neg]
    rw [e] at h1
    linarith

theorem imul_eq (a b : Int) (h : |a * b| ≤ 2 ^ 53) : imul a b = a * b := by
  unfold imul
  rw [fmul_eq, ← Int.cast_mul, toDouble_intCast _ h, Int.floor_intCast]

theorem iadd_eq (a b : Int) (h : |a + b| ≤ 2 ^ 53) : iadd a b = a + b := by
  unfold iadd
  rw [fadd_eq, ← Int.cast_add, toDouble_intCast _ h, Int.floor_intCast]

theorem imul_nonneg {a b : Int} (ha : 0 ≤ a) (hb : 0 ≤ b) : 0 ≤ imul a b := by
  unfold imul
  rw [fmul_eq]
  apply Int.floor_nonneg.mpr
  apply toDouble_nonneg
  have : (0 : ℚ) ≤ a := by exact_mod_cast ha
  have : (0 : ℚ) ≤ b := by exact_mod_cast hb
  positivity

theorem iadd_nonneg {a b : Int} (ha : 0 ≤ a) (hb : 0 ≤ b) : 0 ≤ iadd a b := by
  unfold iadd
  rw [fadd_eq]
  apply Int.floor_nonneg.mpr
  apply toDouble_nonneg
  have : (0 : ℚ) ≤ a := by exact_mod_cast ha
  have : (0 : ℚ) ≤ b := by exact_mod_cast hb
  positivity

/-! ## Facts about `randomWithin` -/

theorem tmod_gt_neg (a : Int) {b : Int} (hb : 0 < b) : -b < Int.tmod a b := by
  rcases Int.lt_or_le a 0 with h | h
  · have h1 := Int.tmod_lt_of_pos (-a) hb
    have h2 : Int.tmod a b = -Int.tmod (-a) b := by
      rw [Int.tmod_def, Int.tmod_def, Int.neg_tdiv]
      ring
    omega
  · have := Int.tmod_nonneg b h
    omega

theorem jsOr_zero (x : ℚ) : jsOr x 0 = x := by
  unfold jsOr
  split_ifs with h
  · exact h.symm
  · rfl

theorem randomWithin_unseeded (rand : Nat → ℚ) (range : ℚ × ℚ) (m : Module)
    (h : m.seed = none) :
    randomWithin rand range m =
      (drawUnseeded range (rand m.draws), { m with draws := m.draws + 1 }) := by
  unfold randomWithin drawUnseeded
  rw [h]

theorem randomWithin_seeded (rand : Nat → ℚ) (range : ℚ × ℚ) (m : Module) (s : Int)
    (h : m.seed = some s) :
    randomWithin rand range m =
      (drawSeeded range (fdiv (nextSeed s) 233280), { m with seed := some (nextSeed s) }) := by
  unfold randomWithin drawSeeded nextSeed
  rw [h]

theorem nextSeed_bounds (s : Int) : -233280 < nextSeed s ∧ nextSeed s < 233280 := by
  unfold nextSeed
  exact ⟨tmod_gt_neg _ (by norm_num), Int.tmod_lt_of_pos _ (by norm_num)⟩

theorem nextSeed_nonneg {s : Int} (h : 0 ≤ s) : 0 ≤ nextSeed s := by
  unfold nextSeed
  exact Int.tmod_nonneg _ (iadd_nonneg (imul_nonneg h (by norm_num)) (by norm_num))

/-- While `s·9301 + 49297` stays within `2^53` the state update is exact. -/
theorem nextSeed_eq {s : Int} (h0 : 0 ≤ s) (h1 : s * 9301 + 49297 ≤ 2 ^ 53) :
    nextSeed s = (s * 9301 + 49297) % 233280 := by
  unfold nextSeed
  rw [imul_eq s 9301 (by rw [abs_of_nonneg (by omega)]; omega),
    iadd_eq _ _ (by rw [abs_of_nonneg (by omega)]; omega)]
  exact Int.tmod_eq_emod (by omega) (by norm_num)

theorem c18_double : toDouble (262143 / 262144) = 262143 / 262144 := by decide!

theorem pred1_double :
    toDouble (9007199254740991 / 9007199254740992) = 9007199254740991 / 9007199254740992 := by
  decide!

/-- The fraction `rnd` of line 287 lies in `[-(1 - 2^(-18)), 1 - 2^(-18)]`, and it is not
negative when the state is not. -/
theorem seedFraction_bounds (s1 : Int) (h1 : -233280 < s1) (h2 : s1 < 233280) :
    -(262143 / 262144) ≤ fdiv s1 233280 ∧ fdiv s1 233280 ≤ 262143 / 262144 ∧
      (0 ≤ s1 → 0 ≤ fdiv s1 233280) := by
  rw [fdiv_eq _ _ (by norm_num)]
  have a1 : (-233279 : ℚ) ≤ s1 := by exact_mod_cast (by omega : (-233279 : Int) ≤ s1)
  have a2 : (s1 : ℚ) ≤ 233279 := by exact_mod_cast (by omega : s1 ≤ 233279)
  refine ⟨?_, ?_, ?_⟩
  · have hc : toDouble (-(262143 / 262144)) = -(262143 / 262144) := by
      rw [toDouble_neg, c18_double]
    apply le_toDouble_of_le hc
    rw [le_div_iff₀ (by norm_num)]
    linarith
  · apply toDouble_le_of_le c18_double
    rw [div_le_iff₀ (by norm_num)]
    linarith
  · intro h
    apply toDouble_nonneg
    have : (0 : ℚ) ≤ s1 := by exact_mod_cast h
    positivity

theorem floor_fadd_fmul_mono (lo w : ℚ) (hw : 0 ≤ w) {r t : ℚ} (h : r ≤ t) :
    ⌊fadd lo (fmul r w)⌋ ≤ ⌊fadd lo (fmul t w)⌋ := by
  apply Int.floor_le_floor
  rw [fadd_eq, fadd_eq, fmul_eq, fmul_eq]
  apply toDouble_mono
  have := toDouble_mono (mul_le_mul_of_nonneg_right h hw)
  linarith

theorem drawUnseeded_mono (range : ℚ × ℚ) (hw : 0 ≤ fsub (fadd range.2 1) range.1) {r t : ℚ}
    (h : r ≤ t) : drawUnseeded range r ≤ drawUnseeded range t :=
  floor_fadd_fmul_mono _ _ hw h

theorem drawSeeded_mono (range : ℚ × ℚ) (hw : 0 ≤ fsub (jsOr range.2 1) (jsOr range.1 0))
    {r t : ℚ} (h : r ≤ t) : drawSeeded range r ≤ drawSeeded range t :=
  floor_fadd_fmul_mono _ _ hw h

/-- One draw of `randomWithin`: the seed stays `null` or stays a number, and a non-negative
state stays non-negative. -/
theorem randomWithin_state (rand : Nat → ℚ) (range : ℚ × ℚ) (m : Module) :
    ((randomWithin rand range m).2.seed = none ↔ m.seed = none) ∧
      (SeedNonneg m → SeedNonneg (randomWithin rand range m).2) := by
  cases hs : m.seed with
  | none =>
    rw [randomWithin_unseeded rand range m hs]
    refine ⟨by simp [hs], ?_⟩
    intro _ s h
    simp [hs] at h
  | some s =>
    rw [randomWithin_seeded rand range m s hs]
    refine ⟨by simp, ?_⟩
    intro hn s1 h1
    simp only [Option.some.injEq] at h1
    rw [← h1]
    exact nextSeed_nonneg (hn s hs)

/-- A draw from an interval of `getHueRange`, with any seed, lies in `[-360, 360]`; with a
seed it is below `360`. -/
theorem randomWithin_hue (rand : Nat → ℚ) (hrand : RandOK rand) (r : ℚ × ℚ) (m : Module)
    (hr : HueRangeOK r) :
    -360 ≤ (randomWithin rand r m).1 ∧ (randomWithin rand r m).1 ≤ 360 ∧
      (m.seed ≠ none → (randomWithin rand r m).1 < 360) := by
  obtain ⟨w1, w2, u1, u2, s1, s2⟩ := hr
  cases hs : m.seed with
  | none =>
    rw [randomWithin_unseeded rand r m hs]
    obtain ⟨r0, r1, rd⟩ := hrand m.draws
    have rcap := double_lt_one rd r1
    have a := drawUnseeded_mono r w1 r0
    have b := drawUnseeded_mono r w1 rcap
    refine ⟨by simp only; omega, by simp only; omega, fun h => absurd rfl h⟩
  | some s =>
    rw [randomWithin_seeded rand r m s hs]
    obtain ⟨n1, n2⟩ := nextSeed_bounds s
    obtain ⟨t1, t2, -⟩ := seedFraction_bounds (nextSeed s) n1 n2
    have a := drawSeeded_mono r w2 t1
    have b := drawSeeded_mono r w2 t2
    refine ⟨by simp only; omega, by simp only; omega, fun _ => by simp only; omega⟩

/-! ## Facts about `getHueRange` -/

theorem hueRangeOK_default : HueRangeOK (0, 360) := by decide!

/-- The hue ranges stored in the dictionary, checked entry by entry. -/
theorem hueRange_table :
    (colorDictionary.all fun e =>
      match e.2.hueRange with
      | some r => decide (HueRangeOK ((r.1 : ℚ), (r.2 : ℚ)))
      | none => true) = true := by
  decide!

theorem fmul_zero_right (x : ℚ) : fmul x 0 = 0 := by
  rw [fmul_eq, mul_zero, toDouble_zero]

theorem fadd_zero_right {x : ℚ} (hx : toDouble x = x) : fadd x 0 = x := by
  rw [fadd_eq, add_zero, hx]

theorem fsub_self (x : ℚ) : fsub x x = 0 := by
  rw [fsub_eq, sub_self, toDouble_zero]

theorem fmul_one_right {x : ℚ} (hx : toDouble x = x) : fmul x 1 = x := by
  rw [fmul_eq, mul_one, hx]

theorem toDouble_int_small {n : Int} (h1 : -1000 ≤ n) (h2 : n ≤ 1000) :
    toDouble (n : ℚ) = n := by
  apply toDouble_intCast
  rw [abs_le]
  constructor <;> omega

/-- The interval `[n, n]` of a numeric hue. -/
theorem hueRangeOK_num (n : Int) (h0 : 0 < n) (h1 : n < 360) :
    HueRangeOK ((n : ℚ), (n : ℚ)) := by
  have hn : toDouble (n : ℚ) = n := toDouble_int_small (by omega) (by omega)
  have hn1 : fadd (n : ℚ) 1 = ((n + 1 : Int) : ℚ) := by
    rw [fadd_eq]
    have := toDouble_int_small (n := n + 1) (by omega) (by omega)
    push_cast at this ⊢
    exact this
  have hw : fsub (fadd (n : ℚ) 1) n = 1 := by
    rw [hn1, fsub_eq]
    push_cast
    have : (n : ℚ) + 1 - n = ((1 : Int) : ℚ) := by push_cast; ring
    rw [this]
    exact_mod_cast toDouble_int_small (n := 1) (by norm_num) (by norm_num)
  have hne : (n : ℚ) ≠ 0 := by exact_mod_cast h0.ne'
  have hor1 : jsOr (n : ℚ) 1 = n := by unfold jsOr; rw [if_neg hne]
  have hor0 : jsOr (n : ℚ) 0 = n := jsOr_zero _
  have hseeded : ∀ t : ℚ, drawSeeded ((n : ℚ), (n : ℚ)) t = n := by
    intro t
    unfold drawSeeded
    simp only [hor1, hor0, fsub_self, fmul_zero_right, fadd_zero_right hn]
    exact Int.floor_intCast n
  refine ⟨?_, ?_, ?_, ?_, ?_, ?_⟩
  · simp only [hw]; norm_num
  · simp only [hor1, hor0, fsub_self]; exact le_refl _
  · unfold drawUnseeded
    simp only [hw]
    rw [fmul_eq, zero_mul, toDouble_zero, fadd_zero_right hn, Int.floor_intCast]
    omega
  · unfold drawUnseeded
    simp only [hw]
    rw [fmul_one_right pred1_double, fadd_eq]
    have hb : toDouble (((n + 1 : Int) : ℚ)) = ((n + 1 : Int) : ℚ) :=
      toDouble_int_small (by omega) (by omega)
    have hle : toDouble ((n : ℚ) + 9007199254740991 / 9007199254740992) ≤ ((n + 1 : Int) : ℚ) := by
      apply toDouble_le_of_le hb
      push_cast
      linarith
    have := Int.floor_le_floor hle
    rw [Int.floor_intCast] at this
    omega
  · rw [hseeded]; omega
  · rw [hseeded]; omega
/-! ## Small facts about the double operations -/

theorem fadd_double (x y : ℚ) : toDouble (fadd x y) = fadd x y := by
  rw [fadd_eq, toDouble_idem]

theorem fsub_double (x y : ℚ) : toDouble (fsub x y) = fsub x y := by
  rw [fsub_eq, toDouble_idem]

theorem fmul_double (x y : ℚ) : toDouble (fmul x y) = fmul x y := by
  rw [fmul_eq, toDouble_idem]

theorem fdiv_double (x y : ℚ) (hy : y ≠ 0) : toDouble (fdiv x y) = fdiv x y := by
  rw [fdiv_eq _ _ hy, toDouble_idem]

theorem toDouble_le_int {x : ℚ} {n : Int} (h1 : -1000 ≤ n) (h2 : n ≤ 1000) (h : x ≤ n) :
    toDouble x ≤ n :=
  toDouble_le_of_le (toDouble_int_small h1 h2) h

theorem int_le_toDouble {x : ℚ} {n : Int} (h1 : -1000 ≤ n) (h2 : n ≤ 1000) (h : (n : ℚ) ≤ x) :
    (n : ℚ) ≤ toDouble x :=
  le_toDouble_of_le (toDouble_int_small h1 h2) h

/-- A sum, difference, product or quotient of two numbers of a closed interval with integer
ends stays in the interval that exact arithmetic gives, when its ends are small integers. -/
theorem toDouble_mem_int {x : ℚ} {a b : Int} (ha : -1000 ≤ a) (hab : (a : ℚ) ≤ x)
    (hxb : x ≤ b) (hb : b ≤ 1000) : (a : ℚ) ≤ toDouble x ∧ toDouble x ≤ b := by
  have h : (a : ℚ) ≤ b := le_trans hab hxb
  have h' : a ≤ b := by exact_mod_cast h
  exact ⟨int_le_toDouble ha (by omega) hab, toDouble_le_int (by omega) hb hxb⟩

/-! ## The hue of a hex colour -/

theorem hsbOfChannels_hue_double (red green blue : ℚ) :
    toDouble (hsbOfChannels red green blue).1 = (hsbOfChannels red green blue).1 := by
  unfold hsbOfChannels
  simp only
  split_ifs <;> first | exact toDouble_zero | exact fmul_double _ _

theorem hsbOfChannels_hue_bounds (red green blue : ℚ) :
    -60 ≤ (hsbOfChannels red green blue).1 ∧ (hsbOfChannels red green blue).1 ≤ 300 := by
  unfold hsbOfChannels
  simp only
  set cMax := max (max red green) blue with hcMax
  set cMin := min (min red green) blue with hcMin
  have hr1 : red ≤ cMax := le_trans (le_max_left _ _) (le_max_left _ _)
  have hg1 : green ≤ cMax := le_trans (le_max_right _ _) (le_max_left _ _)
  have hb1 : blue ≤ cMax := le_max_right _ _
  have hr2 : cMin ≤ red := le_trans (min_le_left _ _) (min_le_left _ _)
  have hg2 : cMin ≤ green := le_trans (min_le_left _ _) (min_le_right _ _)
  have hb2 : cMin ≤ blue := min_le_right _ _
  have hd0 : 0 ≤ fsub cMax cMin := by
    rw [fsub_eq]
    exact toDouble_nonneg (by linarith)
  have key : ∀ x y : ℚ, cMin ≤ x → x ≤ cMax → cMin ≤ y → y ≤ cMax → fsub cMax cMin ≠ 0 →
      -1 ≤ fdiv (fsub x y) (fsub cMax cMin) ∧ fdiv (fsub x y) (fsub cMax cMin) ≤ 1 := by
    intro x y hx1 hx2 hy1 hy2 hne
    have hpos : 0 < fsub cMax cMin := lt_of_le_of_ne hd0 (Ne.symm hne)
    have hu : fsub x y ≤ fsub cMax cMin := by
      rw [fsub_eq, fsub_eq]
      exact toDouble_mono (by linarith)
    have hl : -fsub cMax cMin ≤ fsub x y := by
      rw [fsub_eq, fsub_eq, ← toDouble_neg]
      exact toDouble_mono (by linarith)
    rw [fdiv_eq _ _ hne]
    have := toDouble_mem_int (x := fsub x y / fsub cMax cMin) (a := -1) (b := 1) (by norm_num)
      (by push_cast; rw [le_div_iff₀ hpos]; linarith)
      (by push_cast; rw [div_le_iff₀ hpos]; linarith) (by norm_num)
    push_cast at this
    exact this
  by_cases hd : fsub cMax cMin = 0
  · simp only [hd, if_true]
    by_cases h1 : cMax = red
    · rw [if_pos h1]; norm_num
    · rw [if_neg h1]
      by_cases h2 : cMax = green
      · rw [if_pos h2]; norm_num
      · rw [if_neg h2]; norm_num
  · obtain ⟨a1, a2⟩ := key green blue hg2 hg1 hb2 hb1 hd
    obtain ⟨b1, b2⟩ := key blue red hb2 hb1 hr2 hr1 hd
    obtain ⟨c1, c2⟩ := key red green hr2 hr1 hg2 hg1 hd
    simp only [hd, if_false]
    rw [jsRem_small _ a1 a2]
    have fin : ∀ (y : ℚ) (a b : Int), -10 ≤ a → b ≤ 10 → (a : ℚ) ≤ y → y ≤ b →
        ((60 * a : Int) : ℚ) ≤ fmul 60 y ∧ fmul 60 y ≤ ((60 * b : Int) : ℚ) := by
      intro y a b ha hb h1 h2
      rw [fmul_eq]
      exact toDouble_mem_int (by omega) (by push_cast; linarith) (by push_cast; linarith)
        (by omega)
    have shift : ∀ (y : ℚ) (c : Int), 0 ≤ c → c ≤ 10 → -1 ≤ y → y ≤ 1 →
        ((c - 1 : Int) : ℚ) ≤ fadd y c ∧ fadd y c ≤ ((c + 1 : Int) : ℚ) := by
      intro y c hc0 hc1 h1 h2
      rw [fadd_eq]
      exact toDouble_mem_int (by omega) (by push_cast; linarith) (by push_cast; linarith)
        (by omega)
    by_cases h1 : cMax = red
    · rw [if_pos h1]
      have := fin _ (-1) 1 (by norm_num) (by norm_num) (by push_cast; exact a1)
        (by push_cast; exact a2)
      push_cast at this
      constructor <;> linarith [this.1, this.2]
    · rw [if_neg h1]
      by_cases h2 : cMax = green
      · rw [if_pos h2]
        have s := shift _ 2 (by norm_num) (by norm_num) b1 b2
        have := fin _ 1 3 (by norm_num) (by norm_num) (by exact_mod_cast s.1)
          (by exact_mod_cast s.2)
        push_cast at this
        constructor <;> linarith [this.1, this.2]
      · rw [if_neg h2]
        have s := shift _ 4 (by norm_num) (by norm_num) c1 c2
        have := fin _ 3 5 (by norm_num) (by norm_num) (by exact_mod_cast s.1)
          (by exact_mod_cast s.2)
        push_cast at this
        constructor <;> linarith [this.1, this.2]

theorem hueRangeOK_zero : HueRangeOK (0, 0) := by decide!

/-- The interval `[h, h]` of a hex colour with hue `h`. -/
theorem hueRangeOK_hex (h : ℚ) (hd : toDouble h = h) (h1 : -60 ≤ h) (h2 : h ≤ 300) :
    HueRangeOK (h, h) := by
  by_cases hz : h = 0
  · rw [hz]; exact hueRangeOK_zero
  have hor1 : jsOr h 1 = h := by unfold jsOr; rw [if_neg hz]
  have hor0 : jsOr h 0 = h := jsOr_zero _
  have hseeded : ∀ t : ℚ, drawSeeded (h, h) t = ⌊h⌋ := by
    intro t
    unfold drawSeeded
    simp only [hor1, hor0, fsub_self, fmul_zero_right, fadd_zero_right hd]
  have hf1 : -60 ≤ ⌊h⌋ := by
    rw [Int.le_floor]
    push_cast
    exact h1
  have hf2 : ⌊h⌋ ≤ 300 := by
    have : ⌊h⌋ ≤ ⌊(300 : ℚ)⌋ := Int.floor_le_floor h2
    have e : ⌊(300 : ℚ)⌋ = 300 := by
      have := Int.floor_intCast (α := ℚ) 300
      exact_mod_cast this
    omega
  have hy1 : h ≤ fadd h 1 := by
    rw [fadd_eq]
    calc h = toDouble h := hd.symm
      _ ≤ toDouble (h + 1) := toDouble_mono (by linarith)
  have hc1 : -60 ≤ ⌈h⌉ := by
    have : (-60 : Int) ≤ ⌊h⌋ := hf1
    have := Int.floor_le_ceil h
    omega
  have hc2 : ⌈h⌉ ≤ 300 := by
    rw [Int.ceil_le]
    push_cast
    exact h2
  have hy2 : fadd h 1 ≤ ((⌈h⌉ + 1 : Int) : ℚ) := by
    rw [fadd_eq]
    apply toDouble_le_int (by omega) (by omega)
    push_cast
    linarith [Int.le_ceil h]
  have hw0 : 0 ≤ fsub (fadd h 1) h := by
    rw [fsub_eq]
    exact toDouble_nonneg (by linarith)
  have hw2 : fsub (fadd h 1) h ≤ 2 := by
    rw [fsub_eq]
    have := toDouble_le_int (x := fadd h 1 - h) (n := 2) (by norm_num) (by norm_num)
      (by push_cast at hy2 ⊢; linarith [Int.ceil_lt_add_one h])
    exact_mod_cast this
  refine ⟨hw0, ?_, ?_, ?_, ?_, ?_⟩
  · simp only [hor1, hor0, fsub_self]; exact le_refl _
  · unfold drawUnseeded
    simp only
    rw [fmul_eq, zero_mul, toDouble_zero, fadd_zero_right hd]
    omega
  · unfold drawUnseeded
    simp only
    have hp : fmul (9007199254740991 / 9007199254740992) (fsub (fadd h 1) h) ≤ 2 := by
      rw [fmul_eq]
      have := toDouble_le_int (x := 9007199254740991 / 9007199254740992 * fsub (fadd h 1) h)
        (n := 2) (by norm_num) (by norm_num) (by push_cast; nlinarith)
      exact_mod_cast this
    have hz2 : fadd h (fmul (9007199254740991 / 9007199254740992) (fsub (fadd h 1) h)) ≤
        ((302 : Int) : ℚ) := by
      rw [fadd_eq]
      exact toDouble_le_int (by norm_num) (by norm_num) (by push_cast; linarith)
    have := Int.floor_le_floor hz2
    rw [Int.floor_intCast] at this
    omega
  · rw [hseeded]; omega
  · rw [hseeded]; omega

/-! ## Every hue option resolves to a usable interval -/

theorem getHueRangeOfString_ok (hue : HueOpt) :
    ∃ r, getHueRangeOfString hue = .ok r ∧ HueRangeOK r := by
  unfold getHueRangeOfString
  cases hue with
  | absent => exact ⟨_, rfl, hueRangeOK_default⟩
  | num n => exact ⟨_, rfl, hueRangeOK_default⟩
  | str s =>
    simp only
    cases hd : dictionaryEntry s with
    | some color =>
      simp only
      cases hr : color.hueRange with
      | none => exact ⟨_, rfl, hueRangeOK_default⟩
      | some r =>
        refine ⟨_, rfl, ?_⟩
        have h := List.all_eq_true.mp hueRange_table (s, color) (dictionaryEntry_mem hd)
        simp only [hr, decide_eq_true_eq] at h
        exact h
    | none =>
      simp only
      by_cases hm : matchesHexPattern s = true
      · rw [if_pos hm]
        unfold matchesHexPattern at hm
        simp only [Bool.and_eq_true, Bool.or_eq_true, beq_iff_eq, List.all_eq_true] at hm
        obtain ⟨r, g, b, -, -, -, hh⟩ := HexToHSB_of_digits s hm.1 hm.2
        rw [hh]
        refine ⟨_, rfl, ?_⟩
        obtain ⟨k1, k2⟩ := hsbOfChannels_hue_bounds (fdiv r 255) (fdiv g 255) (fdiv b 255)
        exact hueRangeOK_hex _ (hsbOfChannels_hue_double _ _ _) k1 k2
      · rw [if_neg hm]
        exact ⟨_, rfl, hueRangeOK_default⟩

/-- Every hue option resolves to an interval, and the interval is one `pickHue` can use. -/
theorem getHueRange_ok (hue : HueOpt) : ∃ r, getHueRange hue = .ok r ∧ HueRangeOK r := by
  unfold getHueRange
  simp only
  split
  · rename_i n _
    split_ifs with h
    · exact ⟨_, rfl, hueRangeOK_num n h.2 h.1⟩
    · exact getHueRangeOfString_ok hue
  · exact getHueRangeOfString_ok hue

theorem pickHue_eq (rand : Nat → ℚ) (o : Options) (m : Module) (r : ℚ × ℚ)
    (h : getHueRange o.hue = .ok r) :
    pickHue rand o m =
      (.ok (if (randomWithin rand r m).1 < 0 then 360 + (randomWithin rand r m).1
        else (randomWithin rand r m).1), (randomWithin rand r m).2) := by
  unfold pickHue
  rw [h]

/-- The hue `pickHue` returns is an integer of `[0, 360]`, whatever the seed. -/
theorem pickHue_spec (rand : Nat → ℚ) (hrand : RandOK rand) (o : Options) (m : Module) :
    ∃ H, (pickHue rand o m).1 = .ok H ∧ 0 ≤ H ∧ H ≤ 360 ∧
      (m.seed ≠ none → H < 360) ∧
      ((pickHue rand o m).2.seed = none ↔ m.seed = none) ∧
      (SeedNonneg m → SeedNonneg (pickHue rand o m).2) := by
  obtain ⟨r, hr, hok⟩ := getHueRange_ok o.hue
  rw [pickHue_eq rand o m r hr]
  obtain ⟨h1, h2, h3⟩ := randomWithin_hue rand hrand r m hok
  obtain ⟨h4, h5⟩ := randomWithin_state rand r m
  refine ⟨_, rfl, ?_, ?_, ?_, h4, h5⟩
  · split_ifs <;> omega
  · split_ifs <;> omega
  · intro a
    have := h3 a
    split_ifs <;> omega
/-! ## Facts about the pickers -/

/-- The rounded `lo + r·w` stays below `C` when the exact value leaves a margin of
`2^(-45)`. -/
theorem fadd_fmul_lt (lo w r C : ℚ) (hlo : toDouble lo = lo) (h0 : 0 ≤ lo) (hw : 0 ≤ w)
    (hr : 0 ≤ r) (hC : lo + r * w + 1 / 2 ^ 45 ≤ C) (hC2 : C ≤ 128) :
    lo ≤ fadd lo (fmul r w) ∧ fadd lo (fmul r w) < C := by
  have hrw : 0 ≤ r * w := mul_nonneg hr hw
  have e45 : (1 : ℚ) / 2 ^ 45 = 2 * (1 / 2 ^ 46) := by norm_num
  have e46 : (0 : ℚ) < 1 / 2 ^ 46 := by positivity
  have hrw2 : r * w ≤ 128 := by linarith
  obtain ⟨p1, p2⟩ := toDouble_le_ceil (r * w) 46 (by norm_num) hrw (by norm_num; linarith)
  have hp0 : 0 ≤ fmul r w := by
    rw [fmul_eq]
    exact toDouble_nonneg hrw
  have hp : fmul r w < r * w + 1 / 2 ^ 46 := by
    rw [fmul_eq]
    exact lt_of_le_of_lt p1 p2
  have hz : lo + fmul r w ≤ 128 := by linarith
  obtain ⟨z1, z2⟩ := toDouble_le_ceil (lo + fmul r w) 46 (by norm_num) (by linarith)
    (by norm_num; linarith)
  constructor
  · rw [fadd_eq]
    calc lo = toDouble lo := hlo.symm
      _ ≤ toDouble (lo + fmul r w) := toDouble_mono (by linarith)
  · rw [fadd_eq]
    have := lt_of_le_of_lt z1 z2
    linarith

theorem fsub_one_zero : fsub 1 0 = 1 := by decide!

/-- An unseeded draw from `[lo, hi]` with `0 ≤ lo ≤ hi ≤ b ≤ 100`, when `Math.random()` is at
most `1 - 2^(-44)`, is at least `⌊lo⌋` and at most `b`. -/
theorem drawUnseeded_bounds (lo hi r : ℚ) (b : Int) (hlo : toDouble lo = lo) (h0 : 0 ≤ lo)
    (hlh : lo ≤ hi) (hb : hi ≤ b) (hb1 : b ≤ 100) (hr0 : 0 ≤ r)
    (hr1 : r ≤ 17592186044415 / 17592186044416) :
    ⌊lo⌋ ≤ drawUnseeded (lo, hi) r ∧ drawUnseeded (lo, hi) r ≤ b := by
  unfold drawUnseeded
  simp only
  have hbq : (b : ℚ) ≤ 100 := by exact_mod_cast hb1
  have hb0 : 0 ≤ b := by
    have : (0 : ℚ) ≤ b := by linarith
    exact_mod_cast this
  have hy1 : fadd hi 1 ≤ ((b + 1 : Int) : ℚ) := by
    rw [fadd_eq]
    exact toDouble_le_int (by omega) (by omega) (by push_cast; linarith)
  push_cast at hy1
  have hy0 : lo ≤ fadd hi 1 := by
    rw [fadd_eq]
    calc lo = toDouble lo := hlo.symm
      _ ≤ toDouble (hi + 1) := toDouble_mono (by linarith)
  have hw0 : 0 ≤ fsub (fadd hi 1) lo := by
    rw [fsub_eq]
    exact toDouble_nonneg (by linarith)
  obtain ⟨w1, w2⟩ := toDouble_le_ceil ((b : ℚ) + 1 - lo) 46 (by norm_num) (by linarith)
    (by norm_num; linarith)
  have hw : fsub (fadd hi 1) lo < (b : ℚ) + 1 - lo + 1 / 2 ^ 46 := by
    rw [fsub_eq]
    calc toDouble (fadd hi 1 - lo) ≤ toDouble ((b : ℚ) + 1 - lo) := toDouble_mono (by linarith)
      _ < _ := lt_of_le_of_lt w1 w2
  have hmul : r * fsub (fadd hi 1) lo ≤
      17592186044415 / 17592186044416 * ((b : ℚ) + 1 - lo + 1 / 2 ^ 46) :=
    mul_le_mul hr1 hw.le hw0 (by norm_num)
  obtain ⟨k1, k2⟩ := fadd_fmul_lt lo (fsub (fadd hi 1) lo) r ((b : ℚ) + 1) hlo h0 hw0 hr0
    (by norm_num at hmul ⊢; linarith) (by linarith)
  constructor
  · exact Int.floor_le_floor k1
  · rw [← Int.lt_add_one_iff, Int.floor_lt]
    push_cast
    exact k2

/-- A seeded draw from `[lo, hi]` with `0 ≤ lo ≤ hi ≤ b ≤ 100`, when the fraction of line 287
is in `[0, 1 - 2^(-18)]`, is at least `⌊lo⌋` and at most `b`. -/
theorem drawSeeded_bounds (lo hi t : ℚ) (b : Int) (hlo : toDouble lo = lo) (h0 : 0 ≤ lo)
    (hlh : lo ≤ hi) (hb : hi ≤ b) (hb1 : b ≤ 100) (ht0 : 0 ≤ t)
    (ht1 : t ≤ 262143 / 262144) :
    ⌊lo⌋ ≤ drawSeeded (lo, hi) t ∧ drawSeeded (lo, hi) t ≤ b := by
  unfold drawSeeded
  simp only [jsOr_zero]
  have hbq : (b : ℚ) ≤ 100 := by exact_mod_cast hb1
  have hb0 : 0 ≤ b := by
    have : (0 : ℚ) ≤ b := by linarith
    exact_mod_cast this
  by_cases hz : hi = 0
  · have lo0 : lo = 0 := le_antisymm (by linarith) h0
    have hor : jsOr hi 1 = 1 := by unfold jsOr; rw [if_pos hz]
    rw [hor, lo0, fsub_one_zero]
    obtain ⟨k1, k2⟩ := fadd_fmul_lt 0 1 t 1 toDouble_zero (le_refl _) (by norm_num) ht0
      (by norm_num at ht1 ⊢; linarith) (by norm_num)
    constructor
    · exact Int.floor_le_floor k1
    · have : ⌊fadd 0 (fmul t 1)⌋ < 1 := by
        rw [Int.floor_lt]
        push_cast
        exact k2
      omega
  · have hor : jsOr hi 1 = hi := by unfold jsOr; rw [if_neg hz]
    rw [hor]
    have hw0 : 0 ≤ fsub hi lo := by
      rw [fsub_eq]
      exact toDouble_nonneg (by linarith)
    obtain ⟨w1, w2⟩ := toDouble_le_ceil ((b : ℚ) - lo) 46 (by norm_num) (by linarith)
      (by norm_num; linarith)
    have hw : fsub hi lo < (b : ℚ) - lo + 1 / 2 ^ 46 := by
      rw [fsub_eq]
      calc toDouble (hi - lo) ≤ toDouble ((b : ℚ) - lo) := toDouble_mono (by linarith)
        _ < _ := lt_of_le_of_lt w1 w2
    have hmul : t * fsub hi lo ≤ 1 * ((b : ℚ) - lo + 1 / 2 ^ 46) :=
      mul_le_mul (by norm_num at ht1 ⊢; linarith) hw.le hw0 (by norm_num)
    obtain ⟨k1, k2⟩ := fadd_fmul_lt lo (fsub hi lo) t ((b : ℚ) + 1) hlo h0 hw0 ht0
      (by norm_num at hmul ⊢; linarith) (by linarith)
    constructor
    · exact Int.floor_le_floor k1
    · rw [← Int.lt_add_one_iff, Int.floor_lt]
      push_cast
      exact k2

/-- A draw from `[lo, hi]` with `0 ≤ lo ≤ hi ≤ b ≤ 100`, with a non-negative seed or with no
seed and `Math.random()` at most `1 - 2^(-44)`, is at least `⌊lo⌋` and at most `b`. -/
theorem randomWithin_mem (rand : Nat → ℚ) (hrand : RandOK rand) (hcap : RandCapped rand)
    (lo hi : ℚ) (m : Module) (b : Int) (hn : SeedNonneg m) (hlo : toDouble lo = lo)
    (h0 : 0 ≤ lo) (hlh : lo ≤ hi) (hb : hi ≤ b) (hb1 : b ≤ 100) :
    ⌊lo⌋ ≤ (randomWithin rand (lo, hi) m).1 ∧ (randomWithin rand (lo, hi) m).1 ≤ b := by
  cases hs : m.seed with
  | none =>
    rw [randomWithin_unseeded rand _ m hs]
    exact drawUnseeded_bounds lo hi _ b hlo h0 hlh hb hb1 (hrand m.draws).1 (hcap m.draws)
  | some s =>
    rw [randomWithin_seeded rand _ m s hs]
    obtain ⟨n1, n2⟩ := nextSeed_bounds s
    obtain ⟨-, t2, t3⟩ := seedFraction_bounds (nextSeed s) n1 n2
    exact drawSeeded_bounds lo hi _ b hlo h0 hlh hb hb1 (t3 (nextSeed_nonneg (hn s hs))) t2

theorem minimumBrightnessLoop_double (l : List (Int × Int)) (S : Int) :
    toDouble (minimumBrightnessLoop l S) = minimumBrightnessLoop l S := by
  induction l with
  | nil => simp [minimumBrightnessLoop, toDouble_zero]
  | cons p t ih =>
    cases t with
    | nil => simp [minimumBrightnessLoop, toDouble_zero]
    | cons q rest =>
      obtain ⟨s1, v1⟩ := p
      obtain ⟨s2, v2⟩ := q
      simp only [minimumBrightnessLoop]
      split_ifs
      · exact fadd_double _ _
      · exact ih

/-- The check of `boundsFacts` on every entry of the dictionary. -/
theorem bounds_table : (colorDictionary.all fun e => boundsFacts e.2) = true := by
  decide!

theorem entry_facts {e : JSString × ColorInfo} (he : e ∈ colorDictionary) :
    e.2.saturationRange.2 = 100 ∧ 0 ≤ e.2.saturationRange.1 ∧ e.2.saturationRange.1 ≤ 55 ∧
    ∀ S : Int, 0 ≤ S → S ≤ 100 →
      0 ≤ minimumBrightnessLoop e.2.lowerBounds S ∧
      minimumBrightnessLoop e.2.lowerBounds S ≤ 100 ∧
      ((S = 0 ∨ 90 ≤ S) → minimumBrightnessLoop e.2.lowerBounds S ≤ 80) := by
  have h := List.all_eq_true.mp bounds_table e he
  unfold boundsFacts at h
  simp only [Bool.and_eq_true, decide_eq_true_eq, List.all_eq_true] at h
  obtain ⟨⟨h1, h2, h3⟩, h4⟩ := h
  exact ⟨h1, h2, h3, fun S s0 s1 => h4 S (mem_intsFromTo s0 s1)⟩
/-- With a hue of `[0, 360]`, a non-negative or absent seed and `Math.random()` at most
`1 - 2^(-44)`, `pickSaturation` returns an integer of `[0, 100]`: `0` or at least `90` for
`dark`, at most `55` for `light`. -/
theorem pickSaturation_spec (rand : Nat → ℚ) (hrand : RandOK rand) (hcap : RandCapped rand)
    (H : Int) (o : Options) (m : Module) (h0 : 0 ≤ H) (h1 : H ≤ 360) (hn : SeedNonneg m) :
    ∃ S, (pickSaturation rand H o m).1 = .ok S ∧ 0 ≤ S ∧ S ≤ 100 ∧
      (o.luminosity = .dark → S = 0 ∨ 90 ≤ S) ∧ (o.luminosity = .light → S ≤ 55) ∧
      SeedNonneg (pickSaturation rand H o m).2 ∧
      ((pickSaturation rand H o m).2.seed = none ↔ m.seed = none) := by
  have key : ∀ lo hi : Int, 0 ≤ lo → lo ≤ hi → hi ≤ 100 →
      (o.luminosity = .dark → 90 ≤ lo) → (o.luminosity = .light → hi ≤ 55) →
      ∃ S, (Except.ok (randomWithin rand ((lo : ℚ), (hi : ℚ)) m).1 : Except JSError Int) =
          .ok S ∧ 0 ≤ S ∧ S ≤ 100 ∧
        (o.luminosity = .dark → S = 0 ∨ 90 ≤ S) ∧ (o.luminosity = .light → S ≤ 55) ∧
        SeedNonneg (randomWithin rand ((lo : ℚ), (hi : ℚ)) m).2 ∧
        ((randomWithin rand ((lo : ℚ), (hi : ℚ)) m).2.seed = none ↔ m.seed = none) := by
    intro lo hi hlo hlh hhi hd hl
    obtain ⟨a, b⟩ := randomWithin_mem rand hrand hcap lo hi m hi hn
      (toDouble_int_small (by omega) (by omega)) (by exact_mod_cast hlo)
      (by exact_mod_cast hlh) (le_refl _) hhi
    rw [Int.floor_intCast] at a
    obtain ⟨h4, h5⟩ := randomWithin_state rand ((lo : ℚ), (hi : ℚ)) m
    refine ⟨_, rfl, by omega, by omega, ?_, ?_, h5 hn, h4⟩
    · intro h; have := hd h; right; omega
    · intro h; have := hl h; omega
  unfold pickSaturation
  split_ifs with hm hr
  · exact ⟨0, rfl, le_refl _, by norm_num, fun _ => Or.inl rfl, fun _ => by norm_num, hn,
      Iff.rfl⟩
  · have := key 0 100 (le_refl _) (by norm_num) (le_refl _) (by intro hd; rw [hd] at hr; cases hr)
      (by intro hd; rw [hd] at hr; cases hr)
    simpa using this
  · obtain ⟨e, he, hg⟩ := getColorInfo_some h0 h1
    have hsr : getSaturationRange H = .ok e.2.saturationRange := by
      unfold getSaturationRange; rw [hg]
    obtain ⟨f1, f2, f3, -⟩ := entry_facts he
    rw [hsr]
    simp only
    cases hl : o.luminosity
    · simpa [hl] using
        key 55 e.2.saturationRange.2 (by norm_num) (by omega) (by omega) (by simp [hl])
          (by simp [hl])
    · simpa [hl] using
        key (e.2.saturationRange.2 - 10) e.2.saturationRange.2 (by omega) (by omega) (by omega)
          (by intro; omega) (by simp [hl])
    · simpa [hl] using
        key e.2.saturationRange.1 55 f2 f3 (by norm_num) (by simp [hl]) (by simp)
    · exact absurd hl hr
    · simpa [hl] using
        key e.2.saturationRange.1 e.2.saturationRange.2 f2 (by omega) (by omega) (by simp [hl])
          (by simp [hl])

/-- With a hue of `[0, 360]`, `pickSaturation` returns a number, whatever the seed. -/
theorem pickSaturation_ok (rand : Nat → ℚ) (H : Int) (o : Options) (m : Module)
    (h0 : 0 ≤ H) (h1 : H ≤ 360) : ∃ S, (pickSaturation rand H o m).1 = .ok S := by
  unfold pickSaturation
  split_ifs with hm hr
  · exact ⟨_, rfl⟩
  · exact ⟨_, rfl⟩
  · obtain ⟨e, he, hg⟩ := getColorInfo_some h0 h1
    have hsr : getSaturationRange H = .ok e.2.saturationRange := by
      unfold getSaturationRange; rw [hg]
    rw [hsr]
    exact ⟨_, rfl⟩

/-- With a hue of `[0, 360]`, a saturation of `[0, 100]` (`0` or at least `90` for `dark`),
a non-negative or absent seed and `Math.random()` at most `1 - 2^(-44)`, `pickBrightness`
returns an integer of `[0, 100]`. -/
theorem pickBrightness_spec (rand : Nat → ℚ) (hrand : RandOK rand) (hcap : RandCapped rand)
    (H S : Int) (o : Options) (m : Module) (h0 : 0 ≤ H) (h1 : H ≤ 360) (s0 : 0 ≤ S)
    (s1 : S ≤ 100) (hdark : o.luminosity = .dark → S = 0 ∨ 90 ≤ S) (hn : SeedNonneg m) :
    ∃ B, (pickBrightness rand H S o m).1 = .ok B ∧ 0 ≤ B ∧ B ≤ 100 := by
  unfold pickBrightness
  obtain ⟨e, he, hg⟩ := getColorInfo_some h0 h1
  have hmb : getMinimumBrightness H S = .ok (minimumBrightnessLoop e.2.lowerBounds S) := by
    unfold getMinimumBrightness; rw [hg]
  obtain ⟨-, -, -, f4⟩ := entry_facts he
  obtain ⟨b0, b1, b2⟩ := f4 S s0 s1
  have bd := minimumBrightnessLoop_double e.2.lowerBounds S
  rw [hmb]
  simp only
  have key : ∀ lo hi : ℚ, toDouble lo = lo → 0 ≤ lo → lo ≤ hi → hi ≤ 100 →
      ∃ B, (Except.ok (randomWithin rand (lo, hi) m).1 : Except JSError Int) = .ok B ∧
        0 ≤ B ∧ B ≤ 100 := by
    intro lo hi hd hlo hlh hhi
    obtain ⟨a, b⟩ := randomWithin_mem rand hrand hcap lo hi m 100 hn hd hlo hlh
      (by push_cast; exact hhi) (le_refl _)
    exact ⟨_, rfl, le_trans (Int.floor_nonneg.mpr hlo) a, b⟩
  cases hl : o.luminosity
  · simpa [hl] using key _ 100 bd b0 b1 (le_refl _)
  · have h80 := b2 (hdark hl)
    have hhi : fadd (minimumBrightnessLoop e.2.lowerBounds S) 20 ≤ 100 := by
      rw [fadd_eq]
      have := toDouble_le_int (x := minimumBrightnessLoop e.2.lowerBounds S + 20) (n := 100)
        (by norm_num) (by norm_num) (by push_cast; linarith)
      exact_mod_cast this
    have hlh : minimumBrightnessLoop e.2.lowerBounds S ≤
        fadd (minimumBrightnessLoop e.2.lowerBounds S) 20 := by
      rw [fadd_eq]
      calc minimumBrightnessLoop e.2.lowerBounds S
          = toDouble (minimumBrightnessLoop e.2.lowerBounds S) := bd.symm
        _ ≤ _ := toDouble_mono (by linarith)
    simpa [hl] using key _ _ bd b0 hlh hhi
  · have hs : (100 : ℚ) ≤ fadd 100 (minimumBrightnessLoop e.2.lowerBounds S) ∧
        fadd 100 (minimumBrightnessLoop e.2.lowerBounds S) ≤ 200 := by
      rw [fadd_eq]
      have := toDouble_mem_int (x := 100 + minimumBrightnessLoop e.2.lowerBounds S)
        (a := 100) (b := 200) (by norm_num) (by push_cast; linarith) (by push_cast; linarith)
        (by norm_num)
      exact_mod_cast this
    have hq : (0 : ℚ) ≤ fdiv (fadd 100 (minimumBrightnessLoop e.2.lowerBounds S)) 2 ∧
        fdiv (fadd 100 (minimumBrightnessLoop e.2.lowerBounds S)) 2 ≤ 100 := by
      rw [fdiv_eq _ _ (by norm_num)]
      have := toDouble_mem_int
        (x := fadd 100 (minimumBrightnessLoop e.2.lowerBounds S) / 2)
        (a := 0) (b := 100) (by norm_num) (by push_cast; linarith [hs.1])
        (by push_cast; linarith [hs.2]) (by norm_num)
      exact_mod_cast this
    simpa [hl] using key _ 100 (fdiv_double _ 2 (by norm_num)) hq.1 hq.2 (le_refl _)
  · simpa [hl] using key 0 100 toDouble_zero (le_refl _) (by norm_num) (le_refl _)
  · simpa [hl] using key _ 100 bd b0 b1 (le_refl _)

/-- With a hue of `[0, 360]`, `pickBrightness` returns a number, whatever the seed. -/
theorem pickBrightness_ok (rand : Nat → ℚ) (H S : Int) (o : Options) (m : Module)
    (h0 : 0 ≤ H) (h1 : H ≤ 360) : ∃ B, (pickBrightness rand H S o m).1 = .ok B := by
  unfold pickBrightness
  obtain ⟨e, he, hg⟩ := getColorInfo_some h0 h1
  have hmb : getMinimumBrightness H S = .ok (minimumBrightnessLoop e.2.lowerBounds S) := by
    unfold getMinimumBrightness; rw [hg]
  rw [hmb]
  exact ⟨_, rfl⟩

/-- Lines 85-95 return a colour under every module state: no `'Color not found'` is read. -/
theorem generate_ok (rand : Nat → ℚ) (hrand : RandOK rand) (o : Options) (m : Module) :
    ∃ c, (generate rand o m).1 = .ok c := by
  unfold generate
  obtain ⟨H, hH, h0, h1, -⟩ := pickHue_spec rand hrand o m
  cases hp : pickHue rand o m with
  | mk r1 m1 =>
    rw [hp] at hH
    simp only at hH
    subst hH
    simp only
    obtain ⟨S, hS⟩ := pickSaturation_ok rand H o m1 h0 h1
    cases hq : pickSaturation rand H o m1 with
    | mk r2 m2 =>
      rw [hq] at hS
      simp only at hS
      subst hS
      simp only
      obtain ⟨B, hB⟩ := pickBrightness_ok rand H S o m2 h0 h1
      cases hb : pickBrightness rand H S o m2 with
      | mk r3 m3 =>
        rw [hb] at hB
        simp only at hB
        subst hB
        exact ⟨_, rfl⟩

/-- With the format `'hsvArray'`, a non-negative or absent seed and `Math.random()` at most
`1 - 2^(-44)`, lines 85-95 return a triple within the bounds; the hue is below `360` when a
seed is set. -/
theorem generate_hsv_bounds (rand : Nat → ℚ) (hrand : RandOK rand) (hcap : RandCapped rand)
    (o : Options) (m : Module) (hfmt : o.format = .hsvArray) (hn : SeedNonneg m) :
    ∃ H S B, (generate rand o m).1 = .ok (Color.hsvArray H S B) ∧
      0 ≤ H ∧ H ≤ 360 ∧ (m.seed ≠ none → H < 360) ∧ 0 ≤ S ∧ S ≤ 100 ∧ 0 ≤ B ∧ B ≤ 100 := by
  unfold generate
  obtain ⟨H, hH, h0, h1, h2, -, hn1⟩ := pickHue_spec rand hrand o m
  cases hp : pickHue rand o m with
  | mk r1 m1 =>
    rw [hp] at hH hn1
    simp only at hH hn1
    subst hH
    simp only
    obtain ⟨S, hS, s0, s1, sd, -, hn2, -⟩ :=
      pickSaturation_spec rand hrand hcap H o m1 h0 h1 (hn1 hn)
    cases hq : pickSaturation rand H o m1 with
    | mk r2 m2 =>
      rw [hq] at hS hn2
      simp only at hS hn2
      subst hS
      simp only
      obtain ⟨B, hB, b0, b1⟩ := pickBrightness_spec rand hrand hcap H S o m2 h0 h1 s0 s1 sd hn2
      cases hb : pickBrightness rand H S o m2 with
      | mk r3 m3 =>
        rw [hb] at hB
        simp only at hB
        subst hB
        refine ⟨H, S, B, ?_, h0, h1, h2, s0, s1, b0, b1⟩
        simp [setFormat, hfmt]
/-! ## Seeded calls do not depend on the rest of the module state -/

theorem randomWithin_congr (rand rand' : Nat → ℚ) (range : ℚ × ℚ) (m m' : Module)
    (h : SameSeed m m') :
    (randomWithin rand range m).1 = (randomWithin rand' range m').1 ∧
      SameSeed (randomWithin rand range m).2 (randomWithin rand' range m').2 := by
  obtain ⟨h1, h2⟩ := h
  unfold randomWithin SameSeed
  cases hs : m.seed with
  | none => exact absurd hs h2
  | some s =>
    rw [← h1, hs]
    simp

theorem pickHue_congr (rand rand' : Nat → ℚ) (o : Options) (m m' : Module)
    (h : SameSeed m m') :
    (pickHue rand o m).1 = (pickHue rand' o m').1 ∧
      SameSeed (pickHue rand o m).2 (pickHue rand' o m').2 := by
  unfold pickHue
  cases hr : getHueRange o.hue with
  | error e => exact ⟨rfl, h⟩
  | ok r =>
    obtain ⟨h1, h2⟩ := randomWithin_congr rand rand' r m m' h
    simp only
    rw [h1]
    exact ⟨rfl, h2⟩

theorem pickSaturation_congr (rand rand' : Nat → ℚ) (H : Int) (o : Options) (m m' : Module)
    (h : SameSeed m m') :
    (pickSaturation rand H o m).1 = (pickSaturation rand' H o m').1 ∧
      SameSeed (pickSaturation rand H o m).2 (pickSaturation rand' H o m').2 := by
  unfold pickSaturation
  split_ifs with hm hr
  · exact ⟨rfl, h⟩
  · obtain ⟨h1, h2⟩ := randomWithin_congr rand rand' (0, 100) m m' h
    simp only
    rw [h1]
    exact ⟨rfl, h2⟩
  · cases hs : getSaturationRange H with
    | error e => exact ⟨rfl, h⟩
    | ok r =>
      simp only
      exact ⟨congrArg _ (randomWithin_congr rand rand' _ m m' h).1,
        (randomWithin_congr rand rand' _ m m' h).2⟩

theorem pickBrightness_congr (rand rand' : Nat → ℚ) (H S : Int) (o : Options) (m m' : Module)
    (h : SameSeed m m') :
    (pickBrightness rand H S o m).1 = (pickBrightness rand' H S o m').1 ∧
      SameSeed (pickBrightness rand H S o m).2 (pickBrightness rand' H S o m').2 := by
  unfold pickBrightness
  cases hs : getMinimumBrightness H S with
  | error e => exact ⟨rfl, h⟩
  | ok bMin =>
    simp only
    exact ⟨congrArg _ (randomWithin_congr rand rand' _ m m' h).1,
      (randomWithin_congr rand rand' _ m m' h).2⟩

theorem setFormat_congr (rand rand' : Nat → ℚ) (hsv : Int × Int × Int) (o : Options)
    (m m' : Module) (ha : AlphaFixed o) :
    (setFormat rand hsv o m).1 = (setFormat rand' hsv o m').1 := by
  unfold setFormat
  rcases ha with ⟨h1, h2⟩ | ⟨a, h1, h2⟩
  · cases hf : o.format <;> simp_all
  · cases hf : o.format <;> simp [alphaOrRandom, h1, h2]

theorem generate_congr (rand rand' : Nat → ℚ) (o : Options) (m m' : Module)
    (h : SameSeed m m') (ha : AlphaFixed o) :
    (generate rand o m).1 = (generate rand' o m').1 := by
  unfold generate
  obtain ⟨e1, s1⟩ := pickHue_congr rand rand' o m m' h
  cases hp : pickHue rand o m with
  | mk r1 m1 =>
  cases hp' : pickHue rand' o m' with
  | mk r1' m1' =>
  rw [hp, hp'] at e1 s1
  simp only at e1 s1
  subst e1
  cases r1 with
  | error e => rfl
  | ok H =>
  simp only
  obtain ⟨e2, s2⟩ := pickSaturation_congr rand rand' H o m1 m1' s1
  cases hq : pickSaturation rand H o m1 with
  | mk r2 m2 =>
  cases hq' : pickSaturation rand' H o m1' with
  | mk r2' m2' =>
  rw [hq, hq'] at e2 s2
  simp only at e2 s2
  subst e2
  cases r2 with
  | error e => rfl
  | ok S =>
  simp only
  obtain ⟨e3, s3⟩ := pickBrightness_congr rand rand' H S o m2 m2' s2
  cases hb : pickBrightness rand H S o m2 with
  | mk r3 m3 =>
  cases hb' : pickBrightness rand' H S o m2' with
  | mk r3' m3' =>
  rw [hb, hb'] at e3 s3
  simp only at e3 s3
  subst e3
  cases r3 with
  | error e => rfl
  | ok B =>
  simp only
  exact congrArg _ (setFormat_congr rand rand' (H, S, B) o m3 m3' ha)

/-- Lines 85-95 read the hue, luminosity, format and alpha options only. -/
theorem generate_seed_irrelevant (rand : Nat → ℚ) (o : Options) (sd : SeedOpt) (m : Module) :
    generate rand { o with seed := sd } m = generate rand o m := rfl

/-- A call without `count` whose seed set-up succeeds returns what lines 85-95 return. -/
theorem randomColor_of_setup (rand : Nat → ℚ) (o : Options) (m m1 : Module)
    (hc : o.count = none) (hs : seedSetup o.seed m = .ok m1) :
    (randomColor rand o m).outcome = Except.map Value.color (generate rand o m1).1 ∧
      (randomColor rand o m).module = (generate rand o m1).2 ∧
      (randomColor rand o m).options = o := by
  unfold randomColor
  rw [hs, hc]
  simp only
  cases hg : generate rand o m1 with
  | mk r m2 =>
    cases r <;> simp [Except.map]

/-! ## Integer-valued doubles -/

theorem ulpExp_two_pow_53 : ulpExp ((2 : ℚ) ^ (53 : Int)) = 1 := by
  have h := ulpExp_of_bounds (x := (2 : ℚ) ^ (53 : Int)) (E := 53) (le_refl _)
    (by norm_num) (by norm_num)
  rw [h]
  norm_num

theorem toDouble_int_pos (n : Int) (h : 2 ^ 53 ≤ n) : ∃ k : Int, toDouble (n : ℚ) = k := by
  have hx : (2 : ℚ) ^ (53 : Int) ≤ (n : ℚ) := by
    have : ((2 ^ 53 : Int) : ℚ) ≤ (n : ℚ) := by exact_mod_cast h
    norm_num at this ⊢
    exact this
  have he : 1 ≤ ulpExp (n : ℚ) := by
    have := ulpExp_mono (zpow_two_pos 53) hx
    rw [ulpExp_two_pow_53] at this
    exact this
  obtain ⟨j, hj⟩ := Int.eq_ofNat_of_zero_le (by omega : 0 ≤ ulpExp (n : ℚ))
  refine ⟨roundHalfEven ((n : ℚ) / 2 ^ ulpExp (n : ℚ)) * 2 ^ j, ?_⟩
  rw [toDouble_eq]
  unfold nearest
  rw [hj, zpow_natCast]
  push_cast
  rfl

/-- The double nearest to an integer is an integer. -/
theorem toDouble_int_isInt (n : Int) : ∃ k : Int, toDouble (n : ℚ) = k := by
  by_cases h : |n| ≤ 2 ^ 53
  · exact ⟨n, toDouble_intCast n h⟩
  · rcases le_or_lt 0 n with h0 | h0
    · rw [abs_of_nonneg h0] at h
      exact toDouble_int_pos n (by omega)
    · rw [abs_of_neg h0] at h
      obtain ⟨k, hk⟩ := toDouble_int_pos (-n) (by omega)
      refine ⟨-k, ?_⟩
      have : (n : ℚ) = -((-n : Int) : ℚ) := by push_cast; ring
      rw [this, toDouble_neg, hk]
      push_cast
      rfl

theorem iadd_cast (a b : Int) : ((iadd a b : Int) : ℚ) = fadd a b := by
  unfold iadd
  rw [fadd_eq]
  obtain ⟨k, hk⟩ := toDouble_int_isInt (a + b)
  push_cast at hk
  rw [hk, Int.floor_intCast]

theorem iadd_double (a b : Int) : toDouble ((iadd a b : Int) : ℚ) = iadd a b := by
  rw [iadd_cast, fadd_double]

theorem iadd_le_of_le {a b N : Int} (hN : toDouble (N : ℚ) = N) (h : a + b ≤ N) :
    iadd a b ≤ N := by
  have h1 : ((iadd a b : Int) : ℚ) ≤ N := by
    rw [iadd_cast, fadd_eq]
    apply toDouble_le_of_le hN
    exact_mod_cast h
  exact_mod_cast h1

theorem le_iadd_of_le {a b N : Int} (hN : toDouble (N : ℚ) = N) (h : N ≤ a + b) :
    N ≤ iadd a b := by
  have h1 : (N : ℚ) ≤ ((iadd a b : Int) : ℚ) := by
    rw [iadd_cast, fadd_eq]
    apply le_toDouble_of_le hN
    exact_mod_cast h
  exact_mod_cast h1

/-- The largest double below `10^21` is `10^21 - 2^17`, and adding one to it rounds back. -/
theorem below_1e21_table :
    toDouble ((999999999999999868928 : Int) : ℚ) = ((999999999999999868928 : Int) : ℚ) ∧
    toDouble ((999999999999999868929 : Int) : ℚ) = ((999999999999999868928 : Int) : ℚ) ∧
    toDouble ((9007199254806528 : Int) : ℚ) = ((9007199254806528 : Int) : ℚ) := by
  decide!

theorem double_below_1e21 {x : ℚ} (hx : toDouble x = x) (h : x < 10 ^ 21) :
    x ≤ 999999999999999868928 := by
  rcases double_le_or_ge 69 7629394531249999 x hx (by norm_num) (by norm_num) (by norm_num)
    with h1 | h1
  · have e : ((7629394531249999 : Int) : ℚ) * 2 ^ ((69 : Int) - 52) =
        999999999999999868928 := by
      norm_num
    rw [e] at h1
    exact h1
  · have e : (((7629394531249999 : Int) : ℚ) + 1) * 2 ^ ((69 : Int) - 52) = 10 ^ 21 := by
      norm_num
    rw [e] at h1
    linarith

/-- An integer seed that is a double below `10^21` in magnitude stays one after `+= 1`. -/
theorem seedFits_int_addOne (n : Int) (hd : toDouble (n : ℚ) = n) (hlt : n.natAbs < 10 ^ 21) :
    toDouble ((iadd n 1 : Int) : ℚ) = iadd n 1 ∧ (iadd n 1).natAbs < 10 ^ 21 := by
  refine ⟨iadd_double n 1, ?_⟩
  obtain ⟨t1, t2, -⟩ := below_1e21_table
  have hu : (n : ℚ) ≤ 999999999999999868928 := by
    apply double_below_1e21 hd
    have : n < 10 ^ 21 := by omega
    exact_mod_cast this
  have hl : (-(n : ℚ)) ≤ 999999999999999868928 := by
    apply double_below_1e21 (by rw [toDouble_neg, hd])
    have : -n < 10 ^ 21 := by omega
    exact_mod_cast this
  have hu' : n ≤ 999999999999999868928 := by exact_mod_cast hu
  have hl' : -999999999999999868928 ≤ n := by
    have : -n ≤ 999999999999999868928 := by exact_mod_cast hl
    omega
  have a : iadd n 1 ≤ 999999999999999868928 := by
    have h1 : ((iadd n 1 : Int) : ℚ) ≤ ((999999999999999868928 : Int) : ℚ) := by
      rw [iadd_cast, fadd_eq, ← t2]
      apply toDouble_mono
      push_cast
      linarith
    exact_mod_cast h1
  have b : -999999999999999868928 ≤ iadd n 1 := by
    apply le_iadd_of_le
    · have := toDouble_neg ((999999999999999868928 : Int) : ℚ)
      rw [t1] at this
      push_cast at this ⊢
      exact this
    · omega
  omega

/-! ## String seeds -/

theorem utf16Units_lt (c : Char) : ∀ u ∈ utf16Units c, u < 65536 := by
  intro u hu
  unfold utf16Units at hu
  have hv := c.valid
  have hc : c.toNat < 1114112 := by
    unfold UInt32.isValidChar Nat.isValidChar at hv
    unfold Char.toNat
    omega
  split_ifs at hu with h
  · simp at hu; omega
  · simp at hu
    rcases hu with h1 | h1 <;> omega

theorem stringToIntegerLoop_bounds (l : List Nat) (t : Int) (hl : ∀ u ∈ l, u < 65536)
    (ht0 : 0 ≤ t) (ht : t ≤ 9007199254806528) :
    0 ≤ stringToIntegerLoop l t ∧ stringToIntegerLoop l t ≤ 9007199254806528 := by
  induction l generalizing t with
  | nil => simpa [stringToIntegerLoop] using ⟨ht0, ht⟩
  | cons c rest ih =>
    unfold stringToIntegerLoop
    split_ifs with h
    · exact ⟨ht0, ht⟩
    · apply ih
      · intro u hu; exact hl u (List.mem_cons_of_mem _ hu)
      · exact iadd_nonneg ht0 (by omega)
      · apply iadd_le_of_le below_1e21_table.2.2
        have := hl c (List.mem_cons_self _ _)
        unfold MAX_SAFE_INTEGER at h
        omega

/-- The hash of a string seed is below `10^21`, so it passes the integer test of line 44. -/
theorem stringToInteger_passes (s : JSString) :
    passesIntegerTest (stringToInteger s) = true := by
  have h : 0 ≤ stringToInteger s ∧ stringToInteger s ≤ 9007199254806528 := by
    unfold stringToInteger
    apply stringToIntegerLoop_bounds
    · intro u hu
      rw [List.mem_flatMap] at hu
      obtain ⟨c, -, hc⟩ := hu
      exact utf16Units_lt c u hc
    · exact le_refl _
    · norm_num
  unfold passesIntegerTest
  simp only [decide_eq_true_eq]
  omega

theorem randOK_zero : RandOK (fun _ => 0) :=
  fun _ => ⟨le_refl _, by norm_num, toDouble_zero⟩

theorem half_double : toDouble (1 / 2) = 1 / 2 := by decide!

theorem randOK_half : RandOK (fun _ => 1 / 2) :=
  fun _ => ⟨by norm_num, by norm_num, half_double⟩

theorem randCapped_half : RandCapped (fun _ => 1 / 2) := fun _ => by norm_num

/-- C3. For every string seed `s` and every hue, luminosity and alpha-free format, a
single-colour call with seed `s` returns the same colour as the call with the integer seed
`stringToInteger s`, whatever the module state and the random source of either call. -/
theorem randomColor_string_seed (rand rand' : Nat → ℚ) (o : Options) (s : JSString)
    (m m' : Module) (hcount : o.count = none)
    (hfmt : o.format ≠ .hsla ∧ o.format ≠ .rgba) :
    (randomColor rand { o with seed := .str s } m).outcome =
      (randomColor rand' { o with seed := .int (stringToInteger s) } m').outcome := by
  have h1 := randomColor_of_setup rand { o with seed := .str s } m
    { m with seed := some (stringToInteger s) } hcount rfl
  have h2 := randomColor_of_setup rand' { o with seed := .int (stringToInteger s) } m'
    { m' with seed := some (stringToInteger s) } hcount (by
      simp only [seedSetup, stringToInteger_passes, if_true])
  rw [h1.1, h2.1, generate_seed_irrelevant, generate_seed_irrelevant]
  exact congrArg _ (generate_congr rand rand' o _ _ ⟨rfl, by simp⟩ (Or.inl hfmt))

/-- C3, witness: the seed `"42"` and the seed `102`, the sum of the codes `52` and `50`. -/
theorem randomColor_string_seed_witness :
    stringToInteger "42".toList = 102 ∧
    (randomColor (fun _ => 0)
        { seed := .str "42".toList, count := none, hue := .str "red".toList,
          luminosity := .default, format := .hex, alpha := none } ⟨none, 0⟩).outcome =
      (randomColor (fun _ => 0)
        { seed := .int (stringToInteger "42".toList), count := none,
          hue := .str "red".toList, luminosity := .default, format := .hex,
          alpha := none } ⟨none, 0⟩).outcome :=
  ⟨by decide!, randomColor_string_seed (fun _ => 0) (fun _ => 0)
    { seed := .absent, count := none, hue := .str "red".toList, luminosity := .default,
      format := .hex, alpha := none } "42".toList ⟨none, 0⟩ ⟨none, 0⟩ rfl
    ⟨by decide, by decide⟩⟩

/-- A seeded single-colour call returns the same result under every module state and
every random source, provided the format draws no random alpha. -/
theorem randomColor_seeded_deterministic (rand rand' : Nat → ℚ) (o : Options) (n : Int)
    (m m' : Module) (hseed : o.seed = .int n) (hcount : o.count = none)
    (ha : AlphaFixed o) :
    (randomColor rand o m).outcome = (randomColor rand' o m').outcome := by
  by_cases hp : passesIntegerTest n = true
  · have h1 := randomColor_of_setup rand o m { m with seed := some n } hcount (by
      simp only [hseed, seedSetup, hp, if_true])
    have h2 := randomColor_of_setup rand' o m' { m' with seed := some n } hcount (by
      simp only [hseed, seedSetup, hp, if_true])
    rw [h1.1, h2.1]
    exact congrArg _ (generate_congr rand rand' o _ _ ⟨rfl, by simp⟩ ha)
  · unfold randomColor
    simp [hseed, seedSetup, hp]
/-! ## The bounds of a generated colour -/

/-- C1, amended. For every configuration `randomColor` accepts with format `'hsvArray'`
(any hue option, any luminosity; unseeded with every random fraction a double of
`[0, 1 - 2^(-44)]`, or seeded with a non-negative integer seed below `10^21`), the triple
`[H, S, B]` it returns satisfies `0 ≤ H ≤ 360`, with `H < 360` when a seed is given,
`0 ≤ S ≤ 100` and `0 ≤ B ≤ 100`. -/
theorem randomColor_hsvArray_bounds (rand : Nat → ℚ) (hrand : RandOK rand)
    (hcap : RandCapped rand) (o : Options) (m : Module) (hcount : o.count = none)
    (hfmt : o.format = .hsvArray)
    (hseed : o.seed = .absent ∨ ∃ n, o.seed = .int n ∧ 0 ≤ n ∧ n < 10 ^ 21) :
    ∃ H S B, (randomColor rand o m).outcome = .ok (Value.color (Color.hsvArray H S B)) ∧
      0 ≤ H ∧ H ≤ 360 ∧ (o.seed ≠ .absent → H < 360) ∧ 0 ≤ S ∧ S ≤ 100 ∧ 0 ≤ B ∧ B ≤ 100 := by
  rcases hseed with ha | ⟨n, hn, n0, n1⟩
  · have h1 := randomColor_of_setup rand o m { m with seed := none } hcount (by
      simp only [ha, seedSetup])
    obtain ⟨H, S, B, hg, b1, b2, -, b4, b5, b6, b7⟩ :=
      generate_hsv_bounds rand hrand hcap o { m with seed := none } hfmt (by
        intro s hs; simp at hs)
    refine ⟨H, S, B, ?_, b1, b2, fun h => absurd ha h, b4, b5, b6, b7⟩
    rw [h1.1, hg]
    rfl
  · have hp : passesIntegerTest n = true := by
      unfold passesIntegerTest
      simp only [decide_eq_true_eq]
      omega
    have h1 := randomColor_of_setup rand o m { m with seed := some n } hcount (by
      simp only [hn, seedSetup, hp, if_true])
    obtain ⟨H, S, B, hg, b1, b2, b3, b4, b5, b6, b7⟩ :=
      generate_hsv_bounds rand hrand hcap o { m with seed := some n } hfmt (by
        intro s hs
        simp only [Option.some.injEq] at hs
        omega)
    refine ⟨H, S, B, ?_, b1, b2, fun _ => b3 (by simp), b4, b5, b6, b7⟩
    rw [h1.1, hg]
    rfl

/-- C1, witness: seed `42`, hue `'red'`. -/
theorem randomColor_hsvArray_bounds_witness :
    ∃ H S B, (randomColor (fun _ => 1 / 2)
        { seed := .int 42, count := none, hue := .str "red".toList, luminosity := .default,
          format := .hsvArray, alpha := none } ⟨none, 0⟩).outcome =
        .ok (Value.color (Color.hsvArray H S B)) ∧
      0 ≤ H ∧ H ≤ 360 ∧
      ((SeedOpt.int 42) ≠ .absent → H < 360) ∧ 0 ≤ S ∧ S ≤ 100 ∧ 0 ≤ B ∧ B ≤ 100 :=
  randomColor_hsvArray_bounds (fun _ => 1 / 2) randOK_half randCapped_half
    { seed := .int 42, count := none, hue := .str "red".toList, luminosity := .default,
      format := .hsvArray, alpha := none } ⟨none, 0⟩ rfl rfl
    (Or.inr ⟨42, rfl, by norm_num, by norm_num⟩)

/-- C1 as stated fails: unseeded, with hue absent, the random fraction `511/512` of `[0,1)`
gives the hue `⌊361 · 511/512⌋ = 360`, which is not below `360`. -/
theorem randomColor_hue_360 :
    toDouble (511 / 512) = 511 / 512 ∧ (0 : ℚ) ≤ 511 / 512 ∧ (511 / 512 : ℚ) < 1 ∧
    (randomColor (fun _ => 511 / 512)
        { seed := .absent, count := none, hue := .absent, luminosity := .default,
          format := .hsvArray, alpha := none } ⟨none, 0⟩).outcome =
      .ok (Value.color (Color.hsvArray 360 100 100)) ∧
    ¬ ((360 : Int) < 360) := by
  refine ⟨by decide!, by norm_num, by norm_num, by decide!, by decide⟩

/-- With `Math.random()` returning `1/2` and then twice the largest double below `1`, the
draw from `[50, 100]` is rounded up to `101`: hue `'red'` gives `[356, 100, 101]`. -/
theorem randomColor_brightness_101 :
    toDouble (9007199254740991 / 9007199254740992) = 9007199254740991 / 9007199254740992 ∧
    (randomColor (fun i => if i = 0 then 1 / 2 else 9007199254740991 / 9007199254740992)
        { seed := .absent, count := none, hue := .str "red".toList, luminosity := .default,
          format := .hsvArray, alpha := none } ⟨none, 0⟩).outcome =
      .ok (Value.color (Color.hsvArray 356 100 101)) := by
  refine ⟨by decide!, by decide!⟩

/-- A negative seed leaves the bounds: seed `-6` gives `[349, -5, -23]`. -/
theorem randomColor_seed_negative :
    (randomColor (fun _ => 0)
        { seed := .int (-6), count := none, hue := .absent, luminosity := .default,
          format := .hsvArray, alpha := none } ⟨none, 0⟩).outcome =
      .ok (Value.color (Color.hsvArray 349 (-5) (-23))) := by
  decide!

/-! ## The seed set-up and the count loop -/

theorem seedSetup_ok (sd : SeedOpt) (k : Nat) (m : Module) (h : SeedFits sd k) :
    ∃ m1, seedSetup sd m = .ok m1 := by
  cases sd with
  | absent => exact ⟨_, rfl⟩
  | str s => exact ⟨_, rfl⟩
  | other => exact h.elim
  | int n =>
    have hp : passesIntegerTest n = true := by
      unfold SeedFits at h
      unfold passesIntegerTest
      simp only [decide_eq_true_eq]
      exact h.2
    exact ⟨{ m with seed := some n }, by simp only [seedSetup, hp, if_true]⟩

theorem randomColorSingle_ok (rand : Nat → ℚ) (hrand : RandOK rand) (o : Options) (m : Module)
    (k : Nat) (h : SeedFits o.seed k) : ∃ c, (randomColorSingle rand o m).1 = .ok c := by
  obtain ⟨m1, hm⟩ := seedSetup_ok o.seed k m h
  unfold randomColorSingle
  rw [hm]
  exact generate_ok rand hrand o m1

/-- The call inside the loop is the call of `randomColor` on options without `count`. -/
theorem randomColor_single (rand : Nat → ℚ) (o : Options) (m : Module)
    (hc : o.count = none) :
    (randomColor rand o m).outcome = Except.map Value.color (randomColorSingle rand o m).1 := by
  unfold randomColor randomColorSingle
  cases hs : seedSetup o.seed m with
  | error e => rfl
  | ok m1 =>
    rw [hc]
    simp only
    cases hg : generate rand o m1 with
    | mk r m2 => cases r <;> rfl

theorem seedFits_addOne (sd : SeedOpt) (k : Nat) (h : SeedFits sd (k + 1)) :
    SeedFits (seedOptionAddOne sd) k := by
  cases sd with
  | absent => exact h
  | str s => trivial
  | other => exact h.elim
  | int n =>
    unfold SeedFits at h
    unfold seedOptionAddOne SeedFits
    exact seedFits_int_addOne n h.1 h.2

theorem seedFits_mono (sd : SeedOpt) (k : Nat) (h : SeedFits sd (k + 1)) : SeedFits sd k := by
  cases sd with
  | absent => exact h
  | str s => trivial
  | other => exact h.elim
  | int n => exact h

/-- The count loop runs its `k` rounds and appends `k` colours, each one the result of a
call without `count`. -/
theorem countLoop_spec (rand : Nat → ℚ) (hrand : RandOK rand) (k : Nat) :
    ∀ (o : Options) (m : Module) (acc : List Color), o.count = none → SeedFits o.seed k →
      ∃ cs o1 m1, countLoop rand k o m acc = (.ok (acc ++ cs), o1, m1) ∧ cs.length = k ∧
        o1.count = none ∧
        ∀ c ∈ cs, ∃ o2 m2, o2.count = none ∧ (randomColorSingle rand o2 m2).1 = .ok c := by
  induction k with
  | zero =>
    intro o m acc hc _
    exact ⟨[], o, m, by simp [countLoop], rfl, hc, by simp⟩
  | succ k ih =>
    intro o m acc hc hfit
    unfold countLoop
    simp only
    generalize ho : (if (seedTruthy m.seed && seedOptionTruthy o.seed) = true then
      { o with seed := seedOptionAddOne o.seed } else o) = o1
    have hc1 : o1.count = none := by
      rw [← ho]; split_ifs <;> simp [hc]
    have hfit1 : SeedFits o1.seed k := by
      rw [← ho]
      split_ifs
      · exact seedFits_addOne _ _ hfit
      · exact seedFits_mono _ _ hfit
    obtain ⟨c, hcol⟩ := randomColorSingle_ok rand hrand o1 m k hfit1
    cases hr : randomColorSingle rand o1 m with
    | mk r m1 =>
      rw [hr] at hcol
      simp only at hcol
      subst hcol
      simp only
      obtain ⟨cs, o2, m2, h1, h2, h3, h4⟩ := ih o1 m1 (acc ++ [c]) hc1 hfit1
      refine ⟨c :: cs, o2, m2, ?_, by simp [h2], h3, ?_⟩
      · rw [h1]; simp
      · intro c' hc'
        rcases List.mem_cons.mp hc' with rfl | hmem
        · exact ⟨o1, m, hc1, by rw [hr]⟩
        · exact h4 c' hmem

/-- C5. For every count `n` and any other options whose seed is absent, a string, or an
integer (a double) below `10^21` in magnitude, `randomColor` returns an array of exactly `n`
colours, each one a value that a call without `count` returns. -/
theorem randomColor_count (rand : Nat → ℚ) (hrand : RandOK rand) (o : Options) (m : Module)
    (n : Nat) (hcount : o.count = some n) (hseed : SeedFits o.seed n) :
    ∃ cs, (randomColor rand o m).outcome = .ok (Value.colors cs) ∧ cs.length = n ∧
      ∀ c ∈ cs, ∃ o' m', o'.count = none ∧
        (randomColor rand o' m').outcome = .ok (Value.color c) := by
  obtain ⟨m1, hm⟩ := seedSetup_ok o.seed n m hseed
  obtain ⟨cs, o1, m2, h1, h2, -, h4⟩ :=
    countLoop_spec rand hrand n { o with count := none } m1 [] rfl hseed
  refine ⟨cs, ?_, h2, ?_⟩
  · unfold randomColor
    rw [hm, hcount]
    simp only
    rw [h1]
    simp
  · intro c hc
    obtain ⟨o2, m3, hc2, hr⟩ := h4 c hc
    refine ⟨o2, m3, hc2, ?_⟩
    rw [randomColor_single rand o2 m3 hc2, hr]
    rfl

/-- C5, witness: seed `1` and count `5` give five colours. -/
theorem randomColor_count_witness :
    ∃ cs, (randomColor (fun _ => 0)
        { seed := .int 1, count := some 5, hue := .absent, luminosity := .default,
          format := .hex, alpha := none } ⟨none, 0⟩).outcome = .ok (Value.colors cs) ∧
      cs.length = 5 ∧
      ∀ c ∈ cs, ∃ o' m', o'.count = none ∧
        (randomColor (fun _ => 0) o' m').outcome = .ok (Value.color c) :=
  randomColor_count (fun _ => 0) randOK_zero
    { seed := .int 1, count := some 5, hue := .absent, luminosity := .default,
      format := .hex, alpha := none } ⟨none, 0⟩ 5 rfl
    ⟨toDouble_int_small (by norm_num) (by norm_num), by decide⟩

/-- A call whose seed option fits returns a value: it throws nothing. -/
theorem randomColor_returns (rand : Nat → ℚ) (hrand : RandOK rand) (o : Options) (m : Module)
    (hfit : SeedFits o.seed (o.count.getD 0)) : ∃ v, (randomColor rand o m).outcome = .ok v := by
  obtain ⟨m1, hm⟩ := seedSetup_ok o.seed _ m hfit
  cases hc : o.count with
  | none =>
    obtain ⟨c, hg⟩ := generate_ok rand hrand o m1
    refine ⟨Value.color c, ?_⟩
    rw [(randomColor_of_setup rand o m m1 hc hm).1, hg]
    rfl
  | some n =>
    rw [hc] at hfit
    obtain ⟨cs, o1, m2, h1, -, -, -⟩ :=
      countLoop_spec rand hrand n { o with count := none } m1 [] rfl hfit
    refine ⟨Value.colors cs, ?_⟩
    unfold randomColor
    rw [hm, hc]
    simp only
    rw [h1]
    simp

/-- The seed check of lines 44-58, for a seed that is a JavaScript number: `randomColor`
fails with the invalid-seed `TypeError` if and only if `options.seed` is present and is
neither a string nor an integer of magnitude below `10^21`; when it fails, the module-level
seed and the options are left unchanged. -/
theorem randomColor_invalidSeed_iff (rand : Nat → ℚ) (hrand : RandOK rand) (o : Options)
    (m : Module) (hdouble : ∀ k, o.seed = .int k → toDouble (k : ℚ) = k) :
    ((randomColor rand o m).outcome = .error JSError.invalidSeed ↔
      (o.seed = .other ∨ ∃ k, o.seed = .int k ∧ 10 ^ 21 ≤ k.natAbs)) ∧
    ((randomColor rand o m).outcome = .error JSError.invalidSeed →
      (randomColor rand o m).module = m ∧ (randomColor rand o m).options = o) := by
  by_cases hbad : o.seed = .other ∨ ∃ k, o.seed = .int k ∧ 10 ^ 21 ≤ k.natAbs
  · have hs : seedSetup o.seed m = .error JSError.invalidSeed := by
      rcases hbad with h | ⟨k, h, hk⟩
      · rw [h]; rfl
      · rw [h]
        have hp : passesIntegerTest k = false := by
          unfold passesIntegerTest
          simp only [decide_eq_false_iff_not]
          omega
        simp [seedSetup, hp]
    have hr : randomColor rand o m = ⟨.error JSError.invalidSeed, o, m⟩ := by
      unfold randomColor
      rw [hs]
    rw [hr]
    exact ⟨⟨fun _ => hbad, fun _ => rfl⟩, fun _ => ⟨rfl, rfl⟩⟩
  · have hfit : SeedFits o.seed (o.count.getD 0) := by
      cases hsd : o.seed with
      | absent => trivial
      | str s => trivial
      | other => exact absurd (Or.inl hsd) hbad
      | int k =>
        unfold SeedFits
        refine ⟨hdouble k hsd, ?_⟩
        by_contra hk
        exact hbad (Or.inr ⟨k, hsd, by omega⟩)
    obtain ⟨v, hv⟩ := randomColor_returns rand hrand o m hfit
    rw [hv]
    constructor
    · constructor
      · intro h; cases h
      · intro h; exact absurd h hbad
    · intro h; cases h

/-- C4. The seed `10^21` is an integer and a double, yet the call throws the invalid-seed
`TypeError`: `parseInt` reads the text `1e+21` of that number as `1`, so the test
`options.seed === parseInt(options.seed, 10)` of line 44 fails. -/
theorem randomColor_seed_1e21_throws :
    toDouble ((10 ^ 21 : Int) : ℚ) = ((10 ^ 21 : Int) : ℚ) ∧
    (randomColor (fun _ => 0)
        { seed := .int (10 ^ 21), count := none, hue := .absent, luminosity := .default,
          format := .hex, alpha := none } ⟨none, 0⟩).outcome = .error JSError.invalidSeed := by
  refine ⟨by decide!, by decide!⟩
/-! ## Hex hue options: the `#` form -/

theorem parseInt_hash (t : JSString) : parseInt ('#' :: t) 0 = none := by
  simp [parseInt, isStrWhiteSpace, parseDigits, radixDigit, digitValue]

theorem dictionaryEntry_hash (t : JSString) : dictionaryEntry ('#' :: t) = none := by
  simp [dictionaryEntry, colorDictionary, loadColorBounds, defineColor]

/-! ## Inputs on which the code departs from its contract -/

/-- C2, failing input. With seed `42`, format `'rgba'` and `alpha: 0`, the expression
`options.alpha || Math.random()` draws a random alpha: two calls with equal options return
different results, `1/4` and then `1/2` being the values of `Math.random()`. -/
theorem randomColor_alpha_zero_differs :
    (randomColor (fun i => [1 / 4, 1 / 2].getD i 0)
        { seed := .int 42, count := none, hue := .str "red".toList, luminosity := .default,
          format := .rgba, alpha := some 0 } ⟨none, 0⟩).outcome =
      .ok (Value.color (Color.rgba 249 79 37 (1 / 4))) ∧
    (randomColor (fun i => [1 / 4, 1 / 2].getD i 0)
        { seed := .int 42, count := none, hue := .str "red".toList, luminosity := .default,
          format := .rgba, alpha := some 0 } ⟨some 223713, 1⟩).outcome =
      .ok (Value.color (Color.rgba 249 79 37 (1 / 2))) ∧
    (randomColor (fun i => [1 / 4, 1 / 2].getD i 0)
        { seed := .int 42, count := none, hue := .str "red".toList, luminosity := .default,
          format := .rgba, alpha := some 0 } ⟨none, 0⟩).module = ⟨some 223713, 1⟩ := by
  decide!

/-- C6, failing input. With seed `0` the test `seed && options.seed` of line 75 is falsy,
the seed is never incremented, and the two colours of the batch are identical. -/
theorem randomColor_seed_zero_batch :
    (randomColor (fun _ => 0)
        { seed := .int 0, count := some 2, hue := .absent, luminosity := .default,
          format := .hsvArray, alpha := none } ⟨none, 0⟩).outcome =
      .ok (Value.colors [Color.hsvArray 76 79 84, Color.hsvArray 76 79 84]) := by
  decide!

/-- C9, failing input. Unseeded, hue `'red'`, luminosity `'dark'`, with the random fractions
`1/2`, `1/8`, `63/64`: the colour is `[356, 91, 75]`, the envelope at `(356, 91)` is `54.5`,
and the brightness `75` exceeds `54.5 + 20`. -/
theorem randomColor_dark_exceeds :
    (randomColor (fun i => [1 / 2, 1 / 8, 63 / 64].getD i 0)
        { seed := .absent, count := none, hue := .str "red".toList, luminosity := .dark,
          format := .hsvArray, alpha := none } ⟨none, 0⟩).outcome =
      .ok (Value.color (Color.hsvArray 356 91 75)) ∧
    getMinimumBrightness 356 91 = .ok (109 / 2) ∧
    ¬ ((75 : ℚ) ≤ 109 / 2 + 20) := by
  decide!

/-- C10, failing input. Unseeded, hue `'green'`, luminosity `'light'`, with the random
fractions `1/2`, `25/32`, `1/32`: the colour is `[121, 50, 92]`, the envelope at `(121, 50)`
is `85`, and the brightness `92` is below the midpoint `(85 + 100) / 2 = 92.5`. -/
theorem randomColor_light_below_midpoint :
    (randomColor (fun i => [1 / 2, 25 / 32, 1 / 32].getD i 0)
        { seed := .absent, count := none, hue := .str "green".toList, luminosity := .light,
          format := .hsvArray, alpha := none } ⟨none, 0⟩).outcome =
      .ok (Value.color (Color.hsvArray 121 50 92)) ∧
    getMinimumBrightness 121 50 = .ok 85 ∧
    ¬ (((85 : ℚ) + 100) / 2 ≤ 92) := by
  decide!

/-! ## The RGB and hex views (lines 292-305, 376-409) -/

theorem unit_fmul {a b : ℚ} (a0 : 0 ≤ a) (a1 : a ≤ 1) (b0 : 0 ≤ b) (b1 : b ≤ 1) :
    0 ≤ fmul a b ∧ fmul a b ≤ 1 := by
  rw [fmul_eq]
  have := toDouble_mem_int (x := a * b) (a := 0) (b := 1) (by norm_num)
    (by push_cast; exact mul_nonneg a0 b0) (by push_cast; nlinarith) (by norm_num)
  exact_mod_cast this

theorem unit_one_fsub {a : ℚ} (a0 : 0 ≤ a) (a1 : a ≤ 1) : 0 ≤ fsub 1 a ∧ fsub 1 a ≤ 1 := by
  rw [fsub_eq]
  have := toDouble_mem_int (x := 1 - a) (a := 0) (b := 1) (by norm_num)
    (by push_cast; linarith) (by push_cast; linarith) (by norm_num)
  exact_mod_cast this

theorem unit_fdiv_100 {n : Int} (n0 : 0 ≤ n) (n1 : n ≤ 100) :
    0 ≤ fdiv n 100 ∧ fdiv n 100 ≤ 1 := by
  rw [fdiv_eq _ _ (by norm_num)]
  have h0 : (0 : ℚ) ≤ n := by exact_mod_cast n0
  have h1 : (n : ℚ) ≤ 100 := by exact_mod_cast n1
  have := toDouble_mem_int (x := (n : ℚ) / 100) (a := 0) (b := 1) (by norm_num)
    (by push_cast; positivity) (by push_cast; linarith) (by norm_num)
  exact_mod_cast this

theorem channel_bounds (x : ℚ) (h0 : 0 ≤ x) (h1 : x ≤ 1) :
    0 ≤ ⌊fmul x 255⌋ ∧ ⌊fmul x 255⌋ ≤ 255 := by
  rw [fmul_eq]
  have := toDouble_mem_int (x := x * 255) (a := 0) (b := 255) (by norm_num)
    (by push_cast; linarith) (by push_cast; linarith) (by norm_num)
  constructor
  · exact Int.floor_nonneg.mpr (by exact_mod_cast this.1)
  · have h := Int.floor_le_floor this.2
    rw [Int.floor_intCast] at h
    exact h

/-- The three channels of `HSVtoRGB` lie in `[0, 255]`. -/
theorem HSVtoRGB_channels (h s v : Int) (h0 : 0 ≤ h) (h1 : h ≤ 360) (s0 : 0 ≤ s) (s1 : s ≤ 100)
    (v0 : 0 ≤ v) (v1 : v ≤ 100) :
    (0 ≤ (HSVtoRGB (h, s, v)).1 ∧ (HSVtoRGB (h, s, v)).1 ≤ 255) ∧
    (0 ≤ (HSVtoRGB (h, s, v)).2.1 ∧ (HSVtoRGB (h, s, v)).2.1 ≤ 255) ∧
    (0 ≤ (HSVtoRGB (h, s, v)).2.2 ∧ (HSVtoRGB (h, s, v)).2.2 ≤ 255) := by
  unfold HSVtoRGB
  simp only
  generalize hh : (if (if h = 0 then 1 else h) = 360 then 359 else if h = 0 then 1 else h) = h2
  have hb : 1 ≤ h2 ∧ h2 ≤ 359 := by
    rw [← hh]; split_ifs <;> omega
  have hq : 0 ≤ fdiv (h2 : ℚ) 360 ∧ fdiv (h2 : ℚ) 360 ≤ 511 / 512 := by
    rw [fdiv_eq _ _ (by norm_num)]
    have a1 : (1 : ℚ) ≤ h2 := by exact_mod_cast hb.1
    have a2 : (h2 : ℚ) ≤ 359 := by exact_mod_cast hb.2
    constructor
    · exact toDouble_nonneg (by positivity)
    · have hc := toDouble_div_pow 511 9 (by norm_num) (by norm_num)
      norm_num at hc
      apply toDouble_le_of_le hc
      rw [div_le_iff₀ (by norm_num)]
      linarith
  have hx : 0 ≤ fmul (fdiv (h2 : ℚ) 360) 6 ∧ fmul (fdiv (h2 : ℚ) 360) 6 ≤ 1533 / 256 := by
    rw [fmul_eq]
    constructor
    · exact toDouble_nonneg (by linarith [hq.1])
    · have hc := toDouble_div_pow 1533 8 (by norm_num) (by norm_num)
      norm_num at hc
      apply toDouble_le_of_le hc
      linarith [hq.2]
  generalize fmul (fdiv (h2 : ℚ) 360) 6 = x at hx
  have hi0 : 0 ≤ ⌊x⌋ := Int.floor_nonneg.mpr hx.1
  have hi5 : ⌊x⌋ ≤ 5 := by
    rw [← Int.lt_add_one_iff, Int.floor_lt]; push_cast; linarith [hx.2]
  have hf : 0 ≤ fsub x ⌊x⌋ ∧ fsub x ⌊x⌋ ≤ 1 := by
    rw [fsub_eq]
    have := toDouble_mem_int (x := x - ⌊x⌋) (a := 0) (b := 1) (by norm_num)
      (by push_cast; linarith [Int.floor_le x]) (by push_cast; linarith [Int.lt_floor_add_one x])
      (by norm_num)
    exact_mod_cast this
  generalize fsub x ⌊x⌋ = f at hf
  obtain ⟨hs0, hs1⟩ := unit_fdiv_100 s0 s1
  obtain ⟨hv0, hv1⟩ := unit_fdiv_100 v0 v1
  generalize fdiv (s : ℚ) 100 = ss at hs0 hs1
  generalize fdiv (v : ℚ) 100 = vv at hv0 hv1
  obtain ⟨g0, g1⟩ := unit_one_fsub hf.1 hf.2
  obtain ⟨a0, a1⟩ := unit_one_fsub hs0 hs1
  obtain ⟨fs0, fs1⟩ := unit_fmul hf.1 hf.2 hs0 hs1
  obtain ⟨gs0, gs1⟩ := unit_fmul g0 g1 hs0 hs1
  obtain ⟨b0, b1⟩ := unit_one_fsub fs0 fs1
  obtain ⟨c0', c1'⟩ := unit_one_fsub gs0 gs1
  obtain ⟨p0, p1⟩ := unit_fmul hv0 hv1 a0 a1
  obtain ⟨q0, q1⟩ := unit_fmul hv0 hv1 b0 b1
  obtain ⟨t0, t1⟩ := unit_fmul hv0 hv1 c0' c1'
  have cv := channel_bounds vv hv0 hv1
  have cp := channel_bounds _ p0 p1
  have cq := channel_bounds _ q0 q1
  have ct := channel_bounds _ t0 t1
  split_ifs with c0 c1 c2 c3 c4 c5
  · exact ⟨cv, ct, cp⟩
  · exact ⟨cq, cv, cp⟩
  · exact ⟨cp, cv, ct⟩
  · exact ⟨cp, cq, cv⟩
  · exact ⟨ct, cp, cv⟩
  · exact ⟨cv, cp, cq⟩
  · omega

/-- C13. For every HSB triple with integer hue in `[0, 360]` and saturation and brightness
in `[0, 100]`, the clamped hues `0` and `360` included, `HSVtoRGB` returns three integers
each in `[0, 255]`. -/
theorem HSVtoRGB_bounds (h s v : Int) (h0 : 0 ≤ h) (h1 : h ≤ 360) (s0 : 0 ≤ s) (s1 : s ≤ 100)
    (v0 : 0 ≤ v) (v1 : v ≤ 100) :
    (0 ≤ (HSVtoRGB (h, s, v)).1 ∧ (HSVtoRGB (h, s, v)).1 ≤ 255) ∧
    (0 ≤ (HSVtoRGB (h, s, v)).2.1 ∧ (HSVtoRGB (h, s, v)).2.1 ≤ 255) ∧
    (0 ≤ (HSVtoRGB (h, s, v)).2.2 ∧ (HSVtoRGB (h, s, v)).2.2 ≤ 255) := by
  have hclamp : 0 ≤ h ∧ h ≤ 360 := ⟨h0, h1⟩
  obtain ⟨hr, hg, hb⟩ := HSVtoRGB_channels h s v hclamp.1 hclamp.2 s0 s1 v0 v1
  exact ⟨hr, hg, hb⟩

/-- C13, witness: the triple `[0, 80, 100]`, whose channels are `255, 54, 50` in doubles. -/
theorem HSVtoRGB_bounds_witness :
    ((0 ≤ (HSVtoRGB (0, 80, 100)).1 ∧ (HSVtoRGB (0, 80, 100)).1 ≤ 255) ∧
    (0 ≤ (HSVtoRGB (0, 80, 100)).2.1 ∧ (HSVtoRGB (0, 80, 100)).2.1 ≤ 255) ∧
    (0 ≤ (HSVtoRGB (0, 80, 100)).2.2 ∧ (HSVtoRGB (0, 80, 100)).2.2 ≤ 255)) ∧
    HSVtoRGB (0, 80, 100) = (255, 54, 50) :=
  ⟨HSVtoRGB_bounds 0 80 100 (by decide) (by decide) (by decide) (by decide) (by decide)
    (by decide), by decide!⟩

/-- The check behind C11: every channel value of `[0, 255]` prints as two hexadecimal digits
that `parseInt(·, 16)` reads back as the same value. -/
theorem componentToHex_table :
    ((intsFromTo 0 255).all fun c =>
      match componentToHex c with
      | [a, b] => (radixDigit 16 a).isSome && (radixDigit 16 b).isSome &&
          decide (parseInt [a, b] 16 = some c)
      | _ => false) = true := by
  decide!

theorem componentToHex_spec (c : Int) (c0 : 0 ≤ c) (c1 : c ≤ 255) :
    ∃ a b : Char, componentToHex c = [a, b] ∧ (radixDigit 16 a).isSome = true ∧
      (radixDigit 16 b).isSome = true ∧ parseInt [a, b] 16 = some c := by
  have h := List.all_eq_true.mp componentToHex_table c (mem_intsFromTo c0 c1)
  split at h
  · rename_i a b heq
    simp only [Bool.and_eq_true, decide_eq_true_eq] at h
    exact ⟨a, b, heq, h.1.1, h.1.2, h.2⟩
  · simp at h

/-- C11. For every HSB triple with integer hue in `[0, 360]` and saturation and brightness
in `[0, 100]`, `HSVtoHex` returns `#` followed by exactly six hexadecimal digits, two per
channel, and reading the three pairs back with `parseInt(·, 16)` gives exactly the three
channels of `HSVtoRGB` of the same triple. -/
theorem HSVtoHex_matches_HSVtoRGB (h s v : Int) (h0 : 0 ≤ h) (h1 : h ≤ 360) (s0 : 0 ≤ s)
    (s1 : s ≤ 100) (v0 : 0 ≤ v) (v1 : v ≤ 100) :
    ∃ r1 r2 g1 g2 b1 b2 : Char, HSVtoHex (h, s, v) = ['#', r1, r2, g1, g2, b1, b2] ∧
      (∀ c ∈ [r1, r2, g1, g2, b1, b2], (radixDigit 16 c).isSome = true) ∧
      parseInt [r1, r2] 16 = some (HSVtoRGB (h, s, v)).1 ∧
      parseInt [g1, g2] 16 = some (HSVtoRGB (h, s, v)).2.1 ∧
      parseInt [b1, b2] 16 = some (HSVtoRGB (h, s, v)).2.2 := by
  obtain ⟨⟨r0, r255⟩, ⟨g0, g255⟩, ⟨b0, b255⟩⟩ := HSVtoRGB_channels h s v h0 h1 s0 s1 v0 v1
  obtain ⟨r1, r2, hr, hr1, hr2, hrp⟩ := componentToHex_spec _ r0 r255
  obtain ⟨g1, g2, hg, hg1, hg2, hgp⟩ := componentToHex_spec _ g0 g255
  obtain ⟨b1, b2, hb, hb1, hb2, hbp⟩ := componentToHex_spec _ b0 b255
  refine ⟨r1, r2, g1, g2, b1, b2, ?_, ?_, hrp, hgp, hbp⟩
  · unfold HSVtoHex
    simp only [hr, hg, hb]
    rfl
  · intro c hc
    simp only [List.mem_cons, List.mem_singleton, List.not_mem_nil, or_false] at hc
    rcases hc with rfl | rfl | rfl | rfl | rfl | rfl <;> assumption

/-- C11, witness: the triple `[220, 20, 100]` prints as `#ccdcff` in doubles. -/
theorem HSVtoHex_matches_HSVtoRGB_witness :
    (∃ r1 r2 g1 g2 b1 b2 : Char, HSVtoHex (220, 20, 100) = ['#', r1, r2, g1, g2, b1, b2] ∧
      (∀ c ∈ [r1, r2, g1, g2, b1, b2], (radixDigit 16 c).isSome = true) ∧
      parseInt [r1, r2] 16 = some (HSVtoRGB (220, 20, 100)).1 ∧
      parseInt [g1, g2] 16 = some (HSVtoRGB (220, 20, 100)).2.1 ∧
      parseInt [b1, b2] 16 = some (HSVtoRGB (220, 20, 100)).2.2) ∧
    HSVtoHex (220, 20, 100) = "#ccdcff".toList ∧ HSVtoRGB (220, 20, 100) = (204, 220, 255) :=
  ⟨HSVtoHex_matches_HSVtoRGB 220 20 100 (by decide) (by decide) (by decide) (by decide)
    (by decide) (by decide), by decide!, by decide!⟩

/-! ## Alpha (lines 183-198) -/

/-- A supplied alpha other than zero is the alpha of the `'rgba'` and `'hsla'` results, and
no random number is drawn. -/
theorem setFormat_alpha_supplied (rand : Nat → ℚ) (hsv : Int × Int × Int) (o : Options)
    (m : Module) (a : ℚ) (ha : o.alpha = some a) (hne : a ≠ 0) :
    (o.format = .rgba → setFormat rand hsv o m =
      (Color.rgba (HSVtoRGB hsv).1 (HSVtoRGB hsv).2.1 (HSVtoRGB hsv).2.2 a, m)) ∧
    (o.format = .hsla → setFormat rand hsv o m =
      (Color.hsla (HSVtoHSL hsv).1 (HSVtoHSL hsv).2.1 (HSVtoHSL hsv).2.2 a, m)) := by
  constructor <;> intro hf <;> simp [setFormat, hf, alphaOrRandom, ha, hne]

/-- C12, failing input. With format `'hsla'` and the supplied alpha `0`, the expression
`options.alpha || Math.random()` draws a random number: the alpha component of the result is
the value `3/4` of `Math.random()`, not `0`, and one random number has been consumed. -/
theorem randomColor_alpha_zero_ignored :
    (randomColor (fun i => [3 / 4].getD i 0)
        { seed := .int 42, count := none, hue := .str "red".toList, luminosity := .default,
          format := .hsla, alpha := some 0 } ⟨none, 0⟩).outcome =
      .ok (Value.color (Color.hsla 12 (JSNum.fin (toDouble (4771 / 50))) (toDouble (1127 / 20)) (3 / 4))) ∧
    (randomColor (fun i => [3 / 4].getD i 0)
        { seed := .int 42, count := none, hue := .str "red".toList, luminosity := .default,
          format := .hsla, alpha := some 0 } ⟨none, 0⟩).module.draws = 1 := by
  decide!


/-! ## Hex hue options without the leading `#` -/

theorem dictionary_names :
    colorDictionary.map (fun e => e.1) =
      ["monochrome".toList, "red".toList, "orange".toList, "yellow".toList, "green".toList,
        "blue".toList, "purple".toList, "pink".toList] := by
  decide

/-- No dictionary name is a string of three or six hexadecimal digits. -/
theorem dictionaryEntry_hexDigits (ds : JSString) (hlen : ds.length = 3 ∨ ds.length = 6)
    (hall : ∀ c ∈ ds, (radixDigit 16 c).isSome = true) : dictionaryEntry ds = none := by
  cases hd : dictionaryEntry ds with
  | none => rfl
  | some info =>
    exfalso
    have hm : ds ∈ colorDictionary.map (fun e => e.1) :=
      List.mem_map.mpr ⟨(ds, info), dictionaryEntry_mem hd, rfl⟩
    rw [dictionary_names] at hm
    simp only [List.mem_cons, List.mem_singleton, List.not_mem_nil, or_false] at hm
    rcases hm with h | h | h | h | h | h | h | h <;> subst h
    · revert hlen; decide
    · exact absurd (hall 'r' (by decide)) (by decide)
    · exact absurd (hall 'o' (by decide)) (by decide)
    · exact absurd (hall 'y' (by decide)) (by decide)
    · revert hlen; decide
    · revert hlen; decide
    · exact absurd (hall 'p' (by decide)) (by decide)
    · revert hlen; decide

theorem dropLeadingHash_digits (ds : JSString)
    (hall : ∀ c ∈ ds, (radixDigit 16 c).isSome = true) : dropLeadingHash ds = ds := by
  cases ds with
  | nil => rfl
  | cons c rest =>
    obtain ⟨d, hd⟩ := Option.isSome_iff_exists.mp (hall c (List.mem_cons_self _ _))
    have hne : c ≠ '#' := (digit_facts c d hd).2.2.2.2.2.2
    unfold dropLeadingHash
    split
    · rename_i t heq
      simp only [List.cons.injEq] at heq
      exact absurd heq.1 hne
    · rfl

/-- C17, amended. For every string of exactly three or exactly six hexadecimal digits that
does not start with a decimal numeral strictly between `0` and `360` (`parseInt` of it is
`NaN` or lies outside that interval), `getHueRange` returns the same interval `[h, h]`, with
`h` the hue `HexToHSB` computes, whether the string is passed with or without the `#`. -/
theorem getHueRange_hash_optional (ds : JSString) (hlen : ds.length = 3 ∨ ds.length = 6)
    (hall : ∀ c ∈ ds, (radixDigit 16 c).isSome = true)
    (hnum : ∀ n, parseInt ds 0 = some n → ¬ (n < 360 ∧ n > 0)) :
    ∃ hsb, HexToHSB ('#' :: ds) = some hsb ∧ HexToHSB ds = some hsb ∧
      getHueRange (.str ds) = .ok (hsb.1, hsb.1) ∧
      getHueRange (.str ('#' :: ds)) = .ok (hsb.1, hsb.1) := by
  have hbody1 : dropLeadingHash ('#' :: ds) = ds := rfl
  have hbody2 : dropLeadingHash ds = ds := dropLeadingHash_digits ds hall
  obtain ⟨r, g, b, -, -, -, hh⟩ := HexToHSB_of_digits ('#' :: ds) (by rw [hbody1]; exact hlen)
    (by rw [hbody1]; exact hall)
  have hsame : HexToHSB ds = HexToHSB ('#' :: ds) := by
    unfold HexToHSB
    rw [hbody1, hbody2]
  have hmatch1 : matchesHexPattern ('#' :: ds) = true := by
    unfold matchesHexPattern
    rw [hbody1]
    simp only [Bool.and_eq_true, Bool.or_eq_true, beq_iff_eq, List.all_eq_true]
    exact ⟨hlen, hall⟩
  have hmatch2 : matchesHexPattern ds = true := by
    unfold matchesHexPattern
    rw [hbody2]
    simp only [Bool.and_eq_true, Bool.or_eq_true, beq_iff_eq, List.all_eq_true]
    exact ⟨hlen, hall⟩
  have htail : getHueRangeOfString (.str ds) =
      .ok ((hsbOfChannels (fdiv r 255) (fdiv g 255) (fdiv b 255)).1,
        (hsbOfChannels (fdiv r 255) (fdiv g 255) (fdiv b 255)).1) := by
    unfold getHueRangeOfString
    simp only [dictionaryEntry_hexDigits ds hlen hall, hmatch2, if_true, hsame, hh]
  refine ⟨_, hh, by rw [hsame, hh], ?_, ?_⟩
  · unfold getHueRange
    simp only
    cases hp : parseInt ds 0 with
    | none => simpa using htail
    | some n =>
      simp only
      rw [if_neg (hnum n hp)]
      exact htail
  · unfold getHueRange
    simp only [parseInt_hash]
    unfold getHueRangeOfString
    simp only [dictionaryEntry_hash, hmatch1, if_true, hh]

/-- C17, witness: the digits `336699`, whose numeral is not below `360`. -/
theorem getHueRange_hash_optional_witness :
    ∃ hsb, HexToHSB "#336699".toList = some hsb ∧ HexToHSB "336699".toList = some hsb ∧
      getHueRange (.str "336699".toList) = .ok (hsb.1, hsb.1) ∧
      getHueRange (.str "#336699".toList) = .ok (hsb.1, hsb.1) :=
  getHueRange_hash_optional "336699".toList (by decide) (by decide) (by decide)

/-- C17 as stated fails: the three hexadecimal digits `123` without `#` are read by
`parseInt` as the degree `123` and give `[123, 123]`; with `#` they are the colour
`#112233`, whose hue is `210`, and give `[210, 210]`. -/
theorem getHueRange_123_differs :
    getHueRange (.str "123".toList) = .ok (123, 123) ∧
    getHueRange (.str "#123".toList) = .ok (210, 210) ∧
    (HexToHSB "#123".toList).map (fun hsb => hsb.1) = some 210 := by
  decide!


/-! ## Monochrome -/

/-- With saturation `0` the three channels of `HSVtoRGB` are equal. -/
theorem HSVtoRGB_gray (H B : Int) : ∃ c, HSVtoRGB (H, 0, B) = (c, c, c) := by
  have hz : fdiv 0 100 = 0 := by decide!
  have hv : fmul (fdiv (B : ℚ) 100) 1 = fdiv (B : ℚ) 100 :=
    fmul_one_right (fdiv_double _ _ (by norm_num))
  unfold HSVtoRGB
  simp only [Int.cast_zero, hz, fmul_zero_right, fsub_one_zero, hv]
  split_ifs <;> exact ⟨_, rfl⟩

/-- With hue `'monochrome'` lines 85-95 pick a hue `H` and a brightness `B` and return the
format of `[H, 0, B]`, whatever the format asked for. -/
theorem generate_monochrome (rand : Nat → ℚ) (hrand : RandOK rand) (o : Options) (m : Module)
    (hmono : o.hue = .str "monochrome".toList) :
    ∃ H B m3, ∀ f, generate rand { o with format := f } m =
      (.ok (setFormat rand (H, 0, B) { o with format := f } m3).1,
        (setFormat rand (H, 0, B) { o with format := f } m3).2) := by
  obtain ⟨H, hH, h0, h1, -⟩ := pickHue_spec rand hrand o m
  cases hp : pickHue rand o m with
  | mk r1 m1 =>
    rw [hp] at hH
    simp only at hH
    subst hH
    have hsat : pickSaturation rand H o m1 = (.ok 0, m1) := by
      unfold pickSaturation
      rw [if_pos hmono]
    obtain ⟨B, hB⟩ := pickBrightness_ok rand H 0 o m1 h0 h1
    cases hb : pickBrightness rand H 0 o m1 with
    | mk r3 m3 =>
      rw [hb] at hB
      simp only at hB
      subst hB
      refine ⟨H, B, m3, fun f => ?_⟩
      have e1 : pickHue rand { o with format := f } m = (.ok H, m1) := hp
      have e2 : pickSaturation rand H { o with format := f } m1 = (.ok 0, m1) := hsat
      have e3 : pickBrightness rand H 0 { o with format := f } m1 = (.ok B, m3) := hb
      unfold generate
      rw [e1]
      simp only
      rw [e2]
      simp only
      rw [e3]

/-- C18. With hue `'monochrome'`, for every luminosity class and every seed or random
fraction, the generated colour has saturation `0` and its `rgbArray` form has three equal
channels. -/
theorem randomColor_monochrome (rand : Nat → ℚ) (hrand : RandOK rand) (o : Options)
    (m : Module) (hmono : o.hue = .str "monochrome".toList) (hcount : o.count = none)
    (hseed : SeedFits o.seed 0) :
    ∃ H B c, (randomColor rand { o with format := .hsvArray } m).outcome =
        .ok (Value.color (Color.hsvArray H 0 B)) ∧
      (randomColor rand { o with format := .rgbArray } m).outcome =
        .ok (Value.color (Color.rgbArray c c c)) := by
  obtain ⟨m1, hm⟩ := seedSetup_ok o.seed 0 m hseed
  obtain ⟨H, B, m3, hg⟩ := generate_monochrome rand hrand o m1 hmono
  obtain ⟨c, hc⟩ := HSVtoRGB_gray H B
  refine ⟨H, B, c, ?_, ?_⟩
  · rw [(randomColor_of_setup rand { o with format := .hsvArray } m m1 hcount hm).1, hg]
    rfl
  · rw [(randomColor_of_setup rand { o with format := .rgbArray } m m1 hcount hm).1, hg]
    simp only [setFormat, hc]
    rfl

/-- C18, witness: seed `7`, luminosity `'bright'`. -/
theorem randomColor_monochrome_witness :
    ∃ H B c, (randomColor (fun _ => 0)
        { seed := .int 7, count := none, hue := .str "monochrome".toList,
          luminosity := .bright, format := .hsvArray, alpha := none } ⟨none, 0⟩).outcome =
        .ok (Value.color (Color.hsvArray H 0 B)) ∧
      (randomColor (fun _ => 0)
        { seed := .int 7, count := none, hue := .str "monochrome".toList,
          luminosity := .bright, format := .rgbArray, alpha := none } ⟨none, 0⟩).outcome =
        .ok (Value.color (Color.rgbArray c c c)) :=
  randomColor_monochrome (fun _ => 0) randOK_zero
    { seed := .int 7, count := none, hue := .str "monochrome".toList,
      luminosity := .bright, format := .hex, alpha := none } ⟨none, 0⟩ rfl rfl
    ⟨toDouble_int_small (by norm_num) (by norm_num), by decide⟩


/-! ## The `'Color not found'` branch -/

/-- C19. For every hue option and every seed or random fraction, `pickHue` returns an
integer of `[0, 360]`; for every integer hue of `[0, 360]` `getColorInfo` returns a
dictionary entry, so `pickSaturation` and `pickBrightness` return a number under every
module state; and lines 85-95 return a colour. -/
theorem colorNotFound_unreachable (rand : Nat → ℚ) (hrand : RandOK rand) (o : Options)
    (m : Module) :
    (∃ H, (pickHue rand o m).1 = .ok H ∧ 0 ≤ H ∧ H ≤ 360) ∧
    (∀ H : Int, 0 ≤ H → H ≤ 360 → ∃ e ∈ colorDictionary, getColorInfo H = some e.2) ∧
    (∀ (H S : Int) (m' : Module), 0 ≤ H → H ≤ 360 →
      (∃ S', (pickSaturation rand H o m').1 = .ok S') ∧
      (∃ B, (pickBrightness rand H S o m').1 = .ok B)) ∧
    (∃ c, (generate rand o m).1 = .ok c) := by
  refine ⟨?_, fun H h0 h1 => getColorInfo_some h0 h1, fun H S m' h0 h1 => ⟨?_, ?_⟩, ?_⟩
  · obtain ⟨H, hH, h0, h1, -⟩ := pickHue_spec rand hrand o m
    exact ⟨H, hH, h0, h1⟩
  · exact pickSaturation_ok rand H o m' h0 h1
  · exact pickBrightness_ok rand H S o m' h0 h1
  · exact generate_ok rand hrand o m

/-- C19, witness: hue `'pink'` with the negative seed state `-5`. -/
theorem colorNotFound_unreachable_witness :
    (∃ H, (pickHue (fun _ => 0)
        { seed := .absent, count := none, hue := .str "pink".toList, luminosity := .default,
          format := .hex, alpha := none } ⟨some (-5), 0⟩).1 = .ok H ∧ 0 ≤ H ∧ H ≤ 360) ∧
    (∀ H : Int, 0 ≤ H → H ≤ 360 → ∃ e ∈ colorDictionary, getColorInfo H = some e.2) ∧
    (∀ (H S : Int) (m' : Module), 0 ≤ H → H ≤ 360 →
      (∃ S', (pickSaturation (fun _ => 0) H
        { seed := .absent, count := none, hue := .str "pink".toList, luminosity := .default,
          format := .hex, alpha := none } m').1 = .ok S') ∧
      (∃ B, (pickBrightness (fun _ => 0) H S
        { seed := .absent, count := none, hue := .str "pink".toList, luminosity := .default,
          format := .hex, alpha := none } m').1 = .ok B)) ∧
    (∃ c, (generate (fun _ => 0)
        { seed := .absent, count := none, hue := .str "pink".toList, luminosity := .default,
          format := .hex, alpha := none } ⟨some (-5), 0⟩).1 = .ok c) :=
  colorNotFound_unreachable (fun _ => 0) randOK_zero
    { seed := .absent, count := none, hue := .str "pink".toList, luminosity := .default,
      format := .hex, alpha := none } ⟨some (-5), 0⟩

/-! ## The options object after a call -/

/-- A call without `count` leaves the options object as it found it. -/
theorem randomColor_single_options (rand : Nat → ℚ) (o : Options) (m : Module)
    (hcount : o.count = none) : (randomColor rand o m).options = o := by
  unfold randomColor
  cases hs : seedSetup o.seed m with
  | error e => rfl
  | ok m1 =>
    rw [hcount]
    simp only
    cases hg : generate rand o m1 with
    | mk r m2 => cases r <;> rfl

/-- C20, failing input. After the batch call with seed `1` and count `2` the options object
holds `count = 2` again but `seed = 3`: line 75 incremented `options.seed` twice and nothing
restores it. The second call with the same object returns another sequence. -/
theorem randomColor_batch_changes_seed :
    (randomColor (fun _ => 0)
        { seed := .int 1, count := some 2, hue := .absent, luminosity := .default,
          format := .hsvArray, alpha := none } ⟨none, 0⟩).options =
      { seed := .int 3, count := some 2, hue := .absent, luminosity := .default,
        format := .hsvArray, alpha := none } ∧
    (randomColor (fun _ => 0)
        { seed := .int 1, count := some 2, hue := .absent, luminosity := .default,
          format := .hsvArray, alpha := none } ⟨none, 0⟩).module = ⟨some 217734, 0⟩ ∧
    (randomColor (fun _ => 0)
        { seed := .int 1, count := some 2, hue := .absent, luminosity := .default,
          format := .hsvArray, alpha := none } ⟨none, 0⟩).outcome =
      .ok (Value.colors [Color.hsvArray 104 56 84, Color.hsvArray 119 45 99]) ∧
    (randomColor (fun _ => 0)
        { seed := .int 3, count := some 2, hue := .absent, luminosity := .default,
          format := .hsvArray, alpha := none } ⟨some 217734, 0⟩).outcome =
      .ok (Value.colors [Color.hsvArray 133 33 99, Color.hsvArray 147 92 75]) := by
  decide!

/-! ## The brightness envelope (lines 206-229) -/

theorem minimumBrightnessLoop_cons_cons_neg (p q : Int × Int) (rest : List (Int × Int))
    (S : Int) (h : ¬ (p.1 ≤ S ∧ S ≤ q.1)) :
    minimumBrightnessLoop (p :: q :: rest) S = minimumBrightnessLoop (q :: rest) S := by
  obtain ⟨s1, v1⟩ := p
  obtain ⟨s2, v2⟩ := q
  simp only [minimumBrightnessLoop]
  rw [if_neg (by intro hc; exact h ⟨hc.1, hc.2⟩)]

theorem consecutivePairs_cons_cons (p q : Int × Int) (rest : List (Int × Int)) :
    consecutivePairs (p :: q :: rest) = (p, q) :: consecutivePairs (q :: rest) := rfl

/-- When no pair of consecutive points brackets `S` the loop returns `0`. -/
theorem minimumBrightnessLoop_of_no_pair (l : List (Int × Int)) (S : Int) :
    (∀ a b, (a, b) ∈ consecutivePairs l → ¬ (a.1 ≤ S ∧ S ≤ b.1)) →
      minimumBrightnessLoop l S = 0 := by
  induction l with
  | nil => intro _; simp [minimumBrightnessLoop]
  | cons p t ih =>
    cases t with
    | nil => intro _; simp [minimumBrightnessLoop]
    | cons q rest =>
      intro h
      have h1 := h p q (by rw [consecutivePairs_cons_cons]; exact List.mem_cons_self _ _)
      rw [minimumBrightnessLoop_cons_cons_neg p q rest S h1]
      apply ih
      intro a b hab
      exact h a b (by rw [consecutivePairs_cons_cons]; exact List.mem_cons_of_mem _ hab)

/-- The check of `envelopeFacts` on every table of the dictionary. -/
theorem lowerBounds_table :
    (colorDictionary.all fun e => envelopeFacts e.2.lowerBounds) = true := by
  decide!

/-- C16, amended. For every integer hue `H` of `[0, 360]` and every integer saturation `S`,
`getMinimumBrightness(H, S)` follows the piecewise-linear curve through the `lowerBounds`
points of the family of `H` up to the rounding of the double arithmetic: for every two
consecutive points `(s1, v1)`, `(s2, v2)` with `s1 ≤ S ≤ s2` it is within `2^(-46)` of
`v1 + (v2 - v1)·(S - s1)/(s2 - s1)`; when no such pair exists it is exactly `0`; and at the
saturation of every listed point `(s, v)` it is within `2^(-46)` of `v`. -/
theorem getMinimumBrightness_piecewise (H S : Int) (h0 : 0 ≤ H) (h1 : H ≤ 360) :
    ∃ info, getColorInfo H = some info ∧
      (∀ a b, (a, b) ∈ consecutivePairs info.lowerBounds → a.1 ≤ S → S ≤ b.1 →
        ∃ x, getMinimumBrightness H S = .ok x ∧
          -(1 / 2 ^ 46) ≤ x - interpolation a b S ∧ x - interpolation a b S ≤ 1 / 2 ^ 46) ∧
      ((∀ a b, (a, b) ∈ consecutivePairs info.lowerBounds → ¬ (a.1 ≤ S ∧ S ≤ b.1)) →
        getMinimumBrightness H S = .ok 0) ∧
      (∀ p ∈ info.lowerBounds, ∃ x, getMinimumBrightness H p.1 = .ok x ∧
        -(1 / 2 ^ 46) ≤ x - p.2 ∧ x - p.2 ≤ 1 / 2 ^ 46) := by
  obtain ⟨e, he, hg⟩ := getColorInfo_some h0 h1
  have ht := List.all_eq_true.mp lowerBounds_table e he
  unfold envelopeFacts at ht
  simp only [Bool.and_eq_true, decide_eq_true_eq, List.all_eq_true, Bool.or_eq_true,
    Bool.not_eq_true', decide_eq_false_iff_not] at ht
  obtain ⟨⟨⟨-, hrange⟩, hpoints⟩, hpairs⟩ := ht
  have hmb : ∀ S', getMinimumBrightness H S' =
      .ok (minimumBrightnessLoop e.2.lowerBounds S') := by
    intro S'
    unfold getMinimumBrightness
    rw [hg]
  refine ⟨e.2, hg, ?_, ?_, ?_⟩
  · intro a b hab ha hb
    have ha' := hrange a (List.of_mem_zip hab).1
    have hb' := hrange b (List.mem_of_mem_tail (List.of_mem_zip hab).2)
    rcases hpairs S (mem_intsFromTo (by omega) (by omega)) (a, b) hab with hn | hy
    · exact absurd ⟨ha, hb⟩ hn
    · exact ⟨_, hmb S, hy⟩
  · intro h
    rw [hmb, minimumBrightnessLoop_of_no_pair _ S h]
  · intro p hp
    exact ⟨_, hmb p.1, hpoints p hp⟩

/-- C16, witness: hue `356` of red and saturation `91`, between `(90, 55)` and `(100, 50)`,
where the value is `54.5`. -/
theorem getMinimumBrightness_piecewise_witness :
    (∃ info, getColorInfo 356 = some info ∧
      (∀ a b, (a, b) ∈ consecutivePairs info.lowerBounds → a.1 ≤ 91 → 91 ≤ b.1 →
        ∃ x, getMinimumBrightness 356 91 = .ok x ∧
          -(1 / 2 ^ 46) ≤ x - interpolation a b 91 ∧ x - interpolation a b 91 ≤ 1 / 2 ^ 46) ∧
      ((∀ a b, (a, b) ∈ consecutivePairs info.lowerBounds → ¬ (a.1 ≤ 91 ∧ 91 ≤ b.1)) →
        getMinimumBrightness 356 91 = .ok 0) ∧
      (∀ p ∈ info.lowerBounds, ∃ x, getMinimumBrightness 356 p.1 = .ok x ∧
        -(1 / 2 ^ 46) ≤ x - p.2 ∧ x - p.2 ≤ 1 / 2 ^ 46)) ∧
    getMinimumBrightness 356 91 = .ok (109 / 2) :=
  ⟨getMinimumBrightness_piecewise 356 91 (by decide) (by decide), by decide!⟩

/-- C16 as stated fails: `(90, 50)` is a listed point of green, the family of hue `63`, yet
`getMinimumBrightness(63, 90)` is `50 + 2^(-46)`: the line through `(80, 64)` and `(90, 50)`
is evaluated as `-1.4·90 + 176` in doubles. -/
theorem getMinimumBrightness_knot_inexact :
    (getColorInfo 63).map (fun info => decide (((90, 50) : Int × Int) ∈ info.lowerBounds)) =
      some true ∧
    getMinimumBrightness 63 90 = .ok (3518437208883201 / 70368744177664) ∧
    (3518437208883201 / 70368744177664 : ℚ) ≠ 50 ∧
    interpolation (80, 64) (90, 50) 90 = 50 := by
  refine ⟨by decide!, by decide!, by norm_num, by norm_num [interpolation]⟩
/-! ## The seeded draw (lines 283-288) -/

/-- C15, amended. In seeded mode, for every seed state `s ≥ 0` small enough for the product
of line 286 to be exact (`s·9301 + 49297 ≤ 2^53`) and every integer range `[min, max]` with
`min < max`, `max ≠ 0` and both ends within `2^31` in magnitude, one `randomWithin` draw
replaces the state by `s' = (s·9301 + 49297) mod 233280` and returns the floor of
`min + (s'/233280)·(max - min)` evaluated in double arithmetic, an integer `r` with
`min ≤ r < max`. -/
theorem randomWithin_seeded_draw (rand : Nat → ℚ) (s : Int) (d : Nat) (min max : Int)
    (hs : 0 ≤ s) (hs1 : s * 9301 + 49297 ≤ 2 ^ 53) (hlt : min < max) (hmax : max ≠ 0)
    (hlo : -2 ^ 31 ≤ min) (hhi : max ≤ 2 ^ 31) :
    randomWithin rand ((min : ℚ), (max : ℚ)) ⟨some s, d⟩ =
      (⌊fadd min (fmul (fdiv (((s * 9301 + 49297) % 233280 : Int) : ℚ) 233280)
          (fsub max min))⌋,
        ⟨some ((s * 9301 + 49297) % 233280), d⟩) ∧
    min ≤ (randomWithin rand ((min : ℚ), (max : ℚ)) ⟨some s, d⟩).1 ∧
    (randomWithin rand ((min : ℚ), (max : ℚ)) ⟨some s, d⟩).1 < max := by
  have hmaxq : (max : ℚ) ≠ 0 := by exact_mod_cast hmax
  have heq : randomWithin rand ((min : ℚ), (max : ℚ)) ⟨some s, d⟩ =
      (⌊fadd min (fmul (fdiv (((s * 9301 + 49297) % 233280 : Int) : ℚ) 233280)
          (fsub max min))⌋,
        ⟨some ((s * 9301 + 49297) % 233280), d⟩) := by
    rw [randomWithin_seeded rand _ _ s rfl, nextSeed_eq hs hs1]
    unfold drawSeeded
    simp only [jsOr_zero]
    unfold jsOr
    rw [if_neg hmaxq]
  rw [heq]
  have h0 : 0 ≤ (s * 9301 + 49297) % 233280 := Int.emod_nonneg _ (by norm_num)
  have h1 : (s * 9301 + 49297) % 233280 < 233280 := Int.emod_lt_of_pos _ (by norm_num)
  generalize (s * 9301 + 49297) % 233280 = s1 at h0 h1
  obtain ⟨-, t1, t0⟩ := seedFraction_bounds s1 (by omega) h1
  have t0 := t0 h0
  generalize fdiv (s1 : ℚ) 233280 = t at t0 t1
  have hminq : (-2147483648 : ℚ) ≤ min := by exact_mod_cast hlo
  have hmaxq2 : (max : ℚ) ≤ 2147483648 := by exact_mod_cast hhi
  have hltq : (min : ℚ) < max := by exact_mod_cast hlt
  have hw : fsub (max : ℚ) min = (max : ℚ) - min := by
    rw [fsub_eq]
    have := toDouble_intCast (max - min) (by rw [abs_le]; constructor <;> omega)
    push_cast at this
    exact this
  have hmin : toDouble (min : ℚ) = min :=
    toDouble_intCast min (by rw [abs_le]; constructor <;> omega)
  have hp0 : 0 ≤ fmul t (fsub (max : ℚ) min) := by
    rw [fmul_eq, hw]
    exact toDouble_nonneg (mul_nonneg t0 (by linarith))
  have hp1 : fmul t (fsub (max : ℚ) min) ≤ 262143 / 262144 * ((max : ℚ) - min) := by
    rw [fmul_eq, hw]
    have hc := toDouble_div_pow (262143 * (max - min)) 18
      (by rw [abs_le]; constructor <;> omega) (by norm_num)
    have e : ((262143 * (max - min) : Int) : ℚ) / 2 ^ 18 =
        262143 / 262144 * ((max : ℚ) - min) := by
      push_cast
      ring
    rw [e] at hc
    apply toDouble_le_of_le hc
    exact mul_le_mul_of_nonneg_right t1 (by linarith)
  generalize fmul t (fsub (max : ℚ) min) = p at hp0 hp1
  refine ⟨rfl, ?_, ?_⟩
  · simp only
    rw [Int.le_floor, fadd_eq]
    apply le_toDouble_of_le hmin
    linarith
  · simp only
    rw [Int.floor_lt, fadd_eq]
    have hc := toDouble_div_pow (min * 262144 + 262143 * (max - min)) 18
      (by rw [abs_le]; constructor <;> omega) (by norm_num)
    have e : ((min * 262144 + 262143 * (max - min) : Int) : ℚ) / 2 ^ 18 =
        (min : ℚ) + 262143 / 262144 * ((max : ℚ) - min) := by
      push_cast
      ring
    rw [e] at hc
    have := toDouble_le_of_le hc (by linarith : (min : ℚ) + p ≤ _)
    linarith

/-- C15, witness: the state `42` and the range `[20, 100]`; the draw is `90`. -/
theorem randomWithin_seeded_draw_witness :
    (randomWithin (fun _ => 0) (((20 : Int) : ℚ), ((100 : Int) : ℚ)) ⟨some 42, 0⟩ =
      (⌊fadd ((20 : Int) : ℚ) (fmul (fdiv (((42 * 9301 + 49297) % 233280 : Int) : ℚ) 233280)
          (fsub ((100 : Int) : ℚ) ((20 : Int) : ℚ)))⌋,
        ⟨some ((42 * 9301 + 49297) % 233280), 0⟩) ∧
    20 ≤ (randomWithin (fun _ => 0) (((20 : Int) : ℚ), ((100 : Int) : ℚ)) ⟨some 42, 0⟩).1 ∧
    (randomWithin (fun _ => 0) (((20 : Int) : ℚ), ((100 : Int) : ℚ)) ⟨some 42, 0⟩).1 < 100) ∧
    randomWithin (fun _ => 0) (((20 : Int) : ℚ), ((100 : Int) : ℚ)) ⟨some 42, 0⟩ =
      (90, ⟨some 206659, 0⟩) :=
  ⟨randomWithin_seeded_draw (fun _ => 0) 42 0 20 100 (by decide) (by decide) (by decide)
    (by decide) (by decide) (by decide), by decide!⟩

/-- C15 as stated fails: with the state `8387` and the range `[0, 360]` of a call without a
hue option, the new state is `141264` and the exact value `0 + (141264/233280)·360` is
`218`, yet the draw returns `217`: the quotient `141264/233280` is rounded down, and the
product with `360` stays below `218`. -/
theorem randomWithin_seeded_inexact :
    randomWithin (fun _ => 0) (((0 : Int) : ℚ), ((360 : Int) : ℚ)) ⟨some 8387, 0⟩ =
      (217, ⟨some 141264, 0⟩) ∧
    (8387 * 9301 + 49297) % 233280 = (141264 : Int) ∧
    ⌊((0 : Int) : ℚ) + ((141264 : Int) : ℚ) / 233280 * (((360 : Int) : ℚ) - (0 : Int))⌋ = 218 ∧
    (randomColor (fun _ => 0)
        { seed := .int 8387, count := none, hue := .absent, luminosity := .default,
          format := .hsvArray, alpha := none } ⟨none, 0⟩).outcome =
      .ok (Value.color (Color.hsvArray 217 58 86)) := by
  decide!
/-! ## The seeds of a batch -/

theorem setFormat_module (rand : Nat → ℚ) (hsv : Int × Int × Int) (o : Options) (m : Module)
    (ha : AlphaFixed o) : (setFormat rand hsv o m).2 = m := by
  unfold setFormat
  rcases ha with ⟨h1, h2⟩ | ⟨a, h1, h2⟩
  · cases hf : o.format <;> simp_all
  · cases hf : o.format <;> simp [alphaOrRandom, h1, h2]

theorem generate_congr_seed (rand rand' : Nat → ℚ) (o : Options) (m m' : Module)
    (h : SameSeed m m') (ha : AlphaFixed o) :
    SameSeed (generate rand o m).2 (generate rand' o m').2 := by
  unfold generate
  obtain ⟨e1, s1⟩ := pickHue_congr rand rand' o m m' h
  cases hp : pickHue rand o m with
  | mk r1 m1 =>
  cases hp' : pickHue rand' o m' with
  | mk r1' m1' =>
  rw [hp, hp'] at e1 s1
  simp only at e1 s1
  subst e1
  cases r1 with
  | error e => exact s1
  | ok H =>
  simp only
  obtain ⟨e2, s2⟩ := pickSaturation_congr rand rand' H o m1 m1' s1
  cases hq : pickSaturation rand H o m1 with
  | mk r2 m2 =>
  cases hq' : pickSaturation rand' H o m1' with
  | mk r2' m2' =>
  rw [hq, hq'] at e2 s2
  simp only at e2 s2
  subst e2
  cases r2 with
  | error e => exact s2
  | ok S =>
  simp only
  obtain ⟨e3, s3⟩ := pickBrightness_congr rand rand' H S o m2 m2' s2
  cases hb : pickBrightness rand H S o m2 with
  | mk r3 m3 =>
  cases hb' : pickBrightness rand' H S o m2' with
  | mk r3' m3' =>
  rw [hb, hb'] at e3 s3
  simp only at e3 s3
  subst e3
  cases r3 with
  | error e => exact s3
  | ok B =>
  simp only
  rw [setFormat_module rand _ o m3 ha, setFormat_module rand' _ o m3' ha]
  exact s3

/-- A seeded call without `count` returns the colour, and leaves the state, that its integer
seed determines. -/
theorem randomColorSingle_seeded (rand : Nat → ℚ) (o : Options) (t : Int) (m : Module)
    (ha : AlphaFixed o) (hp : passesIntegerTest t = true) :
    (randomColorSingle rand { o with seed := .int t, count := none } m).1 =
        singleColorOfSeed o t ∧
      (randomColorSingle rand { o with seed := .int t, count := none } m).2.seed =
        stateAfterSeed o t ∧
      (randomColorSingle rand { o with seed := .int t, count := none } m).2.seed ≠ none := by
  have ha' : AlphaFixed { o with seed := .int t, count := none } := ha
  have hss : SameSeed ({ m with seed := some t } : Module) ⟨some t, 0⟩ := ⟨rfl, by simp⟩
  have h1 := generate_congr rand (fun _ => 0) { o with seed := .int t, count := none }
    _ _ hss ha'
  have h2 := generate_congr_seed rand (fun _ => 0) { o with seed := .int t, count := none }
    _ _ hss ha'
  unfold singleColorOfSeed stateAfterSeed randomColorSingle
  simp only [seedSetup, hp, if_true]
  exact ⟨h1, h2.1, h2.2⟩

theorem passesIntegerTest_of_lt (t : Int) (h : t.natAbs < 10 ^ 21) :
    passesIntegerTest t = true := by
  unfold passesIntegerTest
  simp only [decide_eq_true_eq]
  exact h

theorem seedTruthy_stateAfterSeed (x : Option Int) (h1 : x ≠ none) (h2 : x ≠ some 0) :
    seedTruthy x = true := by
  cases x with
  | none => exact absurd rfl h1
  | some v =>
    unfold seedTruthy
    simp only [bne_iff_ne, ne_eq]
    intro hv
    exact h2 (by rw [hv])

/-- The count loop when every increment of line 75 takes place: started with
`options.seed = s + j`, its `i`-th colour is the colour of the seed `s + j + i + 1`. -/
theorem countLoop_seeds (rand : Nat → ℚ) (hrand : RandOK rand) (o : Options) (s : Int)
    (n : Nat) (ha : AlphaFixed o) (hfit : s.natAbs + n ≤ 2 ^ 53)
    (hs : ∀ i : Nat, i < n → s + i ≠ 0)
    (hstate : ∀ i : Nat, 1 ≤ i → i < n → stateAfterSeed o (s + i) ≠ some 0) (k : Nat) :
    ∀ (j : Nat) (m : Module) (acc : List Color), j + k = n →
      (0 < k → seedTruthy m.seed = true) →
      ∃ cs o1 m1, countLoop rand k { o with seed := .int (s + j), count := none } m acc =
          (.ok (acc ++ cs), o1, m1) ∧ cs.length = k ∧
        ∀ i : Nat, i < k → ∃ c, cs[i]? = some c ∧
          singleColorOfSeed o (s + j + i + 1) = .ok c := by
  induction k with
  | zero =>
    intro j m acc _ _
    exact ⟨[], { o with seed := .int (s + j), count := none }, m, by simp [countLoop], rfl,
      fun i hi => absurd hi (by omega)⟩
  | succ k ih =>
    intro j m acc hjk htruthy
    have hj : j < n := by omega
    have hopt : seedOptionTruthy (SeedOpt.int (s + j)) = true := by
      unfold seedOptionTruthy
      simp only [bne_iff_ne, ne_eq]
      exact hs j hj
    have hpass : passesIntegerTest (s + j + 1) = true := by
      apply passesIntegerTest_of_lt
      omega
    obtain ⟨e1, e2, e3⟩ := randomColorSingle_seeded rand o (s + j + 1) m ha hpass
    obtain ⟨c, hc⟩ := randomColorSingle_ok rand hrand
      { o with seed := .int (s + j + 1), count := none } m 0 (by
        show toDouble ((s + j + 1 : Int) : ℚ) = ((s + j + 1 : Int) : ℚ) ∧
          (s + j + 1).natAbs < 10 ^ 21
        exact ⟨toDouble_intCast _ (by rw [abs_le]; constructor <;> omega), by omega⟩)
    have hadd : iadd (s + j) 1 = s + j + 1 :=
      iadd_eq _ _ (by rw [abs_le]; constructor <;> omega)
    unfold countLoop
    simp only [htruthy (by omega), hopt, Bool.and_self, if_true, seedOptionAddOne, hadd]
    cases hr : randomColorSingle rand { o with seed := .int (s + j + 1), count := none } m with
    | mk r m1 =>
      rw [hr] at hc e1 e2 e3
      simp only at hc e1 e2 e3
      subst hc
      simp only
      have hcast : s + ((j + 1 : Nat) : Int) = s + j + 1 := by push_cast; ring
      have hnext : 0 < k → seedTruthy m1.seed = true := by
        intro hk
        apply seedTruthy_stateAfterSeed _ e3
        rw [e2, ← hcast]
        exact hstate (j + 1) (by omega) (by omega)
      obtain ⟨cs, o1, m2, h1, h2, h3⟩ := ih (j + 1) m1 (acc ++ [c]) (by omega) hnext
      rw [hcast] at h1
      refine ⟨c :: cs, o1, m2, ?_, by simp [h2], ?_⟩
      · rw [h1]; simp
      · intro i hi
        cases i with
        | zero =>
          refine ⟨c, by simp, ?_⟩
          simpa using e1.symm
        | succ i =>
          obtain ⟨c', hc1, hc2⟩ := h3 i (by omega)
          refine ⟨c', by simpa using hc1, ?_⟩
          rw [← hc2]
          congr 1
          push_cast
          ring

/-- C14, amended. In a batch with integer seed `s` and count `n`, for a format that draws no
random alpha, the seed is incremented before every draw, the first one included: whenever
each increment of line 75 takes place (the seed `s + i` and the state left by the previous
round are not `0`) and is exact in doubles (`|s| + n ≤ 2^53`), for `k = 1..n` the `k`-th
colour of the batch is the colour of the single call with seed `s + k` and the same other
options. -/
theorem randomColor_batch_seeds (rand : Nat → ℚ) (hrand : RandOK rand) (o : Options) (s : Int)
    (n : Nat) (m : Module) (hseed : o.seed = .int s) (hcount : o.count = some n)
    (ha : AlphaFixed o) (hfit : s.natAbs + n ≤ 2 ^ 53)
    (hs : ∀ i : Nat, i < n → s + i ≠ 0)
    (hstate : ∀ i : Nat, 1 ≤ i → i < n → stateAfterSeed o (s + i) ≠ some 0) :
    ∃ cs, (randomColor rand o m).outcome = .ok (Value.colors cs) ∧ cs.length = n ∧
      ∀ i : Nat, i < n → ∀ (rand' : Nat → ℚ) (m' : Module), ∃ c, cs[i]? = some c ∧
        (randomColor rand' { o with seed := .int (s + i + 1), count := none } m').outcome =
          .ok (Value.color c) := by
  have hpass : passesIntegerTest s = true := passesIntegerTest_of_lt s (by omega)
  have hsetup : seedSetup o.seed m = .ok { m with seed := some s } := by
    rw [hseed]
    simp only [seedSetup, hpass, if_true]
  have hopts : ({ o with count := none } : Options) =
      { o with seed := .int (s + (0 : Nat)), count := none } := by
    simp [hseed]
  have htruthy : 0 < n → seedTruthy (({ m with seed := some s } : Module)).seed = true := by
    intro hn
    unfold seedTruthy
    simp only [bne_iff_ne, ne_eq]
    simpa using hs 0 hn
  obtain ⟨cs, o1, m1, h1, h2, h3⟩ :=
    countLoop_seeds rand hrand o s n ha hfit hs hstate n 0 { m with seed := some s } []
      (by omega) htruthy
  refine ⟨cs, ?_, h2, ?_⟩
  · unfold randomColor
    rw [hsetup, hcount]
    simp only
    rw [hopts, h1]
    simp
  · intro i hi rand' m'
    obtain ⟨c, hc1, hc2⟩ := h3 i hi
    refine ⟨c, hc1, ?_⟩
    have hp : passesIntegerTest (s + i + 1) = true :=
      passesIntegerTest_of_lt _ (by omega)
    rw [randomColor_single rand' _ m' rfl,
      (randomColorSingle_seeded rand' o (s + i + 1) m' ha hp).1]
    simp only [Nat.cast_zero, add_zero] at hc2
    rw [hc2]
    rfl

/-- C14, witness: seed `1` and count `5`; the five colours are those of the seeds `2..6`. -/
theorem randomColor_batch_seeds_witness :
    ∃ cs, (randomColor (fun _ => 0)
        { seed := .int 1, count := some 5, hue := .absent, luminosity := .default,
          format := .hsvArray, alpha := none } ⟨none, 0⟩).outcome = .ok (Value.colors cs) ∧
      cs.length = 5 ∧
      ∀ i : Nat, i < 5 → ∀ (rand' : Nat → ℚ) (m' : Module), ∃ c, cs[i]? = some c ∧
        (randomColor rand'
          { seed := .int (1 + i + 1), count := none, hue := .absent, luminosity := .default,
            format := .hsvArray, alpha := none } m').outcome = .ok (Value.color c) :=
  randomColor_batch_seeds (fun _ => 0) randOK_zero
    { seed := .int 1, count := some 5, hue := .absent, luminosity := .default,
      format := .hsvArray, alpha := none } 1 5 ⟨none, 0⟩ rfl rfl
    (Or.inl ⟨by decide, by decide⟩) (by norm_num) (fun i _ => by omega)
    (fun i h1 h5 => by interval_cases i <;> decide!)

/-- C14 as stated fails: the first colour of the batch with seed `1` is `[104, 56, 84]`, the
colour of seed `2`, while seed `1` alone produces `[90, 68, 83]`. -/
theorem randomColor_batch_first_shifted :
    (randomColor (fun _ => 0)
        { seed := .int 1, count := some 2, hue := .absent, luminosity := .default,
          format := .hsvArray, alpha := none } ⟨none, 0⟩).outcome =
      .ok (Value.colors [Color.hsvArray 104 56 84, Color.hsvArray 119 45 99]) ∧
    (randomColor (fun _ => 0)
        { seed := .int 1, count := none, hue := .absent, luminosity := .default,
          format := .hsvArray, alpha := none } ⟨none, 0⟩).outcome =
      .ok (Value.color (Color.hsvArray 90 68 83)) ∧
    (randomColor (fun _ => 0)
        { seed := .int 2, count := none, hue := .absent, luminosity := .default,
          format := .hsvArray, alpha := none } ⟨none, 0⟩).outcome =
      .ok (Value.color (Color.hsvArray 104 56 84)) := by
  decide!


/-- From `2^53` on the increment of line 75 is absorbed by the rounding of the sum: the batch
with seed `2^53` and count `2` leaves `options.seed` at `2^53` and returns the colour of
seed `2^53` twice. -/
theorem randomColor_batch_seed_absorbed :
    (randomColor (fun _ => 0)
        { seed := .int (2 ^ 53), count := some 2, hue := .absent, luminosity := .default,
          format := .hsvArray, alpha := none } ⟨none, 0⟩).outcome =
      .ok (Value.colors [Color.hsvArray 70 46 92, Color.hsvArray 70 46 92]) ∧
    (randomColor (fun _ => 0)
        { seed := .int (2 ^ 53), count := some 2, hue := .absent, luminosity := .default,
          format := .hsvArray, alpha := none } ⟨none, 0⟩).options.seed = .int (2 ^ 53) ∧
    (randomColor (fun _ => 0)
        { seed := .int (2 ^ 53), count := none, hue := .absent, luminosity := .default,
          format := .hsvArray, alpha := none } ⟨none, 0⟩).outcome =
      .ok (Value.color (Color.hsvArray 70 46 92)) := by
  decide!
/-! ## The HSL view (lines 430-441) -/

theorem small_doubles :
    toDouble (1 / 128) = 1 / 128 ∧ toDouble (127 / 128) = 127 / 128 ∧
    toDouble (255 / 128) = 255 / 128 ∧ toDouble (127 / 64) = 127 / 64 := by
  decide!

/-- Away from brightness `0` and from the pair saturation `0`, brightness `100`, the divisor
of the saturation formula of `HSVtoHSL` is at least `1/128`, and the triple it returns has
the input hue, a saturation that is a number and is not negative, and a lightness in
`[0, 100]`. -/
theorem HSVtoHSL_defined (h s v : Int) (s0 : 0 ≤ s) (s1 : s ≤ 100) (v0 : 1 ≤ v) (v1 : v ≤ 100)
    (hne : ¬ (s = 0 ∧ v = 100)) :
    ∃ sat light : ℚ, HSVtoHSL (h, s, v) = (h, JSNum.fin sat, light) ∧
      0 ≤ sat ∧ 0 ≤ light ∧ light ≤ 100 := by
  obtain ⟨d1, d2, d3, d4⟩ := small_doubles
  obtain ⟨hs0, hs1⟩ := unit_fdiv_100 s0 s1
  obtain ⟨-, hv1⟩ := unit_fdiv_100 (by omega : 0 ≤ v) v1
  have hv0 : 1 / 128 ≤ fdiv (v : ℚ) 100 := by
    rw [fdiv_eq _ _ (by norm_num)]
    apply le_toDouble_of_le d1
    have : (1 : ℚ) ≤ v := by exact_mod_cast v0
    rw [div_le_div_iff₀ (by norm_num) (by norm_num)]
    linarith
  have ha : 1 ≤ fsub 2 (fdiv (s : ℚ) 100) ∧ fsub 2 (fdiv (s : ℚ) 100) ≤ 2 := by
    rw [fsub_eq]
    have := toDouble_mem_int (x := 2 - fdiv (s : ℚ) 100) (a := 1) (b := 2) (by norm_num)
      (by push_cast; linarith) (by push_cast; linarith) (by norm_num)
    exact_mod_cast this
  have hk0 : 1 / 128 ≤ fmul (fsub 2 (fdiv (s : ℚ) 100)) (fdiv (v : ℚ) 100) := by
    rw [fmul_eq]
    apply le_toDouble_of_le d1
    nlinarith [ha.1]
  have hk1 : fmul (fsub 2 (fdiv (s : ℚ) 100)) (fdiv (v : ℚ) 100) ≤ 255 / 128 := by
    rw [fmul_eq]
    apply toDouble_le_of_le d3
    by_cases hs : s = 0
    · have hv : v ≤ 99 := by
        by_contra hc
        exact hne ⟨hs, by omega⟩
      have hv' : fdiv (v : ℚ) 100 ≤ 127 / 128 := by
        rw [fdiv_eq _ _ (by norm_num)]
        apply toDouble_le_of_le d2
        have : (v : ℚ) ≤ 99 := by exact_mod_cast hv
        rw [div_le_div_iff₀ (by norm_num) (by norm_num)]
        linarith
      nlinarith [ha.1, ha.2]
    · have hs' : 1 / 128 ≤ fdiv (s : ℚ) 100 := by
        rw [fdiv_eq _ _ (by norm_num)]
        apply le_toDouble_of_le d1
        have : (1 : ℚ) ≤ s := by exact_mod_cast (by omega : (1 : Int) ≤ s)
        rw [div_le_div_iff₀ (by norm_num) (by norm_num)]
        linarith
      have ha' : fsub 2 (fdiv (s : ℚ) 100) ≤ 255 / 128 := by
        rw [fsub_eq]
        apply toDouble_le_of_le d3
        linarith
      nlinarith [ha.1]
  unfold HSVtoHSL
  simp only
  generalize fdiv (s : ℚ) 100 = ss at hs0 hs1 ha hk0 hk1
  generalize fdiv (v : ℚ) 100 = vv at hv0 hv1 hk0 hk1
  generalize fsub 2 ss = a at ha hk0 hk1
  have hn0 : 0 ≤ fmul ss vv := by
    rw [fmul_eq]
    exact toDouble_nonneg (mul_nonneg hs0 (by linarith))
  generalize fmul ss vv = n at hn0
  generalize hk : fmul a vv = k at hk0 hk1
  have hd : 1 / 128 ≤ (if k < 1 then k else fsub 2 k) := by
    split_ifs with hlt
    · exact hk0
    · rw [fsub_eq]
      apply le_toDouble_of_le d1
      linarith
  generalize (if k < 1 then k else fsub 2 k) = d at hd
  have hdne : d ≠ 0 := by
    intro h0
    rw [h0] at hd
    norm_num at hd
  have hq0 : 0 ≤ fdiv n d := by
    rw [fdiv_eq _ _ hdne]
    exact toDouble_nonneg (div_nonneg hn0 (by linarith))
  have hm0 : 0 ≤ fmul (fdiv n d) 10000 := by
    rw [fmul_eq]
    exact toDouble_nonneg (by linarith)
  have hf0 : (0 : Int) ≤ ⌊fmul (fdiv n d) 10000 + 1 / 2⌋ := by
    rw [Int.le_floor]; push_cast; linarith
  have hl : 0 ≤ fmul (fdiv k 2) 100 ∧ fmul (fdiv k 2) 100 ≤ 100 := by
    have h2 : 0 ≤ fdiv k 2 ∧ fdiv k 2 ≤ 1 := by
      rw [fdiv_eq _ _ (by norm_num)]
      have := toDouble_mem_int (x := k / 2) (a := 0) (b := 1) (by norm_num)
        (by push_cast; linarith) (by push_cast; linarith) (by norm_num)
      exact_mod_cast this
    rw [fmul_eq]
    have := toDouble_mem_int (x := fdiv k 2 * 100) (a := 0) (b := 100) (by norm_num)
      (by push_cast; linarith [h2.1]) (by push_cast; linarith [h2.2]) (by norm_num)
    exact_mod_cast this
  refine ⟨fdiv ((⌊fmul (fdiv n d) 10000 + 1 / 2⌋ : Int) : ℚ) 100, _, ?_, ?_, hl.1, hl.2⟩
  · simp [jsDiv, hdne, times10000, roundDiv100]
  · rw [fdiv_eq _ _ (by norm_num)]
    apply toDouble_nonneg
    have : (0 : ℚ) ≤ ((⌊fmul (fdiv n d) 10000 + 1 / 2⌋ : Int) : ℚ) := by exact_mod_cast hf0
    positivity

/-- C21, failing input. With seed `114` and hue `'monochrome'` the generated triple is
`[272, 0, 0]`; in `HSVtoHSL` then `k = (2 - s)·v = 0`, the saturation formula divides `0` by
`0`, and the `hslArray` result holds `NaN` as its saturation. The same happens at saturation
`0`, brightness `100`, where `k = 2` and the divisor `2 - k` is `0`. -/
theorem HSVtoHSL_divides_by_zero :
    (randomColor (fun _ => 0)
        { seed := .int 114, count := none, hue := .str "monochrome".toList,
          luminosity := .default, format := .hsvArray, alpha := none } ⟨none, 0⟩).outcome =
      .ok (Value.color (Color.hsvArray 272 0 0)) ∧
    (randomColor (fun _ => 0)
        { seed := .int 114, count := none, hue := .str "monochrome".toList,
          luminosity := .default, format := .hslArray, alpha := none } ⟨none, 0⟩).outcome =
      .ok (Value.color (Color.hslArray 272 JSNum.nan 0)) ∧
    HSVtoHSL (272, 0, 0) = (272, JSNum.nan, 0) ∧
    HSVtoHSL (272, 0, 100) = (272, JSNum.nan, 100) := by
  decide!
end RandomColor
